import Mathlib

/-!
# Generic parameter clauses and where-clauses (`lib/Parse/ParseGeneric.cpp`)

A shallow embedding of `Parser::parseGenericParameters`, `Parser::maybeParseGenericParams`
and `Parser::parseGenericWhereClause`.

The parser object is an explicit state (`Parser`): the current token `Tok`, the lexer `L`,
the diagnostics emitted so far, the scope, and the context the sub-parsers allocate in.
Functions that can hit an assertion, or whose loops are driven by the external sub-parsers,
return `Except Fault`; loops take a fuel argument and report `Fault.timeout` when it runs
out.  The identifier and type sub-parsers live in other files of the parser; they are the
fields of `Env`, so every statement below is about all of them at once.  The token, location,
diagnostic and AST types are declared in headers that are not among the sources; they are
modelled from the spec (its data model and external interfaces) with the fields this file
uses, and so are the cursor helpers, each marked where it is defined.
-/

namespace swift

/-! ## Tokens and locations -/

/-- Token kinds (`tok::...`), the ones this file tests for and a few others. -/
inductive tok where
  | unknown
  | eof
  | identifier
  | integer_literal
  | oper_binary
  | oper_postfix
  | oper_prefix
  | colon
  | comma
  | equal
  | period
  | l_paren
  | r_paren
  | l_brace
  | r_brace
  | kw_where
  | kw_protocol
  | kw_func
  deriving DecidableEq, Repr

/-- A source location: `none` is the default-constructed, invalid `SourceLoc()`. -/
abbrev SourceLoc := Option Nat

/-- Whether a location is populated (`SourceLoc::isValid`). -/
def SourceLoc.isValid (Loc : SourceLoc) : Bool := Loc.isSome

/-- A token: kind, spelling and the offset of its first character. -/
structure Token where
  Kind : tok
  Text : String
  Loc : Nat
  deriving DecidableEq, Repr

namespace Token

/-- Modelled from the spec: `Tok.is(K)`, the cursor test `matches(kind)`. -/
def is (T : Token) (K : tok) : Bool := decide (T.Kind = K)

/-- Modelled from the spec: `Tok.getLoc()`; the location of a token is always valid. -/
def getLoc (T : Token) : SourceLoc := some T.Loc

/-- Modelled from the spec: `Tok.getText()`; the end-of-input token has no text. -/
def getText (T : Token) : String := if T.Kind = tok.eof then "" else T.Text

/-- Modelled from the spec: `Tok.getLength()`, the length of the text. -/
def getLength (T : Token) : Nat := T.getText.data.length

/-- Modelled from the spec: `Tok.isAnyOperator()`, the test for an operator-shaped token. -/
def isAnyOperator (T : Token) : Bool :=
  T.is tok.oper_binary || T.is tok.oper_postfix || T.is tok.oper_prefix

end Token

/-- Modelled from the spec: `startsWithLess` is declared in the parser's header, which is not
among the sources; the spec describes a bracket-shaped token as one whose lexeme begins with
the angle-bracket character. -/
def startsWithLess (T : Token) : Bool := decide (T.getText.data.head? = some '<')

/-- Modelled from the spec: `startsWithGreater` is declared in the parser's header, which is
not among the sources; the spec has the parser accept any token whose lexeme begins with the
close-angle character. -/
def startsWithGreater (T : Token) : Bool := decide (T.getText.data.head? = some '>')

/-! ## Diagnostics -/

/-- Diagnostic identifiers (`diag::...`); `other` stands for those of the sub-parsers. -/
inductive DiagID where
  | expected_generics_parameter_name
  | expected_generics_type_restriction (Name : String)
  | expected_rangle_generics_param
  | opening_angle
  | requires_single_equal
  | expected_requirement_delim
  | other (n : Nat)
  deriving DecidableEq, Repr

/-- A fix-it: replace the source range `[Start, End]` (a range of tokens) by `Text`. -/
structure FixIt where
  Start : SourceLoc
  End : SourceLoc
  Text : String
  deriving DecidableEq, Repr

/-- One emitted diagnostic. -/
structure Diagnostic where
  Loc : SourceLoc
  ID : DiagID
  FixIts : List FixIt
  deriving DecidableEq, Repr

/-! ## AST -/

/-- Type representations are opaque to this file: it stores and forwards what the type
sub-parsers return. -/
structure TypeRepr where
  Loc : Nat
  Components : List String
  IsComposition : Bool
  deriving DecidableEq, Repr

/-- The declaration built for a generic parameter:
`new (Context) TypeAliasDecl(NameLoc, Name, NameLoc, TypeLoc(), CurDeclContext, Inherited)`
followed by `setGenericParameter()`. -/
structure TypeAliasDecl where
  TypeAliasLoc : SourceLoc
  Name : String
  NameLoc : SourceLoc
  UnderlyingTy : Option TypeRepr
  DC : Nat
  Inherited : List TypeRepr
  GenericParameter : Bool
  deriving DecidableEq, Repr

/-- A `GenericParam` wraps the declaration of the parameter. -/
abbrev GenericParam := TypeAliasDecl

/-- A requirement of a where-clause. -/
inductive Requirement where
  | Conformance (Subject : TypeRepr) (ColonLoc : SourceLoc) (Protocol : TypeRepr)
  | SameType (FirstType : TypeRepr) (EqualLoc : SourceLoc) (SecondType : TypeRepr)
  deriving DecidableEq, Repr

/-- The arguments of `GenericParamList::create`. -/
structure GenericParamList where
  LAngleLoc : SourceLoc
  Params : List GenericParam
  WhereLoc : SourceLoc
  Requirements : List Requirement
  RAngleLoc : SourceLoc
  deriving DecidableEq, Repr

/-! ## Parser state -/

/-- The lexer: the tokens not yet handed to the parser, and the end of the buffer, where the
end-of-input token is formed once they are used up. -/
structure Lexer where
  pending : List Token
  bufferEnd : Nat
  deriving DecidableEq, Repr

/-- The members of `Parser` this file reads or writes.  `Context` is whatever the
sub-parsers keep between calls; this file only passes it on. -/
structure Parser (σ : Type) where
  Tok : Token
  L : Lexer
  Diags : List Diagnostic
  ScopeInfo : List TypeAliasDecl
  CurDeclContext : Nat
  Context : σ

/-- How a call can fail to return: a violated `assert`, or a loop that used up its fuel. -/
inductive Fault where
  | assertion (msg : String)
  | timeout
  deriving DecidableEq, Repr

namespace Parser

variable {σ : Type}

/-- Modelled from the spec: `L->lex(Tok)`, the forward-only stream; the next pending token
becomes current, and past the last one the lexer forms the end-of-input token. -/
def lex (P : Parser σ) : Parser σ :=
  match P.L.pending with
  | [] => { P with Tok := { Kind := tok.eof, Text := "", Loc := P.L.bufferEnd } }
  | T :: Ts => { P with Tok := T, L := { P.L with pending := Ts } }

/-- Modelled from the spec: `consumeToken()` is defined in `Parser.cpp`, which is not among
the sources; it is the cursor's `advance`, returning the location of the consumed token.
The stream ends at the end-of-input sentinel: advancing over it is counted as a fault here,
so that "never reads past the end of input" is something a run can be checked for. -/
def consumeToken (P : Parser σ) : Except Fault (SourceLoc × Parser σ) :=
  if P.Tok.is tok.eof then .error (Fault.assertion "Lexing past eof!")
  else .ok (P.Tok.getLoc, P.lex)

/-- Modelled from the spec: `consumeToken(K)` consumes a token that has to be of kind `K`. -/
def consumeTokenOfKind (P : Parser σ) (K : tok) : Except Fault (SourceLoc × Parser σ) :=
  if P.Tok.is K then P.consumeToken
  else .error (Fault.assertion "Consuming wrong token kind")

/-- Modelled from the spec: `consumeIf(K)` consumes the current token when it is of kind `K`
and says whether it did. -/
def consumeIf (P : Parser σ) (K : tok) : Except Fault (Bool × Parser σ) :=
  if P.Tok.is K then
    match P.consumeToken with
    | .error e => .error e
    | .ok (_, P1) => .ok (true, P1)
  else .ok (false, P)

/-- Modelled from the spec: `diagnose(Loc, ID)` hands one diagnostic to the sink; `FixIts`
are the fix-its attached through the returned builder. -/
def diagnose (P : Parser σ) (Loc : SourceLoc) (ID : DiagID) (FixIts : List FixIt) :
    Parser σ :=
  { P with Diags := P.Diags ++ [{ Loc := Loc, ID := ID, FixIts := FixIts }] }

/-- Modelled from the spec: `ScopeInfo.addToScope(D)` pushes a declaration on the scope; this
file uses no removal. -/
def addToScope (P : Parser σ) (D : TypeAliasDecl) : Parser σ :=
  { P with ScopeInfo := P.ScopeInfo ++ [D] }

/-- A call of a sub-parser that lives outside this file.  The diagnostic sink is write-only:
the callee starts from an empty sink and what it emits is appended to what was there. -/
def invoke {α : Type} (f : Parser σ → Option α × Parser σ) (P : Parser σ) :
    Option α × Parser σ :=
  let r := f { P with Diags := [] }
  (r.1, { r.2 with Diags := P.Diags ++ r.2.Diags })

/-- Number of tokens the cursor can still advance over (the end-of-input token excluded). -/
def remaining (P : Parser σ) : Nat :=
  if P.Tok.Kind = tok.eof then 0 else P.L.pending.length + 1

end Parser

/-- The parts of the parser that this file calls and that are defined elsewhere:
`Lexer::getTokenKind`, `parseIdentifier`, `parseTypeIdentifier` and `parseTypeComposition`.
A sub-parser returns `none` where the C++ returns an error flag or a null pointer. -/
structure Env (σ : Type) where
  getTokenKind : String → tok
  parseIdentifier : DiagID → Parser σ → Option (String × SourceLoc) × Parser σ
  parseTypeIdentifier : Parser σ → Option TypeRepr × Parser σ
  parseTypeComposition : Parser σ → Option TypeRepr × Parser σ

namespace Parser

variable {σ : Type}

/-- The token left when the first character of the current token is split off: the rest of
the spelling, one character further on, with the kind the lexer gives that spelling. -/
def splitFirstChar (E : Env σ) (P : Parser σ) : Parser σ :=
  { P with Tok := { Kind := E.getTokenKind (String.mk P.Tok.getText.data.tail),
                    Text := String.mk P.Tok.getText.data.tail,
                    Loc := P.Tok.Loc + 1 } }

/-- Modelled from the spec: `consumeStartingLess()` is defined in `Parser.cpp`, which is not
among the sources; it consumes the bracket, splitting it off a longer operator token so that
the remaining characters stay available as a token. -/
def consumeStartingLess (E : Env σ) (P : Parser σ) : Except Fault (SourceLoc × Parser σ) :=
  if startsWithLess P.Tok then
    if P.Tok.getLength = 1 then P.consumeToken
    else .ok (P.Tok.getLoc, P.splitFirstChar E)
  else .error (Fault.assertion "Token does not start with <")

/-- Modelled from the spec: `consumeStartingGreater()` is defined in `Parser.cpp`, which is
not among the sources; it consumes the bracket, splitting it off a longer operator token so
that the remaining characters stay available as a token. -/
def consumeStartingGreater (E : Env σ) (P : Parser σ) : Except Fault (SourceLoc × Parser σ) :=
  if startsWithGreater P.Tok then
    if P.Tok.getLength = 1 then P.consumeToken
    else .ok (P.Tok.getLoc, P.splitFirstChar E)
  else .error (Fault.assertion "Token does not start with >")

/-- The loop of `skipUntilAnyOperator`, with a bound on the number of tokens skipped. -/
def skipUntilAnyOperatorLoop : Nat → Parser σ → Parser σ
  | 0, P => P
  | n + 1, P =>
    if P.Tok.is tok.eof || P.Tok.isAnyOperator then P
    else skipUntilAnyOperatorLoop n P.lex

/-- Modelled from the spec: `skipUntilAnyOperator()` is defined in `Parser.cpp`, which is not
among the sources; it skips tokens until the current one is of an operator kind, and stops
at the end-of-input sentinel. -/
def skipUntilAnyOperator (P : Parser σ) : Parser σ :=
  skipUntilAnyOperatorLoop (P.L.pending.length + 1) P

/-! ## `parseGenericWhereClause` (lines 145-208) -/

/-- The right-hand side of a conformance requirement (lines 164-169): a composition after
the `protocol` keyword, a type identifier otherwise. -/
def parseProtocolOrComposition (E : Env σ) (P : Parser σ) : Option TypeRepr × Parser σ :=
  if P.Tok.is tok.kw_protocol then P.invoke E.parseTypeComposition
  else P.invoke E.parseTypeIdentifier

/-- The token test of lines 179-180: an operator spelled `==`, or the assignment token. -/
def isSameTypeDelim (T : Token) : Bool :=
  (T.isAnyOperator && decide (T.getText = "==")) || T.is tok.equal

/-- Lines 182-185: a lone `=` is diagnosed, with a fix-it replacing that token by `==`. -/
def diagnoseSingleEqual (P : Parser σ) : Parser σ :=
  if P.Tok.is tok.equal then
    P.diagnose P.Tok.getLoc DiagID.requires_single_equal
      [{ Start := P.Tok.getLoc, End := P.Tok.getLoc, Text := "==" }]
  else P

/-- One pass through the body of the `do ... while` of `parseGenericWhereClause`
(lines 151-203).  `none` is a `break` (which is always preceded by `Invalid = true`),
`some R` is a pass that reached `Requirements.push_back(R)`. -/
def parseGenericWhereClauseBody (E : Env σ) (P : Parser σ) :
    Except Fault (Option Requirement × Parser σ) :=
  -- Parse the leading type-identifier.
  match P.invoke E.parseTypeIdentifier with
  | (none, P1) => .ok (none, P1)
  | (some FirstType, P1) =>
    if P1.Tok.is tok.colon then
      -- A conformance-requirement.
      match P1.consumeToken with
      | .error e => .error e
      | .ok (ColonLoc, P2) =>
        -- Parse the protocol or composition.
        match parseProtocolOrComposition E P2 with
        | (none, P3) => .ok (none, P3)
        | (some Protocol, P3) =>
          .ok (some (Requirement.Conformance FirstType ColonLoc Protocol), P3)
    else if isSameTypeDelim P1.Tok then
      -- A same-type-requirement.
      match (diagnoseSingleEqual P1).consumeToken with
      | .error e => .error e
      | .ok (EqualLoc, P2) =>
        -- Parse the second type.
        match P2.invoke E.parseTypeIdentifier with
        | (none, P3) => .ok (none, P3)
        | (some SecondType, P3) =>
          .ok (some (Requirement.SameType FirstType EqualLoc SecondType), P3)
    else
      .ok (none, P1.diagnose P1.Tok.getLoc DiagID.expected_requirement_delim [])

/-- The `do ... while (consumeIf(tok::comma))` of `parseGenericWhereClause` (lines 150-205):
the result is the `Invalid` flag, the requirement vector and the parser. -/
def parseGenericWhereClauseLoop (E : Env σ) :
    Nat → Parser σ → List Requirement → Except Fault (Bool × List Requirement × Parser σ)
  | 0, _, _ => .error Fault.timeout
  | fuel + 1, P, Requirements =>
    match parseGenericWhereClauseBody E P with
    | .error e => .error e
    | .ok (none, P1) => .ok (true, Requirements, P1)
    | .ok (some R, P1) =>
      -- If there is a comma, keep parsing the list.
      match P1.consumeIf tok.comma with
      | .error e => .error e
      | .ok (true, P2) => parseGenericWhereClauseLoop E fuel P2 (Requirements ++ [R])
      | .ok (false, P2) => .ok (false, Requirements ++ [R], P2)

/-- The function
`Parser::parseGenericWhereClause(SourceLoc &WhereLoc, SmallVectorImpl<Requirement> &)`
(lines 145-208): the result is the returned flag, `WhereLoc`, the requirement vector and the parser. -/
def parseGenericWhereClause (E : Env σ) (fuel : Nat) (P : Parser σ)
    (Requirements : List Requirement) :
    Except Fault (Bool × SourceLoc × List Requirement × Parser σ) :=
  -- Parse the 'requires'.
  match P.consumeTokenOfKind tok.kw_where with
  | .error e => .error e
  | .ok (WhereLoc, P1) =>
    match parseGenericWhereClauseLoop E fuel P1 Requirements with
    | .error e => .error e
    | .ok (Invalid, Requirements1, P2) => .ok (Invalid, WhereLoc, Requirements1, P2)

/-! ## `parseGenericParameters` (lines 35-120) -/

/-- The optional `:` and type after a parameter name (lines 56-71): the result is
`Inherited`, the `Invalid` flag and the parser. -/
def parseGenericParamInherited (E : Env σ) (P : Parser σ) (Name : String) (Invalid : Bool) :
    Except Fault (List TypeRepr × Bool × Parser σ) :=
  if P.Tok.is tok.colon then
    match P.consumeToken with
    | .error e => .error e
    | .ok (_, P1) =>
      if P1.Tok.Kind = tok.identifier then
        .ok ((P1.invoke E.parseTypeIdentifier).1.toList, Invalid,
             (P1.invoke E.parseTypeIdentifier).2)
      else if P1.Tok.Kind = tok.kw_protocol then
        .ok ((P1.invoke E.parseTypeComposition).1.toList, Invalid,
             (P1.invoke E.parseTypeComposition).2)
      else
        .ok ([], true,
             P1.diagnose P1.Tok.getLoc (DiagID.expected_generics_type_restriction Name) [])
  else .ok ([], Invalid, P)

/-- The declaration of a parameter (lines 74-78):
`new (Context) TypeAliasDecl(NameLoc, Name, NameLoc, TypeLoc(), CurDeclContext, Inherited)`
and `setGenericParameter()`. -/
def makeGenericParam (P : Parser σ) (Name : String) (NameLoc : SourceLoc)
    (Inherited : List TypeRepr) : GenericParam :=
  { TypeAliasLoc := NameLoc, Name := Name, NameLoc := NameLoc, UnderlyingTy := none,
    DC := P.CurDeclContext, Inherited := Inherited, GenericParameter := true }

/-- One pass through the body of the `do ... while` of `parseGenericParameters`
(lines 47-82).  `none` is the `break` after a failed name; `some Param` is a pass that built
`Param`, pushed it and added it to the scope.  The flag is `Invalid` after the pass. -/
def parseGenericParametersBody (E : Env σ) (P : Parser σ) (Invalid : Bool) :
    Except Fault (Option GenericParam × Bool × Parser σ) :=
  -- Parse the name of the parameter.
  match P.invoke (E.parseIdentifier DiagID.expected_generics_parameter_name) with
  | (none, P1) => .ok (none, true, P1)
  | (some (Name, NameLoc), P1) =>
    -- Parse the ':' followed by a type.
    match parseGenericParamInherited E P1 Name Invalid with
    | .error e => .error e
    | .ok (Inherited, Invalid1, P2) =>
      -- Add this parameter to the scope.
      .ok (some (P2.makeGenericParam Name NameLoc Inherited), Invalid1,
           P2.addToScope (P2.makeGenericParam Name NameLoc Inherited))

/-- The `do ... while (consumeIf(tok::comma))` of `parseGenericParameters` (lines 46-85):
the result is `GenericParams`, the `Invalid` flag and the parser. -/
def parseGenericParametersLoop (E : Env σ) :
    Nat → Parser σ → List GenericParam → Bool →
      Except Fault (List GenericParam × Bool × Parser σ)
  | 0, _, _, _ => .error Fault.timeout
  | fuel + 1, P, GenericParams, Invalid =>
    match parseGenericParametersBody E P Invalid with
    | .error e => .error e
    | .ok (none, Invalid1, P1) => .ok (GenericParams, Invalid1, P1)
    | .ok (some Param, Invalid1, P1) =>
      -- Parse the comma, if the list continues.
      match P1.consumeIf tok.comma with
      | .error e => .error e
      | .ok (true, P2) => parseGenericParametersLoop E fuel P2 (GenericParams ++ [Param]) Invalid1
      | .ok (false, P2) => .ok (GenericParams ++ [Param], Invalid1, P2)

/-- The optional where-clause (lines 88-93): the result is `WhereLoc`, `Requirements`, the
`Invalid` flag and the parser. -/
def parseGenericParametersWhere (E : Env σ) (fuel : Nat) (P : Parser σ) (Invalid : Bool) :
    Except Fault (SourceLoc × List Requirement × Bool × Parser σ) :=
  if P.Tok.is tok.kw_where then
    match parseGenericWhereClause E fuel P [] with
    | .error e => .error e
    | .ok (WhereInvalid, WhereLoc, Requirements, P1) =>
      .ok (WhereLoc, Requirements, WhereInvalid || Invalid, P1)
  else .ok (none, [], Invalid, P)

/-- The two diagnostics for a missing `>` (lines 98-103), emitted unless an error was
recorded before. -/
def diagnoseMissingRAngle (P : Parser σ) (LAngleLoc : SourceLoc) (Invalid : Bool) :
    Parser σ :=
  if !Invalid then
    (P.diagnose P.Tok.getLoc DiagID.expected_rangle_generics_param []).diagnose
      LAngleLoc DiagID.opening_angle []
  else P

/-- The closing `>` (lines 96-113): the result is `RAngleLoc` and the parser. -/
def parseGenericParametersRAngle (E : Env σ) (P : Parser σ) (LAngleLoc : SourceLoc)
    (Invalid : Bool) : Except Fault (SourceLoc × Parser σ) :=
  if !startsWithGreater P.Tok then
    -- Skip until we hit the '>'.
    if startsWithGreater (P.diagnoseMissingRAngle LAngleLoc Invalid).skipUntilAnyOperator.Tok
    then (P.diagnoseMissingRAngle LAngleLoc Invalid).skipUntilAnyOperator.consumeStartingGreater E
    else .ok ((P.diagnoseMissingRAngle LAngleLoc Invalid).skipUntilAnyOperator.Tok.getLoc,
              (P.diagnoseMissingRAngle LAngleLoc Invalid).skipUntilAnyOperator)
  else P.consumeStartingGreater E

/-- The parser after the closing-bracket step (lines 96-113), in closed form: the step never
faults, and this is the parser it returns (`rangle_eq`). -/
def afterRAngle (E : Env σ) (P : Parser σ) (LAngleLoc : SourceLoc) (Invalid : Bool) :
    Parser σ :=
  if startsWithGreater P.Tok then
    (if P.Tok.getLength = 1 then P.lex else P.splitFirstChar E)
  else if startsWithGreater (P.diagnoseMissingRAngle LAngleLoc Invalid).skipUntilAnyOperator.Tok
  then
    (if (P.diagnoseMissingRAngle LAngleLoc Invalid).skipUntilAnyOperator.Tok.getLength = 1 then
      (P.diagnoseMissingRAngle LAngleLoc Invalid).skipUntilAnyOperator.lex
     else (P.diagnoseMissingRAngle LAngleLoc Invalid).skipUntilAnyOperator.splitFirstChar E)
  else (P.diagnoseMissingRAngle LAngleLoc Invalid).skipUntilAnyOperator

/-- The function `Parser::parseGenericParameters(SourceLoc LAngleLoc)` (lines 41-120);
`none` is the returned `nullptr`. -/
def parseGenericParametersAt (E : Env σ) (fuel : Nat) (LAngleLoc : SourceLoc) (P : Parser σ) :
    Except Fault (Option GenericParamList × Parser σ) :=
  -- Parse the generic parameter list.
  match parseGenericParametersLoop E fuel P [] false with
  | .error e => .error e
  | .ok (GenericParams, Invalid, P1) =>
    -- Parse the optional where-clause.
    match parseGenericParametersWhere E fuel P1 Invalid with
    | .error e => .error e
    | .ok (WhereLoc, Requirements, Invalid1, P2) =>
      -- Parse the closing '>'.
      match parseGenericParametersRAngle E P2 LAngleLoc Invalid1 with
      | .error e => .error e
      | .ok (RAngleLoc, P3) =>
        if GenericParams.isEmpty then .ok (none, P3)
        else .ok (some { LAngleLoc := LAngleLoc, Params := GenericParams,
                         WhereLoc := WhereLoc, Requirements := Requirements,
                         RAngleLoc := RAngleLoc }, P3)

/-- The function `Parser::parseGenericParameters()` (lines 35-39); the `assert` is the
fault of the last line. -/
def parseGenericParameters (E : Env σ) (fuel : Nat) (P : Parser σ) :
    Except Fault (Option GenericParamList × Parser σ) :=
  -- Parse the opening '<'.
  if startsWithLess P.Tok then
    match P.consumeStartingLess E with
    | .error e => .error e
    | .ok (LAngleLoc, P1) => parseGenericParametersAt E fuel LAngleLoc P1
  else .error (Fault.assertion "Generic parameter list must start with <")

/-- The function `Parser::maybeParseGenericParams()` (lines 122-127). -/
def maybeParseGenericParams (E : Env σ) (fuel : Nat) (P : Parser σ) :
    Except Fault (Option GenericParamList × Parser σ) :=
  if !startsWithLess P.Tok then .ok (none, P)
  else parseGenericParameters E fuel P

end Parser

/-! ## A reference environment -/

namespace Reference

variable {σ : Type}

/-- Modelled from the spec: `Lexer::getTokenKind` is not among the sources; the remainder of
a split operator is lexed again, a lone `=` being the assignment token and anything else an
operator. -/
def getTokenKind (Text : String) : tok :=
  if Text = "=" then tok.equal else tok.oper_binary

/-- Modelled from the spec: `parseIdentifier` is defined in `Parser.cpp`, which is not among
the sources; the name-parsing primitive consumes one identifier, or reports the given
diagnostic and signals failure. -/
def parseIdentifier (D : DiagID) (P : Parser σ) : Option (String × SourceLoc) × Parser σ :=
  if P.Tok.Kind = tok.identifier then (some (P.Tok.getText, P.Tok.getLoc), P.lex)
  else (none, P.diagnose P.Tok.getLoc D [])

/-- Modelled from the spec: `parseTypeIdentifier` is defined in `ParseType.cpp`, which is not
among the sources; it parses a single type reference, here one identifier, or reports a
diagnostic of its own and fails. -/
def parseTypeIdentifier (P : Parser σ) : Option TypeRepr × Parser σ :=
  if P.Tok.Kind = tok.identifier then
    (some { Loc := P.Tok.Loc, Components := [P.Tok.getText], IsComposition := false }, P.lex)
  else (none, P.diagnose P.Tok.getLoc (DiagID.other 0) [])

/-- The protocols of a composition up to the closing bracket: identifiers separated by
commas. -/
def parseProtocolList : List Token → List String → Option (List String × List Token)
  | [], _ => none
  | T :: Ts, Acc =>
    if T.Kind = tok.identifier then
      match Ts with
      | [] => none
      | U :: Us =>
        if U.Kind = tok.comma then parseProtocolList Us (Acc ++ [T.getText])
        else if startsWithGreater U ∧ U.getLength = 1 then some (Acc ++ [T.getText], Us)
        else none
    else none

/-- Modelled from the spec: `parseTypeComposition` is defined in `ParseType.cpp`, which is not
among the sources; it parses a protocol composition, here `protocol < A, B, ... >`, or reports
a diagnostic of its own and fails without moving the cursor. -/
def parseTypeComposition (P : Parser σ) : Option TypeRepr × Parser σ :=
  if P.Tok.Kind = tok.kw_protocol then
    match P.L.pending with
    | [] => (none, P.diagnose P.Tok.getLoc (DiagID.other 1) [])
    | T :: Ts =>
      if startsWithLess T ∧ T.getLength = 1 then
        match parseProtocolList Ts [] with
        | none => (none, P.diagnose P.Tok.getLoc (DiagID.other 1) [])
        | some (Names, Rest) =>
          (some { Loc := P.Tok.Loc, Components := Names, IsComposition := true },
           ({ P with L := { P.L with pending := Rest } } : Parser σ).lex)
      else (none, P.diagnose P.Tok.getLoc (DiagID.other 1) [])
  else (none, P.diagnose P.Tok.getLoc (DiagID.other 1) [])

/-- The reference environment: the sub-parsers above. -/
def env : Env σ :=
  { getTokenKind := getTokenKind
    parseIdentifier := parseIdentifier
    parseTypeIdentifier := parseTypeIdentifier
    parseTypeComposition := parseTypeComposition }

/-- A parser positioned on the first of the given tokens, with empty sink and scope. -/
def start (Toks : List Token) (bufferEnd : Nat) : Parser Unit :=
  ({ Tok := { Kind := tok.eof, Text := "", Loc := bufferEnd },
     L := { pending := Toks, bufferEnd := bufferEnd },
     Diags := [], ScopeInfo := [], CurDeclContext := 0, Context := () } : Parser Unit).lex

end Reference

/-! ## Assumptions on the sub-parsers -/

variable {σ : Type}

/-- The sub-parsers work on a forward-only cursor: none of them leaves more tokens to read
than it found. -/
structure Env.ForwardOnly (E : Env σ) : Prop where
  ident : ∀ D P, (E.parseIdentifier D P).2.remaining ≤ P.remaining
  typeIdent : ∀ P, (E.parseTypeIdentifier P).2.remaining ≤ P.remaining
  typeComp : ∀ P, (E.parseTypeComposition P).2.remaining ≤ P.remaining

/-! ## The requirement loop in the words of the spec -/

/-- The three ways in which one requirement fails to parse (spec 4.2, steps 1 and 2). -/
inductive RequirementFailure where
  | leftType
  | rightType
  | delimiter
  deriving DecidableEq, Repr

/-- How the requirement loop came to its end: on a failure, or because no comma followed a
requirement. -/
inductive LoopEnd where
  | failure (f : RequirementFailure)
  | noComma
  deriving DecidableEq, Repr

/-- Whether the loop ended on a failure. -/
def LoopEnd.isFailure : LoopEnd → Bool
  | .failure _ => true
  | .noComma => false

/-- One requirement as the spec describes it (4.2, steps 1 and 2): a left-hand type; then a
colon and a composition or type, giving a conformance requirement, or `==` (or a diagnosed
`=`) and a type, giving a same-type requirement; any other token is a delimiter error. -/
def requirementOutcome (E : Env σ) (P : Parser σ) :
    (RequirementFailure ⊕ Requirement) × Parser σ :=
  match P.invoke E.parseTypeIdentifier with
  | (none, P1) => (.inl .leftType, P1)
  | (some Left, P1) =>
    if P1.Tok.Kind = tok.colon then
      match Parser.parseProtocolOrComposition E P1.lex with
      | (none, P2) => (.inl .rightType, P2)
      | (some Right, P2) => (.inr (Requirement.Conformance Left P1.Tok.getLoc Right), P2)
    else if Parser.isSameTypeDelim P1.Tok then
      match (Parser.diagnoseSingleEqual P1).lex.invoke E.parseTypeIdentifier with
      | (none, P2) => (.inl .rightType, P2)
      | (some Right, P2) => (.inr (Requirement.SameType Left P1.Tok.getLoc Right), P2)
    else (.inl .delimiter, P1.diagnose P1.Tok.getLoc DiagID.expected_requirement_delim [])

/-- A run of the requirement loop from `P`, as the spec describes it (4.2): the requirements
that parsed completely, in parse order, how the run ended, and the parser at the end.  The
run goes on to the next requirement only over a comma. -/
inductive RequirementRun (E : Env σ) : Parser σ → List Requirement → LoopEnd → Parser σ → Prop
  | failed (P P1 : Parser σ) (f : RequirementFailure) :
      requirementOutcome E P = (.inl f, P1) → RequirementRun E P [] (.failure f) P1
  | last (P P1 : Parser σ) (R : Requirement) :
      requirementOutcome E P = (.inr R, P1) → P1.Tok.Kind ≠ tok.comma →
      RequirementRun E P [R] .noComma P1
  | next (P P1 P2 : Parser σ) (R : Requirement) (Rs : List Requirement) (e : LoopEnd) :
      requirementOutcome E P = (.inr R, P1) → P1.Tok.Kind = tok.comma →
      RequirementRun E P1.lex Rs e P2 → RequirementRun E P (R :: Rs) e P2

/-! ## Respelling a lone `=` as `==`, and diagnostics put in front -/

/-- The operator token `==` in place of the assignment token `=`; any other token is left as
it is. -/
def respellEqual (T : Token) : Token :=
  if T.Kind = tok.equal ∧ T.Text = "=" then { Kind := tok.oper_binary, Text := "==", Loc := T.Loc }
  else T

/-- The pending tokens with the one that has `k` tokens behind it respelled. -/
def respellPending (k : Nat) : List Token → List Token
  | [] => []
  | T :: Ts => if Ts.length = k then respellEqual T :: Ts else T :: respellPending k Ts

/-- The parser on the token stream in which the token that has `k` tokens behind it is
respelled: the stream differs from that of `P` in at most that one token. -/
def Parser.respell (k : Nat) (P : Parser σ) : Parser σ :=
  { P with Tok := if P.L.pending.length = k then respellEqual P.Tok else P.Tok,
           L := { P.L with pending := respellPending k P.L.pending } }

/-- The parser with the diagnostics `D` in front of those of `P`. -/
def Parser.prependDiags (D : List Diagnostic) (P : Parser σ) : Parser σ :=
  { P with Diags := D ++ P.Diags }

/-- The type sub-parsers cannot tell the `=` that has `k` tokens behind it from `==`: on the
respelled stream they return the same result and leave the respelled parser. -/
structure Env.RespellInsensitive (E : Env σ) (k : Nat) : Prop where
  typeIdent : ∀ P : Parser σ, E.parseTypeIdentifier (P.respell k) =
    ((E.parseTypeIdentifier P).1, (E.parseTypeIdentifier P).2.respell k)
  typeComp : ∀ P : Parser σ, E.parseTypeComposition (P.respell k) =
    ((E.parseTypeComposition P).1, (E.parseTypeComposition P).2.respell k)

/-- The requirement loop started at `P` comes, after complete requirements each followed by
a comma, to a requirement whose left-hand type leaves the cursor on the assignment token `=`
at location `loc` with `k` tokens behind it: that token is tested as the delimiter. -/
inductive SingleEqualDelimiter (E : Env σ) (k : Nat) (loc : Nat) : Parser σ → Prop
  | here (P P1 : Parser σ) (Left : TypeRepr) :
      P.invoke E.parseTypeIdentifier = (some Left, P1) →
      P1.Tok = { Kind := tok.equal, Text := "=", Loc := loc } → P1.L.pending.length = k →
      SingleEqualDelimiter E k loc P
  | later (P P1 : Parser σ) (R : Requirement) :
      requirementOutcome E P = (.inr R, P1) → P1.Tok.Kind = tok.comma →
      SingleEqualDelimiter E k loc P1.lex → SingleEqualDelimiter E k loc P

/-- The diagnostic for a lone `=` at `loc`: "single equal", with a fix-it that replaces the
token at `loc` by `==`. -/
def singleEqualDiagnostic (loc : Nat) : Diagnostic :=
  { Loc := some loc, ID := DiagID.requires_single_equal,
    FixIts := [{ Start := some loc, End := some loc, Text := "==" }] }

/-! ## Watching the scope at the calls of the type sub-parsers -/

/-- The sub-parsers register nothing: they leave the scope as they found it. -/
structure Env.ScopePreserving (E : Env σ) : Prop where
  ident : ∀ D P, (E.parseIdentifier D P).2.ScopeInfo = P.ScopeInfo
  typeIdent : ∀ P, (E.parseTypeIdentifier P).2.ScopeInfo = P.ScopeInfo
  typeComp : ∀ P, (E.parseTypeComposition P).2.ScopeInfo = P.ScopeInfo

/-- The scopes that the calls of the type sub-parsers found, in the order of the calls. -/
abbrev ScopeLog := List (List TypeAliasDecl)

/-- The parser without the log kept next to the context. -/
def Parser.forget (P : Parser (σ × ScopeLog)) : Parser σ :=
  { Tok := P.Tok, L := P.L, Diags := P.Diags, ScopeInfo := P.ScopeInfo,
    CurDeclContext := P.CurDeclContext, Context := P.Context.1 }

/-- The parser with a log kept next to the context. -/
def Parser.withLog (P : Parser σ) (Log : ScopeLog) : Parser (σ × ScopeLog) :=
  { Tok := P.Tok, L := P.L, Diags := P.Diags, ScopeInfo := P.ScopeInfo,
    CurDeclContext := P.CurDeclContext, Context := (P.Context, Log) }

/-- The environment `E` watched: the sub-parsers do what they do in `E`, and each call of a
type sub-parser also notes, at the end of the log, the scope it was called with.  The name
sub-parser notes nothing. -/
def Env.watched (E : Env σ) : Env (σ × ScopeLog) :=
  { getTokenKind := E.getTokenKind
    parseIdentifier := fun D P =>
      ((E.parseIdentifier D P.forget).1, (E.parseIdentifier D P.forget).2.withLog P.Context.2)
    parseTypeIdentifier := fun P =>
      ((E.parseTypeIdentifier P.forget).1,
       (E.parseTypeIdentifier P.forget).2.withLog (P.Context.2 ++ [P.ScopeInfo]))
    parseTypeComposition := fun P =>
      ((E.parseTypeComposition P.forget).1,
       (E.parseTypeComposition P.forget).2.withLog (P.Context.2 ++ [P.ScopeInfo])) }

/-- What is used of a watched environment: no sub-parser changes the scope, the name
sub-parser leaves the log alone, and a type sub-parser adds the scope it was called with. -/
structure Env.Logging (E : Env (σ × ScopeLog)) : Prop where
  identScope : ∀ D P, (E.parseIdentifier D P).2.ScopeInfo = P.ScopeInfo
  identLog : ∀ D P, (E.parseIdentifier D P).2.Context.2 = P.Context.2
  typeIdentScope : ∀ P, (E.parseTypeIdentifier P).2.ScopeInfo = P.ScopeInfo
  typeIdentLog : ∀ P, (E.parseTypeIdentifier P).2.Context.2 = P.Context.2 ++ [P.ScopeInfo]
  typeCompScope : ∀ P, (E.parseTypeComposition P).2.ScopeInfo = P.ScopeInfo
  typeCompLog : ∀ P, (E.parseTypeComposition P).2.Context.2 = P.Context.2 ++ [P.ScopeInfo]

/-! ## Well-formed clauses -/

/-- A type as it stands in the source: its tokens, and what the type sub-parser is to make of
them. -/
structure TypeSyntax where
  Toks : List Token
  Repr : TypeRepr

/-- Whether a type is written as a composition: it starts with the `protocol` keyword. -/
def TypeSyntax.isComposition (T : TypeSyntax) : Bool :=
  decide (T.Toks.head?.map Token.Kind = some tok.kw_protocol)

/-- A parameter with its constraint: `N : C`. -/
structure ParamSyntax where
  Name : Token
  Colon : Token
  Constraint : TypeSyntax

/-- A requirement: `A : B` or `A == B`. -/
structure RequirementSyntax where
  Left : TypeSyntax
  Delim : Token
  Right : TypeSyntax

/-- A where-clause: `where R1 , ... , Rm`, each further requirement with the comma before
it. -/
structure WhereSyntax where
  Keyword : Token
  First : RequirementSyntax
  More : List (Token × RequirementSyntax)

/-- A clause `< N1 : C1 , ... , Nk : Ck where R1 , ... , Rm >`, each further parameter with
the comma before it; the where-clause may be missing. -/
structure ClauseSyntax where
  LAngle : Token
  First : ParamSyntax
  More : List (Token × ParamSyntax)
  Where : Option WhereSyntax
  RAngle : Token

/-- The tokens of a parameter. -/
def ParamSyntax.toks (p : ParamSyntax) : List Token :=
  p.Name :: p.Colon :: p.Constraint.Toks

/-- The tokens of the parameters after the first, commas included. -/
def ParamSyntax.moreToks : List (Token × ParamSyntax) → List Token
  | [] => []
  | (Comma, p) :: ps => Comma :: (p.toks ++ ParamSyntax.moreToks ps)

/-- The tokens of a requirement. -/
def RequirementSyntax.toks (r : RequirementSyntax) : List Token :=
  r.Left.Toks ++ r.Delim :: r.Right.Toks

/-- The tokens of the requirements after the first, commas included. -/
def RequirementSyntax.moreToks : List (Token × RequirementSyntax) → List Token
  | [] => []
  | (Comma, r) :: rs => Comma :: (r.toks ++ RequirementSyntax.moreToks rs)

/-- The tokens of a where-clause. -/
def WhereSyntax.toks (w : WhereSyntax) : List Token :=
  w.Keyword :: (w.First.toks ++ RequirementSyntax.moreToks w.More)

/-- The tokens from the where-clause on: the where-clause, if any, and the closing bracket. -/
def ClauseSyntax.tailToks (c : ClauseSyntax) : List Token :=
  (match c.Where with
   | none => []
   | some w => w.toks) ++ [c.RAngle]

/-- The tokens of a clause, in order. -/
def ClauseSyntax.toks (c : ClauseSyntax) : List Token :=
  c.LAngle :: (c.First.toks ++ (ParamSyntax.moreToks c.More ++ c.tailToks))

/-- The parameter a `N : C` stands for, declared in context `DC`. -/
def ParamSyntax.param (DC : Nat) (p : ParamSyntax) : GenericParam :=
  { TypeAliasLoc := some p.Name.Loc, Name := p.Name.getText, NameLoc := some p.Name.Loc,
    UnderlyingTy := none, DC := DC, Inherited := [p.Constraint.Repr], GenericParameter := true }

/-- The requirement a `A : B` or `A == B` stands for. -/
def RequirementSyntax.requirement (r : RequirementSyntax) : Requirement :=
  if r.Delim.Kind = tok.colon then
    Requirement.Conformance r.Left.Repr (some r.Delim.Loc) r.Right.Repr
  else Requirement.SameType r.Left.Repr (some r.Delim.Loc) r.Right.Repr

/-- The parameters of a clause, in declaration order. -/
def ClauseSyntax.params (c : ClauseSyntax) (DC : Nat) : List GenericParam :=
  (c.First :: c.More.map Prod.snd).map (ParamSyntax.param DC)

/-- The requirements of a clause, in order. -/
def ClauseSyntax.requirements (c : ClauseSyntax) : List Requirement :=
  match c.Where with
  | none => []
  | some w => (w.First :: w.More.map Prod.snd).map RequirementSyntax.requirement

/-- The list a clause stands for. -/
def ClauseSyntax.list (c : ClauseSyntax) (DC : Nat) : GenericParamList :=
  { LAngleLoc := some c.LAngle.Loc, Params := c.params DC,
    WhereLoc := c.Where.map (fun w => w.Keyword.Loc),
    Requirements := c.requirements, RAngleLoc := some c.RAngle.Loc }

/-- The kinds of the tokens of a parameter: an identifier, a colon, and a constraint that
starts with an identifier (a type identifier) or with `protocol` (a composition). -/
def ParamSyntax.WellFormed (p : ParamSyntax) : Prop :=
  p.Name.Kind = tok.identifier ∧ p.Colon.Kind = tok.colon ∧
  (p.Constraint.Toks.head?.map Token.Kind = some tok.identifier ∨
    p.Constraint.Toks.head?.map Token.Kind = some tok.kw_protocol)

/-- The delimiter of a requirement is a colon or an operator spelled `==`, and its right-hand
side is not empty. -/
def RequirementSyntax.WellFormed (r : RequirementSyntax) : Prop :=
  (r.Delim.Kind = tok.colon ∨ (r.Delim.isAnyOperator = true ∧ r.Delim.getText = "==")) ∧
  r.Right.Toks ≠ []

/-- The kinds of the tokens of a where-clause: the keyword, commas, well-formed
requirements. -/
def WhereSyntax.WellFormed (w : WhereSyntax) : Prop :=
  w.Keyword.Kind = tok.kw_where ∧ w.First.WellFormed ∧
  ∀ x ∈ w.More, x.1.Kind = tok.comma ∧ x.2.WellFormed

/-- The kinds of the tokens of a clause: the brackets are the operators `<` and `>`, the
separators are commas, and every parameter and requirement is well formed. -/
def ClauseSyntax.WellFormed (c : ClauseSyntax) : Prop :=
  (c.LAngle.isAnyOperator = true ∧ c.LAngle.getText = "<") ∧
  c.First.WellFormed ∧ (∀ x ∈ c.More, x.1.Kind = tok.comma ∧ x.2.WellFormed) ∧
  (∀ w, c.Where = some w → w.WellFormed) ∧
  (c.RAngle.isAnyOperator = true ∧ c.RAngle.getText = ">")

/-- The sub-parser `f` accepts the type `T` in front of the tokens `After`: from any parser
positioned there it returns the representation of `T` and leaves the cursor on `After`,
emitting nothing and changing neither the scope nor the declaration context. -/
def Accepts (f : Parser σ → Option TypeRepr × Parser σ) (T : TypeSyntax) (After : List Token) :
    Prop :=
  ∀ P : Parser σ, P.Tok :: P.L.pending = T.Toks ++ After →
    (f P).1 = some T.Repr ∧ (f P).2.Tok :: (f P).2.L.pending = After ∧
    (f P).2.Diags = P.Diags ∧ (f P).2.ScopeInfo = P.ScopeInfo ∧
    (f P).2.CurDeclContext = P.CurDeclContext

/-- The type sub-parser that the code selects for a type: the composition parser after
`protocol`, the type-identifier parser otherwise. -/
def Env.typeParser (E : Env σ) (T : TypeSyntax) : Parser σ → Option TypeRepr × Parser σ :=
  if T.isComposition then E.parseTypeComposition else E.parseTypeIdentifier

/-- The constraints of the parameters after the first are accepted where they stand. -/
def ParamSyntax.moreAccepted (E : Env σ) : List (Token × ParamSyntax) → List Token → Prop
  | [], _ => True
  | (_, p) :: ps, After =>
    Accepts (E.typeParser p.Constraint) p.Constraint (ParamSyntax.moreToks ps ++ After) ∧
    ParamSyntax.moreAccepted E ps After

/-- Both sides of a requirement are accepted where they stand: the left-hand side and the
right-hand side of `==` by the type-identifier parser, the right-hand side of `:` by the
parser selected for it. -/
def RequirementSyntax.Accepted (E : Env σ) (r : RequirementSyntax) (After : List Token) :
    Prop :=
  Accepts E.parseTypeIdentifier r.Left (r.Delim :: (r.Right.Toks ++ After)) ∧
  Accepts (if r.Delim.Kind = tok.colon then E.typeParser r.Right else E.parseTypeIdentifier)
    r.Right After

/-- The sides of the requirements after the first are accepted where they stand. -/
def RequirementSyntax.moreAccepted (E : Env σ) :
    List (Token × RequirementSyntax) → List Token → Prop
  | [], _ => True
  | (_, r) :: rs, After =>
    r.Accepted E (RequirementSyntax.moreToks rs ++ After) ∧
    RequirementSyntax.moreAccepted E rs After

/-- Every constraint and every side of every requirement of the clause is accepted by the
type sub-parsers where it stands, `Rest` being the tokens after the clause. -/
def ClauseSyntax.Accepted (E : Env σ) (c : ClauseSyntax) (Rest : List Token) : Prop :=
  Accepts (E.typeParser c.First.Constraint) c.First.Constraint
    (ParamSyntax.moreToks c.More ++ (c.tailToks ++ Rest)) ∧
  ParamSyntax.moreAccepted E c.More (c.tailToks ++ Rest) ∧
  ∀ w, c.Where = some w →
    w.First.Accepted E (RequirementSyntax.moreToks w.More ++ (c.RAngle :: Rest)) ∧
    RequirementSyntax.moreAccepted E w.More (c.RAngle :: Rest)

/-- The name sub-parser on an identifier: it returns its text and location and consumes
it. -/
def Env.ParsesIdentifiers (E : Env σ) : Prop :=
  ∀ (D : DiagID) (P : Parser σ), P.Tok.Kind = tok.identifier →
    E.parseIdentifier D P = (some (P.Tok.getText, P.Tok.getLoc), P.lex)

/-- The cursor stands at the head of `Toks`; with no token left it stands on the end of
input. -/
def Parser.CursorAt (P : Parser σ) : List Token → Prop
  | [] => P.Tok.Kind = tok.eof ∧ P.L.pending = []
  | T :: Ts => P.Tok = T ∧ P.L.pending = Ts

namespace Reference

/-- A type that is one identifier, as the reference type-identifier parser reads it. -/
def identifierType (T : Token) : TypeSyntax :=
  { Toks := [T], Repr := { Loc := T.Loc, Components := [T.getText], IsComposition := false } }

/-- The clause `<N1: C1, N2: C2 where N1 == N2>`. -/
def exampleClause : ClauseSyntax :=
  { LAngle := ⟨tok.oper_binary, "<", 0⟩
    First := { Name := ⟨tok.identifier, "N1", 1⟩, Colon := ⟨tok.colon, ":", 3⟩,
               Constraint := identifierType ⟨tok.identifier, "C1", 5⟩ }
    More := [(⟨tok.comma, ",", 7⟩,
              { Name := ⟨tok.identifier, "N2", 9⟩, Colon := ⟨tok.colon, ":", 11⟩,
                Constraint := identifierType ⟨tok.identifier, "C2", 13⟩ })]
    Where := some
      { Keyword := ⟨tok.kw_where, "where", 16⟩
        First := { Left := identifierType ⟨tok.identifier, "N1", 22⟩,
                   Delim := ⟨tok.oper_binary, "==", 25⟩,
                   Right := identifierType ⟨tok.identifier, "N2", 28⟩ }
        More := [] }
    RAngle := ⟨tok.oper_binary, ">", 30⟩ }

/-- A parser over the reference sub-parsers, given by its current token, the pending tokens,
the end of the buffer, the diagnostics emitted and the scope. -/
def state (Tok : Token) (pending : List Token) (bufferEnd : Nat) (Diags : List Diagnostic)
    (ScopeInfo : List TypeAliasDecl) : Parser Unit :=
  { Tok := Tok, L := { pending := pending, bufferEnd := bufferEnd }, Diags := Diags,
    ScopeInfo := ScopeInfo, CurDeclContext := 0, Context := () }

end Reference

/-! ## Passes of the two loops -/

/-- The parameter loop entered at `P` with the vector `G` and the flag `I` comes, after `k`
passes that each built a parameter and found a comma behind it, to the head of a pass at `Q`
with the vector `G1` and the flag `I1`. -/
inductive ParameterPasses (E : Env σ) :
    Nat → Parser σ → List GenericParam → Bool → Parser σ → List GenericParam → Bool → Prop
  | here (P : Parser σ) (G : List GenericParam) (I : Bool) : ParameterPasses E 0 P G I P G I
  | later (k : Nat) (P P1 Q : Parser σ) (G G1 : List GenericParam) (I I1 I2 : Bool)
      (Param : GenericParam) :
      Parser.parseGenericParametersBody E P I = .ok (some Param, I1, P1) →
      P1.Tok.Kind = tok.comma →
      ParameterPasses E k P1.lex (G ++ [Param]) I1 Q G1 I2 →
      ParameterPasses E (k + 1) P G I Q G1 I2

/-- The requirement loop entered at `P` with the vector `R` comes, after `k` passes that
each appended a requirement and found a comma behind it, to the head of a pass at `Q` with
the vector `R1`. -/
inductive RequirementPasses (E : Env σ) :
    Nat → Parser σ → List Requirement → Parser σ → List Requirement → Prop
  | here (P : Parser σ) (R : List Requirement) : RequirementPasses E 0 P R P R
  | later (k : Nat) (P P1 Q : Parser σ) (R R1 : List Requirement) (Rq : Requirement) :
      Parser.parseGenericWhereClauseBody E P = .ok (some Rq, P1) →
      P1.Tok.Kind = tok.comma →
      RequirementPasses E k P1.lex (R ++ [Rq]) Q R1 →
      RequirementPasses E (k + 1) P R Q R1

/-! ## The respelling is not noticed by the calls a run makes -/

/-- The call of the sub-parser `f` made at `P` does not notice the respelling: made on the
respelled stream, it returns the same result and leaves the respelled parser. -/
def Parser.Unnoticed (f : Parser σ → Option TypeRepr × Parser σ) (k : Nat) (P : Parser σ) :
    Prop :=
  (P.respell k).invoke f = ((P.invoke f).1, (P.invoke f).2.respell k)

/-- The call for the right-hand side of the requirement that starts at `P` does not notice
the respelling: after a colon it is the call of the composition parser on the `protocol`
keyword and of the type-identifier parser otherwise, and after `==` or `=` it is the call of
the type-identifier parser. -/
def Parser.RightHandUnnoticed (E : Env σ) (k : Nat) (P : Parser σ) : Prop :=
  if (P.invoke E.parseTypeIdentifier).2.Tok.Kind = tok.colon then
    (P.invoke E.parseTypeIdentifier).2.lex.Unnoticed
      (if (P.invoke E.parseTypeIdentifier).2.lex.Tok.is tok.kw_protocol then
        E.parseTypeComposition
       else E.parseTypeIdentifier) k
  else
    (Parser.diagnoseSingleEqual (P.invoke E.parseTypeIdentifier).2).lex.Unnoticed
      E.parseTypeIdentifier k

/-- None of the calls of the type sub-parsers that the run of the requirement loop from `P`
makes before it consumes the `=` that has `k` tokens behind it notices the respelling: the
call for the left-hand type of each requirement up to the one whose delimiter that `=` is,
and the call for the right-hand side of each requirement before that one.  Nothing is asked
of the sub-parsers anywhere else. -/
inductive RespellUnnoticed (E : Env σ) (k : Nat) : Parser σ → Prop
  | here (P : Parser σ) :
      P.Unnoticed E.parseTypeIdentifier k →
      (P.invoke E.parseTypeIdentifier).2.Tok.Kind = tok.equal →
      (P.invoke E.parseTypeIdentifier).2.L.pending.length = k →
      RespellUnnoticed E k P
  | later (P : Parser σ) :
      P.Unnoticed E.parseTypeIdentifier k →
      P.RightHandUnnoticed E k →
      RespellUnnoticed E k (requirementOutcome E P).2.lex →
      RespellUnnoticed E k P

namespace Reference

/-- Modelled from the spec: a second model of `parseTypeIdentifier`, which is not among the
sources, with error recovery: where no type starts it reports a diagnostic of its own and
skips to the next operator. -/
def parseTypeIdentifierRecovering (P : Parser σ) : Option TypeRepr × Parser σ :=
  if P.Tok.Kind = tok.identifier then
    (some { Loc := P.Tok.Loc, Components := [P.Tok.getText], IsComposition := false }, P.lex)
  else (none, (P.diagnose P.Tok.getLoc (DiagID.other 0) []).skipUntilAnyOperator)

/-- Modelled from the spec: a second model of `parseTypeComposition`, which is not among the
sources: it has consumed the `protocol` keyword when it finds that no composition follows. -/
def parseTypeCompositionCommitted (P : Parser σ) : Option TypeRepr × Parser σ :=
  if P.Tok.Kind = tok.kw_protocol then
    match parseTypeComposition P with
    | (some T, P1) => (some T, P1)
    | (none, _) => (none, P.lex.diagnose P.lex.Tok.getLoc (DiagID.other 1) [])
  else (none, P.diagnose P.Tok.getLoc (DiagID.other 1) [])

/-- The reference environment with the two sub-parsers above in the place of the type
sub-parsers. -/
def recoveringEnv : Env σ :=
  { getTokenKind := getTokenKind
    parseIdentifier := parseIdentifier
    parseTypeIdentifier := parseTypeIdentifierRecovering
    parseTypeComposition := parseTypeCompositionCommitted }

end Reference

/-! ## Basic facts about the cursor and the loop bodies -/

namespace Parser

theorem is_iff (T : Token) (K : tok) : T.is K = true ↔ T.Kind = K := by
  simp [Token.is]

theorem is_false_iff (T : Token) (K : tok) : T.is K = false ↔ T.Kind ≠ K := by
  simp [Token.is]

theorem remaining_lex_lt (P : Parser σ) (h : P.Tok.Kind ≠ tok.eof) :
    P.lex.remaining < P.remaining := by
  unfold lex remaining
  cases hp : P.L.pending with
  | nil => simp [h]
  | cons T Ts =>
    simp only [h, if_false, hp, List.length_cons]
    split <;> omega

theorem consumeToken_eq (P : Parser σ) (h : P.Tok.Kind ≠ tok.eof) :
    P.consumeToken = .ok (P.Tok.getLoc, P.lex) := by
  simp [consumeToken, Token.is, h]

theorem remaining_invoke_le {α : Type} (f : Parser σ → Option α × Parser σ)
    (hf : ∀ Q, (f Q).2.remaining ≤ Q.remaining) (P : Parser σ) :
    (P.invoke f).2.remaining ≤ P.remaining := by
  have := hf { P with Diags := [] }
  simpa [invoke, remaining] using this

@[simp] theorem remaining_diagnose (P : Parser σ) (Loc : SourceLoc) (ID : DiagID)
    (F : List FixIt) : (P.diagnose Loc ID F).remaining = P.remaining := rfl

@[simp] theorem remaining_addToScope (P : Parser σ) (D : TypeAliasDecl) :
    (P.addToScope D).remaining = P.remaining := rfl

@[simp] theorem Tok_diagnose (P : Parser σ) (Loc : SourceLoc) (ID : DiagID)
    (F : List FixIt) : (P.diagnose Loc ID F).Tok = P.Tok := rfl

@[simp] theorem Tok_addToScope (P : Parser σ) (D : TypeAliasDecl) :
    (P.addToScope D).Tok = P.Tok := rfl

theorem Tok_diagnoseSingleEqual (P : Parser σ) : (diagnoseSingleEqual P).Tok = P.Tok := by
  unfold diagnoseSingleEqual; split <;> rfl

theorem remaining_diagnoseSingleEqual (P : Parser σ) :
    (diagnoseSingleEqual P).remaining = P.remaining := by
  unfold diagnoseSingleEqual; split <;> rfl

theorem consumeIf_cases (P : Parser σ) (K : tok) (hK : K ≠ tok.eof) :
    (P.Tok.Kind = K ∧ P.consumeIf K = .ok (true, P.lex)) ∨
    (P.Tok.Kind ≠ K ∧ P.consumeIf K = .ok (false, P)) := by
  by_cases h : P.Tok.Kind = K
  · left
    refine ⟨h, ?_⟩
    simp [consumeIf, Token.is, h, consumeToken, hK]
  · right
    exact ⟨h, by simp [consumeIf, Token.is, h]⟩

theorem isAnyOperator_ne_eof (T : Token) (h : T.isAnyOperator = true) : T.Kind ≠ tok.eof := by
  intro he
  simp [Token.isAnyOperator, Token.is, he] at h

theorem startsWithGreater_ne_eof (T : Token) (h : startsWithGreater T = true) :
    T.Kind ≠ tok.eof := by
  intro he
  simp [startsWithGreater, Token.getText, he] at h

theorem startsWithLess_ne_eof (T : Token) (h : startsWithLess T = true) :
    T.Kind ≠ tok.eof := by
  intro he
  simp [startsWithLess, Token.getText, he] at h

theorem isSameTypeDelim_ne_eof (T : Token) (h : isSameTypeDelim T = true) :
    T.Kind ≠ tok.eof := by
  intro he
  simp [isSameTypeDelim, Token.isAnyOperator, Token.is, he] at h

/-- The body of the requirement loop, case by case. -/
theorem whereBody_cases (E : Env σ) (P : Parser σ) :
    ((P.invoke E.parseTypeIdentifier).1 = none ∧
      parseGenericWhereClauseBody E P = .ok (none, (P.invoke E.parseTypeIdentifier).2)) ∨
    (∃ T1, (P.invoke E.parseTypeIdentifier).1 = some T1 ∧
      (P.invoke E.parseTypeIdentifier).2.Tok.Kind = tok.colon ∧
      parseGenericWhereClauseBody E P =
        .ok (((parseProtocolOrComposition E (P.invoke E.parseTypeIdentifier).2.lex).1).map
              (Requirement.Conformance T1 (P.invoke E.parseTypeIdentifier).2.Tok.getLoc),
             (parseProtocolOrComposition E (P.invoke E.parseTypeIdentifier).2.lex).2)) ∨
    (∃ T1, (P.invoke E.parseTypeIdentifier).1 = some T1 ∧
      (P.invoke E.parseTypeIdentifier).2.Tok.Kind ≠ tok.colon ∧
      isSameTypeDelim (P.invoke E.parseTypeIdentifier).2.Tok = true ∧
      parseGenericWhereClauseBody E P =
        .ok ((((diagnoseSingleEqual (P.invoke E.parseTypeIdentifier).2).lex.invoke
                E.parseTypeIdentifier).1).map
              (Requirement.SameType T1 (P.invoke E.parseTypeIdentifier).2.Tok.getLoc),
             ((diagnoseSingleEqual (P.invoke E.parseTypeIdentifier).2).lex.invoke
                E.parseTypeIdentifier).2)) ∨
    (∃ T1, (P.invoke E.parseTypeIdentifier).1 = some T1 ∧
      (P.invoke E.parseTypeIdentifier).2.Tok.Kind ≠ tok.colon ∧
      isSameTypeDelim (P.invoke E.parseTypeIdentifier).2.Tok = false ∧
      parseGenericWhereClauseBody E P =
        .ok (none, (P.invoke E.parseTypeIdentifier).2.diagnose
              (P.invoke E.parseTypeIdentifier).2.Tok.getLoc
              DiagID.expected_requirement_delim [])) := by
  unfold parseGenericWhereClauseBody
  rcases P.invoke E.parseTypeIdentifier with ⟨r1, P1⟩
  cases r1 with
  | none => exact Or.inl ⟨rfl, rfl⟩
  | some FirstType =>
    right
    simp only
    by_cases hc : P1.Tok.Kind = tok.colon
    · left
      have hne : P1.Tok.Kind ≠ tok.eof := by rw [hc]; decide
      refine ⟨FirstType, rfl, hc, ?_⟩
      simp only [(is_iff _ _).2 hc, if_true, consumeToken_eq P1 hne]
      rcases parseProtocolOrComposition E P1.lex with ⟨r3, P3⟩
      cases r3 <;> rfl
    · right
      have hc2 : P1.Tok.is tok.colon = false := by simp [Token.is, hc]
      simp only [hc2, Bool.false_eq_true, if_false]
      by_cases hd : isSameTypeDelim P1.Tok = true
      · left
        refine ⟨FirstType, rfl, hc, hd, ?_⟩
        rw [if_pos hd]
        have hne2 : (diagnoseSingleEqual P1).Tok.Kind ≠ tok.eof := by
          rw [Tok_diagnoseSingleEqual]; exact isSameTypeDelim_ne_eof _ hd
        rw [consumeToken_eq _ hne2, Tok_diagnoseSingleEqual]
        simp only
        rcases Parser.invoke E.parseTypeIdentifier _ with ⟨r3, P3⟩
        cases r3 <;> rfl
      · right
        have hd3 : isSameTypeDelim P1.Tok = false := by simpa using hd
        refine ⟨FirstType, rfl, hc, hd3, ?_⟩
        rw [if_neg hd]

/-- The body of the requirement loop always returns. -/
theorem whereBody_ok (E : Env σ) (P : Parser σ) :
    ∃ r P1, parseGenericWhereClauseBody E P = .ok (r, P1) := by
  rcases whereBody_cases E P with h | ⟨_, _, _, h⟩ | ⟨_, _, _, _, h⟩ | ⟨_, _, _, _, h⟩
  · exact ⟨_, _, h.2⟩
  · exact ⟨_, _, h⟩
  · exact ⟨_, _, h⟩
  · exact ⟨_, _, h⟩

theorem remaining_parseProtocolOrComposition (E : Env σ) (hE : E.ForwardOnly) (P : Parser σ) :
    (parseProtocolOrComposition E P).2.remaining ≤ P.remaining := by
  unfold parseProtocolOrComposition
  split
  · exact remaining_invoke_le _ hE.typeComp P
  · exact remaining_invoke_le _ hE.typeIdent P

/-- A pass through the body of the requirement loop does not move the cursor backwards, and
a pass that appends a requirement moves it forwards. -/
theorem whereBody_remaining (E : Env σ) (hE : E.ForwardOnly) (P : Parser σ)
    (r : Option Requirement) (P1 : Parser σ)
    (h : parseGenericWhereClauseBody E P = .ok (r, P1)) :
    P1.remaining ≤ P.remaining := by
  have h1 := remaining_invoke_le E.parseTypeIdentifier hE.typeIdent P
  rcases whereBody_cases E P with ⟨_, h2⟩ | ⟨_, _, hc, h2⟩ | ⟨_, _, _, hd, h2⟩ | ⟨_, _, _, _, h2⟩
  · rw [h2] at h; cases h; exact h1
  · rw [h2] at h; cases h
    have hne : (P.invoke E.parseTypeIdentifier).2.Tok.Kind ≠ tok.eof := by rw [hc]; decide
    have := remaining_lex_lt _ hne
    have := remaining_parseProtocolOrComposition E hE (P.invoke E.parseTypeIdentifier).2.lex
    omega
  · rw [h2] at h; cases h
    have hne : (diagnoseSingleEqual (P.invoke E.parseTypeIdentifier).2).Tok.Kind ≠ tok.eof := by
      rw [Tok_diagnoseSingleEqual]; exact isSameTypeDelim_ne_eof _ hd
    have := remaining_lex_lt _ hne
    have := remaining_invoke_le E.parseTypeIdentifier hE.typeIdent
      (diagnoseSingleEqual (P.invoke E.parseTypeIdentifier).2).lex
    rw [remaining_diagnoseSingleEqual] at *
    omega
  · rw [h2] at h; cases h; simpa using h1

/-- The requirement loop returns when the fuel exceeds the number of tokens left, and it does
not move the cursor backwards. -/
theorem whereLoop_total (E : Env σ) (hE : E.ForwardOnly) :
    ∀ (fuel : Nat) (P : Parser σ) (R : List Requirement), P.remaining < fuel →
      ∃ Invalid R1 P1, parseGenericWhereClauseLoop E fuel P R = .ok (Invalid, R1, P1) ∧
        P1.remaining ≤ P.remaining := by
  intro fuel
  induction fuel with
  | zero => intro P R h; omega
  | succ n ih =>
    intro P R h
    unfold parseGenericWhereClauseLoop
    obtain ⟨r, P1, hb⟩ := whereBody_ok E P
    have hr := whereBody_remaining E hE P r P1 hb
    rw [hb]
    cases r with
    | none => exact ⟨_, _, _, rfl, hr⟩
    | some Rq =>
      simp only
      rcases consumeIf_cases P1 tok.comma (by decide) with ⟨hk, hc⟩ | ⟨hk, hc⟩
      · rw [hc]
        simp only
        have hne : P1.Tok.Kind ≠ tok.eof := by rw [hk]; decide
        have hlt := remaining_lex_lt P1 hne
        obtain ⟨I, R1, P2, h2, hle⟩ := ih P1.lex (R ++ [Rq]) (by omega)
        exact ⟨I, R1, P2, h2, by omega⟩
      · rw [hc]
        exact ⟨_, _, _, rfl, hr⟩

/-- The optional constraint of a parameter, case by case. -/
theorem inherited_cases (E : Env σ) (P : Parser σ) (Name : String) (Invalid : Bool) :
    (P.Tok.Kind ≠ tok.colon ∧
      parseGenericParamInherited E P Name Invalid = .ok ([], Invalid, P)) ∨
    (P.Tok.Kind = tok.colon ∧ P.lex.Tok.Kind = tok.identifier ∧
      parseGenericParamInherited E P Name Invalid =
        .ok ((P.lex.invoke E.parseTypeIdentifier).1.toList, Invalid,
             (P.lex.invoke E.parseTypeIdentifier).2)) ∨
    (P.Tok.Kind = tok.colon ∧ P.lex.Tok.Kind = tok.kw_protocol ∧
      parseGenericParamInherited E P Name Invalid =
        .ok ((P.lex.invoke E.parseTypeComposition).1.toList, Invalid,
             (P.lex.invoke E.parseTypeComposition).2)) ∨
    (P.Tok.Kind = tok.colon ∧ P.lex.Tok.Kind ≠ tok.identifier ∧
      P.lex.Tok.Kind ≠ tok.kw_protocol ∧
      parseGenericParamInherited E P Name Invalid =
        .ok ([], true, P.lex.diagnose P.lex.Tok.getLoc
              (DiagID.expected_generics_type_restriction Name) [])) := by
  unfold parseGenericParamInherited
  by_cases hc : P.Tok.Kind = tok.colon
  · right
    have hne : P.Tok.Kind ≠ tok.eof := by rw [hc]; decide
    simp only [(is_iff _ _).2 hc, if_true, consumeToken_eq P hne]
    by_cases hi : P.lex.Tok.Kind = tok.identifier
    · left; exact ⟨hc, hi, by rw [if_pos hi]⟩
    · right
      rw [if_neg hi]
      by_cases hp : P.lex.Tok.Kind = tok.kw_protocol
      · left; exact ⟨hc, hp, by rw [if_pos hp]⟩
      · right; exact ⟨hc, hi, hp, by rw [if_neg hp]⟩
  · left
    refine ⟨hc, ?_⟩
    have hc2 : P.Tok.is tok.colon = false := by simp [Token.is, hc]
    simp [hc2]

/-- The optional constraint of a parameter always returns. -/
theorem inherited_ok (E : Env σ) (P : Parser σ) (Name : String) (Invalid : Bool) :
    ∃ Inh Inv1 P1, parseGenericParamInherited E P Name Invalid = .ok (Inh, Inv1, P1) := by
  rcases inherited_cases E P Name Invalid with ⟨_, h⟩ | ⟨_, _, h⟩ | ⟨_, _, h⟩ | ⟨_, _, _, h⟩ <;>
    exact ⟨_, _, _, h⟩

theorem inherited_remaining (E : Env σ) (hE : E.ForwardOnly) (P : Parser σ) (Name : String)
    (Invalid : Bool) (Inh : List TypeRepr) (Inv1 : Bool) (P1 : Parser σ)
    (h : parseGenericParamInherited E P Name Invalid = .ok (Inh, Inv1, P1)) :
    P1.remaining ≤ P.remaining := by
  rcases inherited_cases E P Name Invalid with
    ⟨_, h2⟩ | ⟨hc, _, h2⟩ | ⟨hc, _, h2⟩ | ⟨hc, _, _, h2⟩
  · rw [h2] at h; cases h; exact Nat.le_refl _
  · rw [h2] at h; cases h
    have := remaining_lex_lt P (by rw [hc]; decide)
    have := remaining_invoke_le E.parseTypeIdentifier hE.typeIdent P.lex
    omega
  · rw [h2] at h; cases h
    have := remaining_lex_lt P (by rw [hc]; decide)
    have := remaining_invoke_le E.parseTypeComposition hE.typeComp P.lex
    omega
  · rw [h2] at h; cases h
    have := remaining_lex_lt P (by rw [hc]; decide)
    simp only [remaining_diagnose]
    omega

/-- The body of the parameter loop, case by case. -/
theorem paramBody_cases (E : Env σ) (P : Parser σ) (Invalid : Bool) :
    ((P.invoke (E.parseIdentifier DiagID.expected_generics_parameter_name)).1 = none ∧
      parseGenericParametersBody E P Invalid =
        .ok (none, true,
          (P.invoke (E.parseIdentifier DiagID.expected_generics_parameter_name)).2)) ∨
    (∃ Name NameLoc Inh Inv1 P2,
      (P.invoke (E.parseIdentifier DiagID.expected_generics_parameter_name)).1 =
        some (Name, NameLoc) ∧
      parseGenericParamInherited E
        (P.invoke (E.parseIdentifier DiagID.expected_generics_parameter_name)).2 Name Invalid =
        .ok (Inh, Inv1, P2) ∧
      parseGenericParametersBody E P Invalid =
        .ok (some (P2.makeGenericParam Name NameLoc Inh), Inv1,
             P2.addToScope (P2.makeGenericParam Name NameLoc Inh))) := by
  unfold parseGenericParametersBody
  rcases P.invoke (E.parseIdentifier DiagID.expected_generics_parameter_name) with ⟨r1, P1⟩
  cases r1 with
  | none => exact Or.inl ⟨rfl, rfl⟩
  | some NL =>
    right
    obtain ⟨Name, NameLoc⟩ := NL
    obtain ⟨Inh, Inv1, P2, h⟩ := inherited_ok E P1 Name Invalid
    refine ⟨Name, NameLoc, Inh, Inv1, P2, rfl, h, ?_⟩
    simp only [h]

/-- The body of the parameter loop always returns. -/
theorem paramBody_ok (E : Env σ) (P : Parser σ) (Invalid : Bool) :
    ∃ r Inv1 P1, parseGenericParametersBody E P Invalid = .ok (r, Inv1, P1) := by
  rcases paramBody_cases E P Invalid with ⟨_, h⟩ | ⟨_, _, _, _, _, _, _, h⟩ <;>
    exact ⟨_, _, _, h⟩

theorem paramBody_remaining (E : Env σ) (hE : E.ForwardOnly) (P : Parser σ) (Invalid : Bool)
    (r : Option GenericParam) (Inv1 : Bool) (P1 : Parser σ)
    (h : parseGenericParametersBody E P Invalid = .ok (r, Inv1, P1)) :
    P1.remaining ≤ P.remaining := by
  have h1 := remaining_invoke_le _ (hE.ident DiagID.expected_generics_parameter_name) P
  rcases paramBody_cases E P Invalid with ⟨_, h2⟩ | ⟨_, _, _, _, _, _, hi, h2⟩
  · rw [h2] at h; cases h; exact h1
  · rw [h2] at h; cases h
    have := inherited_remaining E hE _ _ _ _ _ _ hi
    simp only [remaining_addToScope]
    omega

/-- The parameter loop returns when the fuel exceeds the number of tokens left, and it does
not move the cursor backwards. -/
theorem paramLoop_total (E : Env σ) (hE : E.ForwardOnly) :
    ∀ (fuel : Nat) (P : Parser σ) (G : List GenericParam) (Invalid : Bool),
      P.remaining < fuel →
      ∃ G1 Inv1 P1, parseGenericParametersLoop E fuel P G Invalid = .ok (G1, Inv1, P1) ∧
        P1.remaining ≤ P.remaining := by
  intro fuel
  induction fuel with
  | zero => intro P G I h; omega
  | succ n ih =>
    intro P G I h
    unfold parseGenericParametersLoop
    obtain ⟨r, Inv1, P1, hb⟩ := paramBody_ok E P I
    have hr := paramBody_remaining E hE P I r Inv1 P1 hb
    rw [hb]
    cases r with
    | none => exact ⟨_, _, _, rfl, hr⟩
    | some Param =>
      simp only
      rcases consumeIf_cases P1 tok.comma (by decide) with ⟨hk, hc⟩ | ⟨hk, hc⟩
      · rw [hc]
        simp only
        have hlt := remaining_lex_lt P1 (by rw [hk]; decide)
        obtain ⟨G1, I1, P2, h2, hle⟩ := ih P1.lex (G ++ [Param]) Inv1 (by omega)
        exact ⟨G1, I1, P2, h2, by omega⟩
      · rw [hc]
        exact ⟨_, _, _, rfl, hr⟩

theorem whereClause_total (E : Env σ) (hE : E.ForwardOnly) (fuel : Nat) (P : Parser σ)
    (R : List Requirement) (hw : P.Tok.Kind = tok.kw_where) (hf : P.remaining ≤ fuel) :
    ∃ Invalid R1 P1, parseGenericWhereClause E fuel P R = .ok (Invalid, P.Tok.getLoc, R1, P1) ∧
      P1.remaining ≤ P.remaining := by
  unfold parseGenericWhereClause consumeTokenOfKind
  have hne : P.Tok.Kind ≠ tok.eof := by rw [hw]; decide
  have hlt := remaining_lex_lt P hne
  simp only [(is_iff _ _).2 hw, if_true, consumeToken_eq P hne]
  obtain ⟨I, R1, P1, h, hle⟩ := whereLoop_total E hE fuel P.lex R (by omega)
  rw [h]
  exact ⟨I, R1, P1, rfl, by omega⟩

theorem consumeStartingGreater_eq (E : Env σ) (P : Parser σ) (h : startsWithGreater P.Tok = true) :
    P.consumeStartingGreater E =
      .ok (P.Tok.getLoc, if P.Tok.getLength = 1 then P.lex else P.splitFirstChar E) := by
  unfold consumeStartingGreater
  rw [if_pos h]
  split
  · exact consumeToken_eq P (startsWithGreater_ne_eof _ h)
  · rfl

theorem consumeStartingLess_eq (E : Env σ) (P : Parser σ) (h : startsWithLess P.Tok = true) :
    P.consumeStartingLess E =
      .ok (P.Tok.getLoc, if P.Tok.getLength = 1 then P.lex else P.splitFirstChar E) := by
  unfold consumeStartingLess
  rw [if_pos h]
  split
  · exact consumeToken_eq P (startsWithLess_ne_eof _ h)
  · rfl

/-- The closing-bracket step always returns, and the location it returns is that of the
token it stopped on. -/
theorem rangle_eq (E : Env σ) (P : Parser σ) (LAngleLoc : SourceLoc) (Invalid : Bool) :
    parseGenericParametersRAngle E P LAngleLoc Invalid =
      .ok ((if startsWithGreater P.Tok then P.Tok.getLoc
            else (P.diagnoseMissingRAngle LAngleLoc Invalid).skipUntilAnyOperator.Tok.getLoc),
           afterRAngle E P LAngleLoc Invalid) := by
  unfold parseGenericParametersRAngle afterRAngle
  by_cases h : startsWithGreater P.Tok = true
  · simp only [h, Bool.not_true, Bool.false_eq_true, if_false, if_true]
    exact consumeStartingGreater_eq E P h
  · have h2 : startsWithGreater P.Tok = false := by simpa using h
    simp only [h2, Bool.not_false, if_true, Bool.false_eq_true, if_false]
    split
    · rename_i h3
      exact consumeStartingGreater_eq E _ h3
    · rfl

theorem paramLoop_noAssert (E : Env σ) :
    ∀ (fuel : Nat) (P : Parser σ) (G : List GenericParam) (Invalid : Bool),
      (∃ r, parseGenericParametersLoop E fuel P G Invalid = .ok r) ∨
      parseGenericParametersLoop E fuel P G Invalid = .error Fault.timeout := by
  intro fuel
  induction fuel with
  | zero => intro P G I; exact Or.inr rfl
  | succ n ih =>
    intro P G I
    unfold parseGenericParametersLoop
    obtain ⟨r, Inv1, P1, hb⟩ := paramBody_ok E P I
    rw [hb]
    cases r with
    | none => exact Or.inl ⟨_, rfl⟩
    | some Param =>
      simp only
      rcases consumeIf_cases P1 tok.comma (by decide) with ⟨_, hc⟩ | ⟨_, hc⟩
      · rw [hc]; exact ih _ _ _
      · rw [hc]; exact Or.inl ⟨_, rfl⟩

theorem whereLoop_noAssert (E : Env σ) :
    ∀ (fuel : Nat) (P : Parser σ) (R : List Requirement),
      (∃ r, parseGenericWhereClauseLoop E fuel P R = .ok r) ∨
      parseGenericWhereClauseLoop E fuel P R = .error Fault.timeout := by
  intro fuel
  induction fuel with
  | zero => intro P R; exact Or.inr rfl
  | succ n ih =>
    intro P R
    unfold parseGenericWhereClauseLoop
    obtain ⟨r, P1, hb⟩ := whereBody_ok E P
    rw [hb]
    cases r with
    | none => exact Or.inl ⟨_, rfl⟩
    | some Rq =>
      simp only
      rcases consumeIf_cases P1 tok.comma (by decide) with ⟨_, hc⟩ | ⟨_, hc⟩
      · rw [hc]; exact ih _ _
      · rw [hc]; exact Or.inl ⟨_, rfl⟩

theorem whereStep_noAssert (E : Env σ) (fuel : Nat) (P : Parser σ) (Invalid : Bool) :
    (∃ r, parseGenericParametersWhere E fuel P Invalid = .ok r) ∨
    parseGenericParametersWhere E fuel P Invalid = .error Fault.timeout := by
  unfold parseGenericParametersWhere
  by_cases hw : P.Tok.Kind = tok.kw_where
  · have hne : P.Tok.Kind ≠ tok.eof := by rw [hw]; decide
    simp only [(is_iff _ _).2 hw, if_true, parseGenericWhereClause, consumeTokenOfKind,
      consumeToken_eq P hne]
    rcases whereLoop_noAssert E fuel P.lex [] with ⟨⟨I, R, P1⟩, h⟩ | h
    · rw [h]; exact Or.inl ⟨_, rfl⟩
    · rw [h]; exact Or.inr rfl
  · have : P.Tok.is tok.kw_where = false := (is_false_iff _ _).2 hw
    simp only [this, Bool.false_eq_true, if_false]
    exact Or.inl ⟨_, rfl⟩

theorem whereStep_total (E : Env σ) (hE : E.ForwardOnly) (fuel : Nat) (P : Parser σ)
    (Invalid : Bool) (hf : P.remaining ≤ fuel) :
    ∃ W R Inv1 P1, parseGenericParametersWhere E fuel P Invalid = .ok (W, R, Inv1, P1) ∧
      P1.remaining ≤ P.remaining := by
  unfold parseGenericParametersWhere
  by_cases hw : P.Tok.Kind = tok.kw_where
  · simp only [(is_iff _ _).2 hw, if_true]
    obtain ⟨I, R1, P1, h, hle⟩ := whereClause_total E hE fuel P [] hw hf
    rw [h]
    exact ⟨_, _, _, _, rfl, hle⟩
  · have : P.Tok.is tok.kw_where = false := (is_false_iff _ _).2 hw
    simp only [this, Bool.false_eq_true, if_false]
    exact ⟨_, _, _, _, rfl, Nat.le_refl _⟩

theorem parametersAt_noAssert (E : Env σ) (fuel : Nat) (LAngleLoc : SourceLoc) (P : Parser σ) :
    (∃ r, parseGenericParametersAt E fuel LAngleLoc P = .ok r) ∨
    parseGenericParametersAt E fuel LAngleLoc P = .error Fault.timeout := by
  unfold parseGenericParametersAt
  rcases paramLoop_noAssert E fuel P [] false with ⟨⟨G, I, P1⟩, h⟩ | h
  · rw [h]
    simp only
    rcases whereStep_noAssert E fuel P1 I with ⟨⟨W, R, I1, P2⟩, h2⟩ | h2
    · rw [h2]
      simp only [rangle_eq]
      split
      · exact Or.inl ⟨_, rfl⟩
      · exact Or.inl ⟨_, rfl⟩
    · rw [h2]; exact Or.inr rfl
  · rw [h]; exact Or.inr rfl

theorem parametersAt_total (E : Env σ) (hE : E.ForwardOnly) (fuel : Nat) (LAngleLoc : SourceLoc)
    (P : Parser σ) (hf : P.remaining < fuel) :
    ∃ r P1, parseGenericParametersAt E fuel LAngleLoc P = .ok (r, P1) := by
  unfold parseGenericParametersAt
  obtain ⟨G, I, P1, h, hle⟩ := paramLoop_total E hE fuel P [] false hf
  rw [h]
  simp only
  obtain ⟨W, R, I1, P2, h2, _⟩ := whereStep_total E hE fuel P1 I (by omega)
  rw [h2]
  simp only [rangle_eq]
  split
  · exact ⟨_, _, rfl⟩
  · exact ⟨_, _, rfl⟩

theorem remaining_splitFirstChar_le (E : Env σ) (P : Parser σ) (h : P.Tok.Kind ≠ tok.eof) :
    (P.splitFirstChar E).remaining ≤ P.remaining := by
  unfold splitFirstChar remaining
  simp only [h, if_false]
  split <;> omega

theorem remaining_afterLess (E : Env σ) (P : Parser σ) (h : startsWithLess P.Tok = true) :
    (if P.Tok.getLength = 1 then P.lex else P.splitFirstChar E).remaining ≤ P.remaining := by
  have hne := startsWithLess_ne_eof _ h
  split
  · exact Nat.le_of_lt (remaining_lex_lt P hne)
  · exact remaining_splitFirstChar_le E P hne

end Parser

namespace Parser

theorem remaining_skipLoop_le : ∀ (n : Nat) (P : Parser σ),
    (skipUntilAnyOperatorLoop n P).remaining ≤ P.remaining := by
  intro n
  induction n with
  | zero => intro P; exact Nat.le_refl _
  | succ n ih =>
    intro P
    unfold skipUntilAnyOperatorLoop
    by_cases he : P.Tok.Kind = tok.eof
    · simp [Token.is, he]
    · by_cases ho : P.Tok.isAnyOperator = true
      · simp [ho]
      · have ho2 : P.Tok.isAnyOperator = false := by simpa using ho
        have he2 : P.Tok.is tok.eof = false := (is_false_iff _ _).2 he
        simp only [he2, ho2, Bool.or_self, Bool.false_eq_true, if_false]
        have := ih P.lex
        have := remaining_lex_lt P he
        omega

theorem remaining_afterGreater (E : Env σ) (P : Parser σ) (h : startsWithGreater P.Tok = true) :
    (if P.Tok.getLength = 1 then P.lex else P.splitFirstChar E).remaining ≤ P.remaining := by
  have hne := startsWithGreater_ne_eof _ h
  split
  · exact Nat.le_of_lt (remaining_lex_lt P hne)
  · exact remaining_splitFirstChar_le E P hne

theorem remaining_diagnoseMissingRAngle (P : Parser σ) (L : SourceLoc) (I : Bool) :
    (P.diagnoseMissingRAngle L I).remaining = P.remaining := by
  unfold diagnoseMissingRAngle; split <;> rfl

theorem remaining_afterRAngle (E : Env σ) (P : Parser σ) (L : SourceLoc) (I : Bool) :
    (afterRAngle E P L I).remaining ≤ P.remaining := by
  unfold afterRAngle
  by_cases h : startsWithGreater P.Tok = true
  · rw [if_pos h]; exact remaining_afterGreater E P h
  · rw [if_neg h]
    have h1 : (P.diagnoseMissingRAngle L I).skipUntilAnyOperator.remaining ≤ P.remaining := by
      have := remaining_skipLoop_le ((P.diagnoseMissingRAngle L I).L.pending.length + 1)
        (P.diagnoseMissingRAngle L I)
      rw [remaining_diagnoseMissingRAngle] at this
      exact this
    by_cases h2 : startsWithGreater (P.diagnoseMissingRAngle L I).skipUntilAnyOperator.Tok = true
    · rw [if_pos h2]
      have := remaining_afterGreater E _ h2
      omega
    · rw [if_neg h2]; exact h1

/-- The generic parameter parser returns when the fuel exceeds the number of tokens left; it
returns no list exactly when no parameter was collected, and it never moves the cursor
backwards. -/
theorem parametersAt_spec (E : Env σ) (hE : E.ForwardOnly) (fuel : Nat) (LAngleLoc : SourceLoc)
    (P : Parser σ) (hf : P.remaining < fuel) :
    ∃ G I P1 W R I1 P2,
      parseGenericParametersLoop E fuel P [] false = .ok (G, I, P1) ∧
      parseGenericParametersWhere E fuel P1 I = .ok (W, R, I1, P2) ∧
      P2.remaining ≤ P.remaining ∧
      parseGenericParametersAt E fuel LAngleLoc P =
        .ok (if G.isEmpty then none
             else some { LAngleLoc := LAngleLoc, Params := G, WhereLoc := W, Requirements := R,
                         RAngleLoc :=
                          if startsWithGreater P2.Tok then P2.Tok.getLoc
                          else (P2.diagnoseMissingRAngle LAngleLoc
                                  I1).skipUntilAnyOperator.Tok.getLoc },
             afterRAngle E P2 LAngleLoc I1) := by
  unfold parseGenericParametersAt
  obtain ⟨G, I, P1, h, hle⟩ := paramLoop_total E hE fuel P [] false hf
  obtain ⟨W, R, I1, P2, h2, hle2⟩ := whereStep_total E hE fuel P1 I (by omega)
  refine ⟨G, I, P1, W, R, I1, P2, h, h2, by omega, ?_⟩
  rw [h]
  simp only [h2, rangle_eq]
  split <;> rfl

/-- The accumulated parameters are a prefix of the result of the parameter loop. -/
theorem paramLoop_prefix (E : Env σ) :
    ∀ (fuel : Nat) (P : Parser σ) (G : List GenericParam) (I : Bool)
      (G1 : List GenericParam) (I1 : Bool) (P1 : Parser σ),
      parseGenericParametersLoop E fuel P G I = .ok (G1, I1, P1) → ∃ New, G1 = G ++ New := by
  intro fuel
  induction fuel with
  | zero => intro P G I G1 I1 P1 h; cases h
  | succ n ih =>
    intro P G I G1 I1 P1 h
    unfold parseGenericParametersLoop at h
    obtain ⟨r, Inv1, Q, hb⟩ := paramBody_ok E P I
    rw [hb] at h
    cases r with
    | none => cases h; exact ⟨[], by simp⟩
    | some Param =>
      simp only at h
      rcases consumeIf_cases Q tok.comma (by decide) with ⟨_, hc⟩ | ⟨_, hc⟩
      · rw [hc] at h
        obtain ⟨New, hN⟩ := ih _ _ _ _ _ _ h
        exact ⟨Param :: New, by simp [hN]⟩
      · rw [hc] at h; cases h; exact ⟨[Param], rfl⟩

/-- The parameter loop started with no parameter ends with none exactly when the first name
parse fails. -/
theorem paramLoop_nil_iff (E : Env σ) (fuel : Nat) (P : Parser σ) (I : Bool)
    (G1 : List GenericParam) (I1 : Bool) (P1 : Parser σ)
    (h : parseGenericParametersLoop E fuel P [] I = .ok (G1, I1, P1)) :
    G1 = [] ↔ (P.invoke (E.parseIdentifier DiagID.expected_generics_parameter_name)).1 = none := by
  cases fuel with
  | zero => cases h
  | succ n =>
    unfold parseGenericParametersLoop at h
    rcases paramBody_cases E P I with ⟨hn, hb⟩ | ⟨Name, NameLoc, Inh, Inv1, P2, hs, _, hb⟩
    · rw [hb] at h; cases h; simp [hn]
    · rw [hb] at h
      simp only at h
      rw [hs]
      simp only [reduceCtorEq, iff_false]
      rcases consumeIf_cases (P2.addToScope (P2.makeGenericParam Name NameLoc Inh)) tok.comma
        (by decide) with ⟨_, hc⟩ | ⟨_, hc⟩
      · rw [hc] at h
        obtain ⟨New, hN⟩ := paramLoop_prefix E _ _ _ _ _ _ _ h
        simp [hN]
      · rw [hc] at h; cases h; simp

end Parser

namespace Reference

open Parser

theorem parseProtocolList_length_aux : ∀ (n : Nat) (Ts : List Token), Ts.length ≤ n →
    ∀ (Acc : List String) (Names : List String) (Rest : List Token),
      parseProtocolList Ts Acc = some (Names, Rest) → Rest.length < Ts.length := by
  intro n
  induction n with
  | zero =>
    intro Ts hn Acc Names Rest h
    cases Ts with
    | nil => simp [parseProtocolList] at h
    | cons T Ts1 => simp at hn
  | succ n ih =>
    intro Ts hn Acc Names Rest h
    cases Ts with
    | nil => simp [parseProtocolList] at h
    | cons T Ts1 =>
      unfold parseProtocolList at h
      split at h
      · cases Ts1 with
        | nil => simp at h
        | cons U Us =>
          simp only at h
          split at h
          · have := ih Us (by simp at hn; omega) _ _ _ h
            simp only [List.length_cons]; omega
          · split at h
            · cases h; simp only [List.length_cons]; omega
            · cases h
      · cases h

theorem parseProtocolList_length (Ts : List Token) (Acc : List String) (Names : List String)
    (Rest : List Token) (h : parseProtocolList Ts Acc = some (Names, Rest)) :
    Rest.length < Ts.length :=
  parseProtocolList_length_aux Ts.length Ts (Nat.le_refl _) Acc Names Rest h

/-- The reference sub-parsers never move the cursor backwards. -/
theorem forwardOnly_env : (env : Env σ).ForwardOnly := by
  constructor
  · intro D P
    show (parseIdentifier D P).2.remaining ≤ _
    unfold parseIdentifier
    split
    · rename_i h
      exact Nat.le_of_lt (remaining_lex_lt P (by rw [h]; decide))
    · exact Nat.le_refl _
  · intro P
    show (parseTypeIdentifier P).2.remaining ≤ _
    unfold parseTypeIdentifier
    split
    · rename_i h
      exact Nat.le_of_lt (remaining_lex_lt P (by rw [h]; decide))
    · exact Nat.le_refl _
  · intro P
    show (parseTypeComposition P).2.remaining ≤ _
    unfold parseTypeComposition
    split
    · rename_i hk
      split
      · exact Nat.le_refl _
      · rename_i T Ts hp
        split
        · split
          · exact Nat.le_refl _
          · rename_i Names Rest hl
            have hlen := parseProtocolList_length _ _ _ _ hl
            have hne : P.Tok.Kind ≠ tok.eof := by rw [hk]; decide
            have h1 := remaining_lex_lt ({ P with L := { P.L with pending := Rest } } : Parser σ) hne
            simp only [remaining, hne, if_false, hp, List.length_cons] at h1 ⊢
            omega
        · exact Nat.le_refl _
    · exact Nat.le_refl _

end Reference

namespace Parser

@[simp] theorem Diags_lex (P : Parser σ) : P.lex.Diags = P.Diags := by
  unfold lex; split <;> rfl

@[simp] theorem ScopeInfo_lex (P : Parser σ) : P.lex.ScopeInfo = P.ScopeInfo := by
  unfold lex; split <;> rfl

@[simp] theorem Context_lex (P : Parser σ) : P.lex.Context = P.Context := by
  unfold lex; split <;> rfl

@[simp] theorem CurDeclContext_lex (P : Parser σ) : P.lex.CurDeclContext = P.CurDeclContext := by
  unfold lex; split <;> rfl

theorem Diags_skipLoop : ∀ (n : Nat) (P : Parser σ),
    (skipUntilAnyOperatorLoop n P).Diags = P.Diags := by
  intro n
  induction n with
  | zero => intro P; rfl
  | succ n ih =>
    intro P
    unfold skipUntilAnyOperatorLoop
    split
    · rfl
    · rw [ih, Diags_lex]

theorem ScopeInfo_skipLoop : ∀ (n : Nat) (P : Parser σ),
    (skipUntilAnyOperatorLoop n P).ScopeInfo = P.ScopeInfo := by
  intro n
  induction n with
  | zero => intro P; rfl
  | succ n ih =>
    intro P
    unfold skipUntilAnyOperatorLoop
    split
    · rfl
    · rw [ih, ScopeInfo_lex]

/-- The recovery skip stops on an operator or on the end-of-input token. -/
theorem skipLoop_stops : ∀ (n : Nat) (P : Parser σ),
    (P.Tok.Kind = tok.eof ∨ P.L.pending.length < n) →
    ((skipUntilAnyOperatorLoop n P).Tok.is tok.eof ||
      (skipUntilAnyOperatorLoop n P).Tok.isAnyOperator) = true := by
  intro n
  induction n with
  | zero =>
    intro P h
    rcases h with h | h
    · simp [skipUntilAnyOperatorLoop, Token.is, h]
    · omega
  | succ n ih =>
    intro P h
    unfold skipUntilAnyOperatorLoop
    split
    · assumption
    · rename_i hc
      have hne : P.Tok.Kind ≠ tok.eof := by
        intro he; apply hc; simp [Token.is, he]
      have hlen : P.L.pending.length < n + 1 := by
        rcases h with h | h
        · exact absurd h hne
        · exact h
      apply ih
      unfold lex
      cases hp : P.L.pending with
      | nil => left; rfl
      | cons T Ts =>
        right
        rw [hp] at hlen
        simp only [List.length_cons] at hlen ⊢
        omega

theorem skipUntilAnyOperator_stops (P : Parser σ) :
    (P.skipUntilAnyOperator.Tok.is tok.eof || P.skipUntilAnyOperator.Tok.isAnyOperator) = true :=
  skipLoop_stops _ P (Or.inr (Nat.lt_succ_self _))

theorem Diags_diagnoseMissingRAngle (P : Parser σ) (L : SourceLoc) (I : Bool) :
    (P.diagnoseMissingRAngle L I).Diags =
      P.Diags ++ (if I then [] else
        [{ Loc := P.Tok.getLoc, ID := DiagID.expected_rangle_generics_param, FixIts := [] },
         { Loc := L, ID := DiagID.opening_angle, FixIts := [] }]) := by
  unfold diagnoseMissingRAngle
  cases I <;> simp [diagnose]

theorem Diags_afterGreater (E : Env σ) (P : Parser σ) :
    (if P.Tok.getLength = 1 then P.lex else P.splitFirstChar E).Diags = P.Diags := by
  split
  · exact Diags_lex P
  · rfl

theorem ScopeInfo_afterGreater (E : Env σ) (P : Parser σ) :
    (if P.Tok.getLength = 1 then P.lex else P.splitFirstChar E).ScopeInfo = P.ScopeInfo := by
  split
  · exact ScopeInfo_lex P
  · rfl

/-- Diagnostics of the closing-bracket step: none when the bracket is there or an error was
recorded before, the two closing-bracket diagnostics otherwise. -/
theorem Diags_afterRAngle (E : Env σ) (P : Parser σ) (L : SourceLoc) (I : Bool) :
    (afterRAngle E P L I).Diags =
      P.Diags ++ (if startsWithGreater P.Tok || I then [] else
        [{ Loc := P.Tok.getLoc, ID := DiagID.expected_rangle_generics_param, FixIts := [] },
         { Loc := L, ID := DiagID.opening_angle, FixIts := [] }]) := by
  unfold afterRAngle
  by_cases h : startsWithGreater P.Tok = true
  · rw [if_pos h, Diags_afterGreater]
    simp [h]
  · have h2 : startsWithGreater P.Tok = false := by simpa using h
    rw [if_neg h]
    simp only [h2, Bool.false_or]
    have hs : (P.diagnoseMissingRAngle L I).skipUntilAnyOperator.Diags =
        (P.diagnoseMissingRAngle L I).Diags := Diags_skipLoop _ _
    split
    · rw [Diags_afterGreater, hs, Diags_diagnoseMissingRAngle]
    · rw [hs, Diags_diagnoseMissingRAngle]

theorem ScopeInfo_afterRAngle (E : Env σ) (P : Parser σ) (L : SourceLoc) (I : Bool) :
    (afterRAngle E P L I).ScopeInfo = P.ScopeInfo := by
  have hd : (P.diagnoseMissingRAngle L I).ScopeInfo = P.ScopeInfo := by
    unfold diagnoseMissingRAngle; split <;> rfl
  have hs : (P.diagnoseMissingRAngle L I).skipUntilAnyOperator.ScopeInfo = P.ScopeInfo := by
    rw [← hd]; exact ScopeInfo_skipLoop _ _
  unfold afterRAngle
  split
  · exact ScopeInfo_afterGreater E P
  · split
    · rw [ScopeInfo_afterGreater, hs]
    · exact hs

/-- A parameter loop that ends with the validity flag clear has collected a parameter. -/
theorem paramLoop_valid (E : Env σ) (fuel : Nat) (P : Parser σ) (I : Bool)
    (G1 : List GenericParam) (I1 : Bool) (P1 : Parser σ)
    (h : parseGenericParametersLoop E fuel P [] I = .ok (G1, I1, P1)) (hI : I1 = false) :
    G1 ≠ [] := by
  intro hG
  have hn := (paramLoop_nil_iff E fuel P I G1 I1 P1 h).1 hG
  cases fuel with
  | zero => cases h
  | succ n =>
    unfold parseGenericParametersLoop at h
    rcases paramBody_cases E P I with ⟨_, hb⟩ | ⟨Name, NameLoc, Inh, Inv1, P2, hs, _, _⟩
    · rw [hb] at h; cases h; cases hI
    · rw [hs] at hn; cases hn

/-- The where-clause step never clears the validity flag. -/
theorem whereStep_invalid (E : Env σ) (fuel : Nat) (P : Parser σ) (I : Bool) (W : SourceLoc)
    (R : List Requirement) (I1 : Bool) (P1 : Parser σ)
    (h : parseGenericParametersWhere E fuel P I = .ok (W, R, I1, P1)) (hI : I1 = false) :
    I = false := by
  unfold parseGenericParametersWhere at h
  split at h
  · split at h
    · cases h
    · cases h
      cases I <;> simp_all
  · cases h; exact hI

end Parser

namespace Parser

theorem paramLoop_succ (E : Env σ) (n : Nat) (P : Parser σ) (G : List GenericParam) (I : Bool) :
    parseGenericParametersLoop E (n + 1) P G I =
      match parseGenericParametersBody E P I with
      | .error e => .error e
      | .ok (none, Invalid1, P1) => .ok (G, Invalid1, P1)
      | .ok (some Param, Invalid1, P1) =>
        match P1.consumeIf tok.comma with
        | .error e => .error e
        | .ok (true, P2) => parseGenericParametersLoop E n P2 (G ++ [Param]) Invalid1
        | .ok (false, P2) => .ok (G ++ [Param], Invalid1, P2) := rfl

theorem whereLoop_succ (E : Env σ) (n : Nat) (P : Parser σ) (R : List Requirement) :
    parseGenericWhereClauseLoop E (n + 1) P R =
      match parseGenericWhereClauseBody E P with
      | .error e => .error e
      | .ok (none, P1) => .ok (true, R, P1)
      | .ok (some Rq, P1) =>
        match P1.consumeIf tok.comma with
        | .error e => .error e
        | .ok (true, P2) => parseGenericWhereClauseLoop E n P2 (R ++ [Rq])
        | .ok (false, P2) => .ok (false, R ++ [Rq], P2) := rfl

theorem skipLoop_succ (n : Nat) (P : Parser σ) :
    skipUntilAnyOperatorLoop (n + 1) P =
      if P.Tok.is tok.eof || P.Tok.isAnyOperator then P
      else skipUntilAnyOperatorLoop n P.lex := rfl

end Parser

namespace Parser

theorem startsWithGreater_data (T : Token) (h : startsWithGreater T = true) :
    T.getText.data = '>' :: T.getText.data.tail := by
  unfold startsWithGreater at h
  cases hd : T.getText.data with
  | nil => simp [hd] at h
  | cons c cs =>
    simp only [hd, List.head?_cons, Option.some.injEq, decide_eq_true_eq] at h
    simp [h]

end Parser

namespace Parser

/-- The body of the requirement loop computes the outcome the spec describes. -/
theorem whereBody_eq_outcome (E : Env σ) (P : Parser σ) :
    parseGenericWhereClauseBody E P =
      .ok (match requirementOutcome E P with
           | (.inl _, P1) => (none, P1)
           | (.inr R, P1) => (some R, P1)) := by
  unfold requirementOutcome
  rcases whereBody_cases E P with ⟨h1, h⟩ | ⟨T1, h1, hc, h⟩ | ⟨T1, h1, hc, hd, h⟩ |
    ⟨T1, h1, hc, hd, h⟩
  · rw [h]
    rcases hi : P.invoke E.parseTypeIdentifier with ⟨r, Q⟩
    rw [hi] at h1
    simp only at h1
    subst h1
    rfl
  · rw [h]
    rcases hi : P.invoke E.parseTypeIdentifier with ⟨r, Q⟩
    rw [hi] at h1 hc
    simp only at h1 hc
    subst h1
    simp only [hc, if_true]
    rcases parseProtocolOrComposition E Q.lex with ⟨r3, P3⟩
    cases r3 <;> rfl
  · rw [h]
    rcases hi : P.invoke E.parseTypeIdentifier with ⟨r, Q⟩
    rw [hi] at h1 hc hd
    simp only at h1 hc hd
    subst h1
    simp only [hc, if_false, hd, if_true]
    rcases (diagnoseSingleEqual Q).lex.invoke E.parseTypeIdentifier with ⟨r3, P3⟩
    cases r3 <;> rfl
  · rw [h]
    rcases hi : P.invoke E.parseTypeIdentifier with ⟨r, Q⟩
    rw [hi] at h1 hc hd
    simp only at h1 hc hd
    subst h1
    simp only [hc, if_false, hd, Bool.false_eq_true]

/-- The requirement loop refines the run the spec describes: it appends the requirements of
the run to whatever the vector held, and its flag says whether the run ended on a failure. -/
theorem whereLoop_run (E : Env σ) (hE : E.ForwardOnly) :
    ∀ (fuel : Nat) (P : Parser σ), P.remaining < fuel →
      ∃ New e P1, RequirementRun E P New e P1 ∧
        ∀ R, parseGenericWhereClauseLoop E fuel P R = .ok (e.isFailure, R ++ New, P1) := by
  intro fuel
  induction fuel with
  | zero => intro P h; omega
  | succ n ih =>
    intro P hf
    have hb := whereBody_eq_outcome E P
    rcases ho : requirementOutcome E P with ⟨r, P1⟩
    rw [ho] at hb
    have hr := whereBody_remaining E hE P _ _ hb
    cases r with
    | inl f =>
      refine ⟨[], .failure f, P1, RequirementRun.failed P P1 f ho, ?_⟩
      intro R
      rw [whereLoop_succ, hb]
      simp [LoopEnd.isFailure]
    | inr Rq =>
      simp only at hb hr
      rcases consumeIf_cases P1 tok.comma (by decide) with ⟨hk, hc⟩ | ⟨hk, hc⟩
      · have hlt := remaining_lex_lt P1 (by rw [hk]; decide)
        obtain ⟨New, e, P2, hrun, hloop⟩ := ih P1.lex (by omega)
        refine ⟨Rq :: New, e, P2, RequirementRun.next P P1 P2 Rq New e ho hk hrun, ?_⟩
        intro R
        rw [whereLoop_succ, hb]
        simp only [hc]
        rw [hloop]
        simp
      · refine ⟨[Rq], .noComma, P1, RequirementRun.last P P1 Rq ho hk, ?_⟩
        intro R
        rw [whereLoop_succ, hb]
        simp only [hc]
        rfl

end Parser

namespace Parser

/-! ### Diagnostics in front -/

@[simp] theorem Tok_prependDiags (D : List Diagnostic) (P : Parser σ) :
    (P.prependDiags D).Tok = P.Tok := rfl

@[simp] theorem remaining_prependDiags (D : List Diagnostic) (P : Parser σ) :
    (P.prependDiags D).remaining = P.remaining := rfl

@[simp] theorem Diags_prependDiags (D : List Diagnostic) (P : Parser σ) :
    (P.prependDiags D).Diags = D ++ P.Diags := rfl

theorem lex_prependDiags (D : List Diagnostic) (P : Parser σ) :
    (P.prependDiags D).lex = P.lex.prependDiags D := by
  unfold lex prependDiags
  cases P.L.pending <;> rfl

theorem diagnose_prependDiags (D : List Diagnostic) (P : Parser σ) (Loc : SourceLoc)
    (ID : DiagID) (F : List FixIt) :
    (P.prependDiags D).diagnose Loc ID F = (P.diagnose Loc ID F).prependDiags D := by
  simp [diagnose, prependDiags]

theorem invoke_prependDiags {α : Type} (f : Parser σ → Option α × Parser σ)
    (D : List Diagnostic) (P : Parser σ) :
    (P.prependDiags D).invoke f = ((P.invoke f).1, (P.invoke f).2.prependDiags D) := by
  simp [invoke, prependDiags]

theorem parseProtocolOrComposition_prependDiags (E : Env σ) (D : List Diagnostic)
    (P : Parser σ) :
    parseProtocolOrComposition E (P.prependDiags D) =
      ((parseProtocolOrComposition E P).1, (parseProtocolOrComposition E P).2.prependDiags D) := by
  unfold parseProtocolOrComposition
  simp only [Tok_prependDiags]
  split <;> exact invoke_prependDiags _ D P

theorem diagnoseSingleEqual_prependDiags (D : List Diagnostic) (P : Parser σ) :
    diagnoseSingleEqual (P.prependDiags D) = (diagnoseSingleEqual P).prependDiags D := by
  unfold diagnoseSingleEqual
  simp only [Tok_prependDiags]
  split
  · exact diagnose_prependDiags D P _ _ _
  · rfl

/-- One requirement is parsed in the same way whatever the sink already holds. -/
theorem requirementOutcome_prependDiags (E : Env σ) (D : List Diagnostic) (P : Parser σ) :
    requirementOutcome E (P.prependDiags D) =
      ((requirementOutcome E P).1, (requirementOutcome E P).2.prependDiags D) := by
  unfold requirementOutcome
  rw [invoke_prependDiags]
  rcases P.invoke E.parseTypeIdentifier with ⟨r1, P1⟩
  cases r1 with
  | none => rfl
  | some Left =>
    simp only [Tok_prependDiags]
    split
    · rw [lex_prependDiags, parseProtocolOrComposition_prependDiags]
      rcases parseProtocolOrComposition E P1.lex with ⟨r2, P2⟩
      cases r2 <;> rfl
    · split
      · rw [diagnoseSingleEqual_prependDiags, lex_prependDiags, invoke_prependDiags]
        rcases (diagnoseSingleEqual P1).lex.invoke E.parseTypeIdentifier with ⟨r2, P2⟩
        cases r2 <;> rfl
      · rw [diagnose_prependDiags]

/-- One pass of the requirement loop, in terms of the outcome of one requirement. -/
theorem whereLoop_step (E : Env σ) (n : Nat) (P : Parser σ) (R : List Requirement) :
    parseGenericWhereClauseLoop E (n + 1) P R =
      match requirementOutcome E P with
      | (.inl _, P1) => .ok (true, R, P1)
      | (.inr Rq, P1) =>
        if P1.Tok.Kind = tok.comma then parseGenericWhereClauseLoop E n P1.lex (R ++ [Rq])
        else .ok (false, R ++ [Rq], P1) := by
  rw [whereLoop_succ, whereBody_eq_outcome]
  rcases requirementOutcome E P with ⟨r, Q⟩
  cases r with
  | inl f => rfl
  | inr Rq =>
    simp only
    rcases consumeIf_cases Q tok.comma (by decide) with ⟨hk, hc⟩ | ⟨hk, hc⟩
    · rw [hc, if_pos hk]
    · rw [hc, if_neg hk]

/-- The requirement loop runs in the same way whatever the sink already holds. -/
theorem whereLoop_prependDiags (E : Env σ) (D : List Diagnostic) :
    ∀ (fuel : Nat) (P : Parser σ) (R : List Requirement) (I : Bool) (R1 : List Requirement)
      (P1 : Parser σ), parseGenericWhereClauseLoop E fuel P R = .ok (I, R1, P1) →
      parseGenericWhereClauseLoop E fuel (P.prependDiags D) R = .ok (I, R1, P1.prependDiags D) := by
  intro fuel
  induction fuel with
  | zero => intro P R I R1 P1 h; cases h
  | succ n ih =>
    intro P R I R1 P1 h
    rw [whereLoop_step] at h ⊢
    rw [requirementOutcome_prependDiags]
    rcases ho : requirementOutcome E P with ⟨r, Q⟩
    rw [ho] at h
    cases r with
    | inl f =>
      simp only at h ⊢
      cases h
      rfl
    | inr Rq =>
      simp only [Tok_prependDiags] at h ⊢
      split at h
      · rename_i hk
        rw [if_pos hk, lex_prependDiags]
        exact ih _ _ _ _ _ h
      · rename_i hk
        rw [if_neg hk]
        cases h
        rfl

end Parser

/-! ### Respelling -/

theorem respellEqual_Loc (T : Token) : (respellEqual T).Loc = T.Loc := by
  unfold respellEqual; split <;> rfl

theorem respellEqual_of_ne (T : Token) (h : T.Kind ≠ tok.equal) : respellEqual T = T := by
  unfold respellEqual
  rw [if_neg]
  intro hc
  exact h hc.1

/-- Respelling does not turn a token into, or away from, a kind other than the assignment and
operator kinds. -/
theorem respellEqual_Kind_iff (T : Token) (K : tok) (h1 : K ≠ tok.equal)
    (h2 : K ≠ tok.oper_binary) : (respellEqual T).Kind = K ↔ T.Kind = K := by
  unfold respellEqual
  split
  · rename_i h
    simp only
    constructor
    · intro hk; exact absurd hk.symm h2
    · intro hk; rw [h.1] at hk; exact absurd hk.symm h1
  · rfl

theorem respellPending_of_le (k : Nat) : ∀ Ts : List Token, Ts.length ≤ k →
    respellPending k Ts = Ts := by
  intro Ts
  induction Ts with
  | nil => intro _; rfl
  | cons T Ts ih =>
    intro h
    simp only [List.length_cons] at h
    unfold respellPending
    rw [if_neg (by omega), ih (by omega)]

theorem respellPending_length (k : Nat) : ∀ Ts : List Token,
    (respellPending k Ts).length = Ts.length := by
  intro Ts
  induction Ts with
  | nil => rfl
  | cons T Ts ih =>
    unfold respellPending
    split <;> simp [ih]

namespace Parser

theorem Tok_respell (k : Nat) (P : Parser σ) :
    (P.respell k).Tok = if P.L.pending.length = k then respellEqual P.Tok else P.Tok := rfl

theorem Tok_respell_Kind_iff (k : Nat) (P : Parser σ) (K : tok) (h1 : K ≠ tok.equal)
    (h2 : K ≠ tok.oper_binary) : (P.respell k).Tok.Kind = K ↔ P.Tok.Kind = K := by
  rw [Tok_respell]
  split
  · exact respellEqual_Kind_iff _ K h1 h2
  · rfl

theorem Tok_respell_Loc (k : Nat) (P : Parser σ) : (P.respell k).Tok.Loc = P.Tok.Loc := by
  rw [Tok_respell]
  split
  · exact respellEqual_Loc _
  · rfl

theorem remaining_respell (k : Nat) (P : Parser σ) : (P.respell k).remaining = P.remaining := by
  unfold remaining
  have h1 : ((P.respell k).Tok.Kind = tok.eof) ↔ (P.Tok.Kind = tok.eof) :=
    Tok_respell_Kind_iff k P tok.eof (by decide) (by decide)
  have h2 : (P.respell k).L.pending.length = P.L.pending.length := respellPending_length k _
  rw [h2]
  by_cases h : P.Tok.Kind = tok.eof
  · rw [if_pos h, if_pos (h1.2 h)]
  · rw [if_neg h, if_neg (fun hc => h (h1.1 hc))]

theorem lex_respell (k : Nat) (P : Parser σ) : (P.respell k).lex = P.lex.respell k := by
  obtain ⟨Tok, ⟨pending, bufferEnd⟩, D, S, C, X⟩ := P
  cases pending with
  | nil =>
    simp only [lex, respell, respellPending, List.length_nil]
    rw [respellEqual_of_ne ⟨tok.eof, "", bufferEnd⟩ (by simp)]
    simp
  | cons T Ts =>
    simp only [lex, respell, respellPending]
    by_cases h : Ts.length = k
    · simp only [h, if_true]
      rw [respellPending_of_le k Ts (by omega)]
    · simp only [h, if_false]

/-- When the current token is the one to respell, both streams are the same once it is
consumed. -/
theorem lex_respell_here (k : Nat) (P : Parser σ) (h : P.L.pending.length = k) :
    (P.respell k).lex = P.lex := by
  obtain ⟨Tok, ⟨pending, bufferEnd⟩, D, S, C, X⟩ := P
  simp only at h
  simp only [lex, respell, respellPending_of_le k pending (by omega)]

theorem diagnose_respell (k : Nat) (P : Parser σ) (Loc : SourceLoc) (ID : DiagID)
    (F : List FixIt) : (P.respell k).diagnose Loc ID F = (P.diagnose Loc ID F).respell k := rfl

theorem invoke_respell {α : Type} (f : Parser σ → Option α × Parser σ) (k : Nat)
    (hf : ∀ Q : Parser σ, f (Q.respell k) = ((f Q).1, (f Q).2.respell k)) (P : Parser σ) :
    (P.respell k).invoke f = ((P.invoke f).1, (P.invoke f).2.respell k) := by
  have h := hf { P with Diags := [] }
  have e1 : (P.respell k).invoke f =
      ((f (({ P with Diags := [] } : Parser σ).respell k)).1,
       { (f (({ P with Diags := [] } : Parser σ).respell k)).2 with
         Diags := P.Diags ++ (f (({ P with Diags := [] } : Parser σ).respell k)).2.Diags }) := rfl
  rw [e1, h]
  rfl

theorem parseProtocolOrComposition_respell (E : Env σ) (k : Nat) (hI : E.RespellInsensitive k)
    (P : Parser σ) :
    parseProtocolOrComposition E (P.respell k) =
      ((parseProtocolOrComposition E P).1, (parseProtocolOrComposition E P).2.respell k) := by
  unfold parseProtocolOrComposition
  have hk := Tok_respell_Kind_iff k P tok.kw_protocol (by decide) (by decide)
  by_cases h : P.Tok.Kind = tok.kw_protocol
  · rw [if_pos ((is_iff _ _).2 (hk.2 h)), if_pos ((is_iff _ _).2 h)]
    exact invoke_respell _ k hI.typeComp P
  · have h2 : ¬ (P.respell k).Tok.Kind = tok.kw_protocol := fun hc => h (hk.1 hc)
    rw [if_neg (by simpa [Token.is] using h2), if_neg (by simpa [Token.is] using h)]
    exact invoke_respell _ k hI.typeIdent P

/-- Away from the token to respell, one requirement is parsed in the same way on both
streams. -/
theorem requirementOutcome_respell (E : Env σ) (k : Nat) (hI : E.RespellInsensitive k)
    (P : Parser σ)
    (hn : (P.invoke E.parseTypeIdentifier).2.Tok.Kind = tok.equal →
      (P.invoke E.parseTypeIdentifier).2.L.pending.length ≠ k) :
    requirementOutcome E (P.respell k) =
      ((requirementOutcome E P).1, (requirementOutcome E P).2.respell k) := by
  unfold requirementOutcome
  rw [invoke_respell _ k hI.typeIdent]
  rcases hi : P.invoke E.parseTypeIdentifier with ⟨r1, Q⟩
  rw [hi] at hn
  simp only at hn
  cases r1 with
  | none => rfl
  | some Left =>
    have hT : (Q.respell k).Tok = Q.Tok := by
      rw [Tok_respell]
      split
      · rename_i hl
        apply respellEqual_of_ne
        intro he
        exact hn he hl
      · rfl
    simp only [hT]
    split
    · rw [lex_respell, parseProtocolOrComposition_respell E k hI]
      rcases parseProtocolOrComposition E Q.lex with ⟨r2, P2⟩
      cases r2 <;> rfl
    · split
      · have hd : diagnoseSingleEqual (Q.respell k) = (diagnoseSingleEqual Q).respell k := by
          unfold diagnoseSingleEqual
          rw [hT]
          split <;> rfl
        rw [hd, lex_respell, invoke_respell _ k hI.typeIdent]
        rcases (diagnoseSingleEqual Q).lex.invoke E.parseTypeIdentifier with ⟨r2, P2⟩
        cases r2 <;> rfl
      · rfl

theorem requirementOutcome_remaining (E : Env σ) (hE : E.ForwardOnly) (P : Parser σ) :
    (requirementOutcome E P).2.remaining ≤ P.remaining := by
  have hb := whereBody_eq_outcome E P
  rcases ho : requirementOutcome E P with ⟨r, Q⟩
  rw [ho] at hb
  cases r with
  | inl f => exact whereBody_remaining E hE P _ _ hb
  | inr Rq => exact whereBody_remaining E hE P _ _ hb

/-- The outcome of a requirement whose left-hand type is followed by `==` or `=`. -/
theorem requirementOutcome_sameType (E : Env σ) (P Q : Parser σ) (Left : TypeRepr)
    (hinv : P.invoke E.parseTypeIdentifier = (some Left, Q)) (hc : Q.Tok.Kind ≠ tok.colon)
    (hd : isSameTypeDelim Q.Tok = true) :
    requirementOutcome E P =
      match (diagnoseSingleEqual Q).lex.invoke E.parseTypeIdentifier with
      | (none, P2) => (.inl .rightType, P2)
      | (some Right, P2) => (.inr (Requirement.SameType Left Q.Tok.getLoc Right), P2) := by
  unfold requirementOutcome
  rw [hinv]
  simp only [hc, if_false, hd, if_true]

theorem SingleEqualDelimiter.remaining (E : Env σ) (hE : E.ForwardOnly) (k loc : Nat)
    (P : Parser σ) (h : SingleEqualDelimiter E k loc P) : k + 1 ≤ P.remaining := by
  induction h with
  | here P Q Left hinv hTok hlen =>
    have h1 := remaining_invoke_le _ hE.typeIdent P
    rw [hinv] at h1
    have h2 : Q.remaining = k + 1 := by
      unfold Parser.remaining
      rw [hTok, hlen]
      simp
    simp only at h1
    omega
  | later P Q R ho hk _ ih =>
    have h1 := requirementOutcome_remaining E hE P
    rw [ho] at h1
    have h2 := remaining_lex_lt Q (by rw [hk]; decide)
    simp only at h1
    omega

/-- The diagnostic for a lone `=` at `loc`, with its fix-it. -/
theorem diagnoseSingleEqual_here (Q : Parser σ) (loc : Nat)
    (hTok : Q.Tok = { Kind := tok.equal, Text := "=", Loc := loc }) :
    (diagnoseSingleEqual Q).lex =
      (({ Q.lex with Diags := [] } : Parser σ)).prependDiags
        (Q.Diags ++ [{ Loc := some loc, ID := DiagID.requires_single_equal,
                       FixIts := [{ Start := some loc, End := some loc, Text := "==" }] }]) := by
  obtain ⟨Tok, ⟨pending, bufferEnd⟩, D, S, C, X⟩ := Q
  simp only at hTok
  subst hTok
  cases pending <;>
    simp [diagnoseSingleEqual, Token.is, diagnose, lex, prependDiags, Token.getLoc]

theorem lex_eq_prependDiags (Q : Parser σ) :
    Q.lex = (({ Q.lex with Diags := [] } : Parser σ)).prependDiags Q.Diags := by
  obtain ⟨Tok, ⟨pending, bufferEnd⟩, D, S, C, X⟩ := Q
  cases pending <;> simp [lex, prependDiags]

end Parser

namespace Parser

/-- On the respelled stream the token tested as the delimiter is the operator `==`. -/
theorem respell_here (k loc : Nat) (Q : Parser σ)
    (hTok : Q.Tok = { Kind := tok.equal, Text := "=", Loc := loc })
    (hlen : Q.L.pending.length = k) :
    (Q.respell k).Tok = { Kind := tok.oper_binary, Text := "==", Loc := loc } := by
  rw [Tok_respell, if_pos hlen, hTok]
  rfl

end Parser

theorem startsWithLess_respellEqual (T : Token) :
    startsWithLess (respellEqual T) = startsWithLess T := by
  unfold respellEqual
  split
  · rename_i h
    obtain ⟨K, Tx, L⟩ := T
    simp only at h
    obtain ⟨h1, h2⟩ := h
    subst h1 h2
    rfl
  · rfl

theorem startsWithGreater_respellEqual (T : Token) :
    startsWithGreater (respellEqual T) = startsWithGreater T := by
  unfold respellEqual
  split
  · rename_i h
    obtain ⟨K, Tx, L⟩ := T
    simp only at h
    obtain ⟨h1, h2⟩ := h
    subst h1 h2
    rfl
  · rfl

theorem respellEqual_of_startsWithGreater (T : Token) (h : startsWithGreater T = true) :
    respellEqual T = T := by
  unfold respellEqual
  split
  · rename_i hc
    obtain ⟨K, Tx, L⟩ := T
    simp only at hc
    obtain ⟨h1, h2⟩ := hc
    subst h1 h2
    simp [startsWithGreater, Token.getText] at h
  · rfl

theorem respellEqual_of_startsWithLess (T : Token) (h : startsWithLess T = true) :
    respellEqual T = T := by
  unfold respellEqual
  split
  · rename_i hc
    obtain ⟨K, Tx, L⟩ := T
    simp only at hc
    obtain ⟨h1, h2⟩ := hc
    subst h1 h2
    simp [startsWithLess, Token.getText] at h
  · rfl

namespace Reference

open Parser

theorem parseProtocolList_respell_aux (k : Nat) : ∀ (n : Nat) (Ts : List Token),
    Ts.length ≤ n → ∀ Acc : List String,
      parseProtocolList (respellPending k Ts) Acc =
        (parseProtocolList Ts Acc).map (fun x => (x.1, respellPending k x.2)) := by
  intro n
  induction n with
  | zero =>
    intro Ts hn Acc
    cases Ts with
    | nil => rfl
    | cons T Ts1 => simp at hn
  | succ n ih =>
    intro Ts hn Acc
    cases Ts with
    | nil => rfl
    | cons T Ts1 =>
      cases Ts1 with
      | nil =>
        have e : parseProtocolList [T] Acc = none := by
          unfold parseProtocolList; split <;> rfl
        have e2 : ∀ T2 : Token, parseProtocolList [T2] Acc = none := by
          intro T2; unfold parseProtocolList; split <;> rfl
        rw [e]
        unfold respellPending
        split
        · exact e2 _
        · exact e2 _
      | cons U Us =>
        by_cases hT : T.Kind = tok.identifier
        · have hTe : respellEqual T = T := respellEqual_of_ne T (by rw [hT]; decide)
          have hhead : respellPending k (T :: U :: Us) = T :: respellPending k (U :: Us) := by
            conv => lhs; unfold respellPending
            split
            · rename_i hl
              rw [hTe, respellPending_of_le k (U :: Us) (by omega)]
            · rfl
          rw [hhead]
          by_cases hU : Us.length = k
          · -- the token to respell is `U`
            have hUs : respellPending k (U :: Us) = respellEqual U :: Us := by
              conv => lhs; unfold respellPending
              rw [if_pos hU]
            rw [hUs]
            conv => lhs; unfold parseProtocolList
            conv => rhs; unfold parseProtocolList
            simp only [hT, if_true]
            by_cases hc : U.Kind = tok.comma
            · have hUe : respellEqual U = U := respellEqual_of_ne U (by rw [hc]; decide)
              rw [hUe]
              simp only [hc, if_true]
              cases hr : parseProtocolList Us (Acc ++ [T.getText]) with
              | none => rfl
              | some x =>
                have := parseProtocolList_length _ _ _ _ hr
                simp only [Option.map_some', Option.some.injEq]
                rw [respellPending_of_le k x.2 (by omega)]
            · have hc2 : ¬ (respellEqual U).Kind = tok.comma := fun h =>
                hc ((respellEqual_Kind_iff U tok.comma (by decide) (by decide)).1 h)
              simp only [hc, hc2, if_false]
              by_cases hg : startsWithGreater U = true
              · rw [respellEqual_of_startsWithGreater U hg]
                split
                · simp only [Option.map_some', Option.some.injEq]
                  rw [respellPending_of_le k Us (by omega)]
                · rfl
              · have hg2 : ¬ startsWithGreater (respellEqual U) = true := by
                  rw [startsWithGreater_respellEqual]; exact hg
                rw [if_neg (fun h => hg2 h.1), if_neg (fun h => hg h.1)]
                rfl
          · have hUs : respellPending k (U :: Us) = U :: respellPending k Us := by
              conv => lhs; unfold respellPending
              rw [if_neg hU]
            rw [hUs]
            conv => lhs; unfold parseProtocolList
            conv => rhs; unfold parseProtocolList
            simp only [hT, if_true]
            by_cases hc : U.Kind = tok.comma
            · simp only [hc, if_true]
              exact ih Us (by simp at hn; omega) _
            · simp only [hc, if_false]
              split <;> rfl
        · have hT2 : ¬ (respellEqual T).Kind = tok.identifier := fun h =>
            hT ((respellEqual_Kind_iff T tok.identifier (by decide) (by decide)).1 h)
          have e : parseProtocolList (T :: U :: Us) Acc = none := by
            unfold parseProtocolList; rw [if_neg hT]
          have e2 : ∀ Xs, parseProtocolList (respellEqual T :: Xs) Acc = none := by
            intro Xs; unfold parseProtocolList; rw [if_neg hT2]
          have e3 : ∀ Xs, parseProtocolList (T :: Xs) Acc = none := by
            intro Xs; unfold parseProtocolList; rw [if_neg hT]
          rw [e]
          conv => lhs; arg 1; unfold respellPending
          split
          · exact e2 _
          · exact e3 _

theorem parseProtocolList_respell (k : Nat) (Ts : List Token) (Acc : List String) :
    parseProtocolList (respellPending k Ts) Acc =
      (parseProtocolList Ts Acc).map (fun x => (x.1, respellPending k x.2)) :=
  parseProtocolList_respell_aux k Ts.length Ts (Nat.le_refl _) Acc

end Reference

namespace Reference

open Parser

theorem Tok_respell_of_Kind (k : Nat) (P : Parser σ) (h : P.Tok.Kind ≠ tok.equal) :
    (P.respell k).Tok = P.Tok := by
  rw [Tok_respell]
  split
  · exact respellEqual_of_ne _ h
  · rfl

theorem respell_setPending (k : Nat) (P : Parser σ) (Rest : List Token)
    (h : P.Tok.Kind ≠ tok.equal) :
    ({ P.respell k with L := { (P.respell k).L with pending := respellPending k Rest } } :
        Parser σ) =
      ({ P with L := { P.L with pending := Rest } } : Parser σ).respell k := by
  have h1 := Tok_respell_of_Kind k P h
  have h2 := Tok_respell_of_Kind k ({ P with L := { P.L with pending := Rest } } : Parser σ) h
  obtain ⟨Tok, ⟨pending, bufferEnd⟩, D, S, C, X⟩ := P
  simp only [respell] at h1 h2 ⊢
  simp only [h1, h2]

/-- The reference type sub-parsers cannot tell a lone `=` from `==`. -/
theorem respellInsensitive_env (k : Nat) : (env : Env σ).RespellInsensitive k := by
  constructor
  · intro P
    show parseTypeIdentifier (P.respell k) = ((parseTypeIdentifier P).1, (parseTypeIdentifier P).2.respell k)
    unfold parseTypeIdentifier
    have hk := Tok_respell_Kind_iff k P tok.identifier (by decide) (by decide)
    by_cases h : P.Tok.Kind = tok.identifier
    · rw [if_pos (hk.2 h), if_pos h, lex_respell,
        Tok_respell_of_Kind k P (by rw [h]; decide)]
    · rw [if_neg (fun hc => h (hk.1 hc)), if_neg h]
      simp only [Token.getLoc, Tok_respell_Loc]
      rfl
  · intro P
    show parseTypeComposition (P.respell k) =
      ((parseTypeComposition P).1, (parseTypeComposition P).2.respell k)
    unfold parseTypeComposition
    have hk := Tok_respell_Kind_iff k P tok.kw_protocol (by decide) (by decide)
    have hloc : (P.respell k).Tok.getLoc = P.Tok.getLoc := by
      simp only [Token.getLoc, Tok_respell_Loc]
    by_cases h : P.Tok.Kind = tok.kw_protocol
    · have hne : P.Tok.Kind ≠ tok.equal := by rw [h]; decide
      have hTok := Tok_respell_of_Kind k P hne
      rw [if_pos (hk.2 h), if_pos h]
      have hpend : (P.respell k).L.pending = respellPending k P.L.pending := rfl
      rw [hpend, hloc, hTok]
      cases hp : P.L.pending with
      | nil => rfl
      | cons T Ts =>
        by_cases hl : Ts.length = k
        · have e : respellPending k (T :: Ts) = respellEqual T :: Ts := by
            conv => lhs; unfold respellPending
            rw [if_pos hl]
          rw [e]
          simp only
          by_cases hs : startsWithLess T = true
          · rw [respellEqual_of_startsWithLess T hs]
            split
            · cases hr : parseProtocolList Ts [] with
              | none => rfl
              | some x =>
                have hlen := parseProtocolList_length _ _ _ _ hr
                simp only
                rw [← lex_respell, ← respell_setPending k P x.2 hne,
                  respellPending_of_le k x.2 (by omega)]
                simp only [hTok]
            · rfl
          · have hs2 : ¬ startsWithLess (respellEqual T) = true := by
              rw [startsWithLess_respellEqual]; exact hs
            rw [if_neg (fun hc => hs2 hc.1), if_neg (fun hc => hs hc.1)]
            rfl
        · have e : respellPending k (T :: Ts) = T :: respellPending k Ts := by
            conv => lhs; unfold respellPending
            rw [if_neg hl]
          rw [e]
          simp only
          split
          · rw [parseProtocolList_respell]
            cases hr : parseProtocolList Ts [] with
            | none => rfl
            | some x =>
              simp only [Option.map_some']
              rw [← lex_respell, ← respell_setPending k P x.2 hne]
              simp only [hTok]
          · rfl
    · rw [if_neg (fun hc => h (hk.1 hc)), if_neg h, hloc]
      rfl

end Reference

namespace Parser

theorem watched_logging (E : Env σ) (hS : E.ScopePreserving) : E.watched.Logging := by
  constructor
  · intro D P; exact hS.ident D P.forget
  · intro D P; rfl
  · intro P; exact hS.typeIdent P.forget
  · intro P; rfl
  · intro P; exact hS.typeComp P.forget
  · intro P; rfl

theorem watched_forwardOnly (E : Env σ) (hE : E.ForwardOnly) : E.watched.ForwardOnly := by
  constructor
  · intro D P; exact hE.ident D P.forget
  · intro P; exact hE.typeIdent P.forget
  · intro P; exact hE.typeComp P.forget

theorem ScopeInfo_invoke {τ α : Type} (f : Parser τ → Option α × Parser τ)
    (hf : ∀ Q, (f Q).2.ScopeInfo = Q.ScopeInfo) (P : Parser τ) :
    (P.invoke f).2.ScopeInfo = P.ScopeInfo :=
  hf { P with Diags := [] }

theorem Context_invoke {τ α : Type} (f : Parser τ → Option α × Parser τ) (P : Parser τ) :
    (P.invoke f).2.Context = (f { P with Diags := [] }).2.Context := rfl

@[simp] theorem ScopeInfo_diagnose {τ : Type} (P : Parser τ) (Loc : SourceLoc) (ID : DiagID)
    (F : List FixIt) : (P.diagnose Loc ID F).ScopeInfo = P.ScopeInfo := rfl

@[simp] theorem Context_diagnose {τ : Type} (P : Parser τ) (Loc : SourceLoc) (ID : DiagID)
    (F : List FixIt) : (P.diagnose Loc ID F).Context = P.Context := rfl

@[simp] theorem Context_addToScope {τ : Type} (P : Parser τ) (D : TypeAliasDecl) :
    (P.addToScope D).Context = P.Context := rfl

@[simp] theorem ScopeInfo_addToScope {τ : Type} (P : Parser τ) (D : TypeAliasDecl) :
    (P.addToScope D).ScopeInfo = P.ScopeInfo ++ [D] := rfl

theorem Context_skipLoop {τ : Type} : ∀ (n : Nat) (P : Parser τ),
    (skipUntilAnyOperatorLoop n P).Context = P.Context := by
  intro n
  induction n with
  | zero => intro P; rfl
  | succ n ih =>
    intro P
    unfold skipUntilAnyOperatorLoop
    split
    · rfl
    · rw [ih, Context_lex]

theorem Context_afterRAngle {τ : Type} (E : Env τ) (P : Parser τ) (L : SourceLoc) (I : Bool) :
    (afterRAngle E P L I).Context = P.Context := by
  have hd : (P.diagnoseMissingRAngle L I).Context = P.Context := by
    unfold diagnoseMissingRAngle; split <;> rfl
  have hs : (P.diagnoseMissingRAngle L I).skipUntilAnyOperator.Context = P.Context := by
    rw [← hd]; exact Context_skipLoop _ _
  have hg : ∀ Q : Parser τ,
      (if Q.Tok.getLength = 1 then Q.lex else Q.splitFirstChar E).Context = Q.Context := by
    intro Q; split
    · exact Context_lex Q
    · rfl
  unfold afterRAngle
  split
  · exact hg P
  · split
    · rw [hg, hs]
    · exact hs

/-- The optional constraint of a parameter, watched: the scope is as before; the log is as
before or has the scope added; and it has the scope added when a constraint was parsed. -/
theorem inherited_watched (E : Env (σ × ScopeLog)) (hL : E.Logging) (P : Parser (σ × ScopeLog))
    (Name : String) (I : Bool) (Inh : List TypeRepr) (I1 : Bool) (P1 : Parser (σ × ScopeLog))
    (h : parseGenericParamInherited E P Name I = .ok (Inh, I1, P1)) :
    P1.ScopeInfo = P.ScopeInfo ∧
    ((Inh = [] ∧ P1.Context.2 = P.Context.2) ∨ P1.Context.2 = P.Context.2 ++ [P.ScopeInfo]) := by
  rcases inherited_cases E P Name I with ⟨_, h2⟩ | ⟨_, _, h2⟩ | ⟨_, _, h2⟩ | ⟨_, _, _, h2⟩
  · rw [h2] at h; cases h
    exact ⟨rfl, Or.inl ⟨rfl, rfl⟩⟩
  · rw [h2] at h; cases h
    refine ⟨?_, Or.inr ?_⟩
    · rw [ScopeInfo_invoke _ hL.typeIdentScope, ScopeInfo_lex]
    · rw [Context_invoke, hL.typeIdentLog]
      simp
  · rw [h2] at h; cases h
    refine ⟨?_, Or.inr ?_⟩
    · rw [ScopeInfo_invoke _ hL.typeCompScope, ScopeInfo_lex]
    · rw [Context_invoke, hL.typeCompLog]
      simp
  · rw [h2] at h; cases h
    exact ⟨by simp, Or.inl ⟨rfl, by simp⟩⟩

end Parser

namespace Parser

/-- One pass of the parameter loop, watched.  A failed name leaves scope and log alone.
Otherwise the new parameter is added to the scope, after the constraint was parsed: the log
is as before, or has the scope from before the pass added, and it has when the parameter
carries a constraint. -/
theorem paramBody_watched (E : Env (σ × ScopeLog)) (hL : E.Logging) (P : Parser (σ × ScopeLog))
    (I : Bool) (r : Option GenericParam) (I1 : Bool) (P1 : Parser (σ × ScopeLog))
    (h : parseGenericParametersBody E P I = .ok (r, I1, P1)) :
    (r = none ∧ P1.ScopeInfo = P.ScopeInfo ∧ P1.Context.2 = P.Context.2) ∨
    (∃ Param, r = some Param ∧ P1.ScopeInfo = P.ScopeInfo ++ [Param] ∧
      ((Param.Inherited = [] ∧ P1.Context.2 = P.Context.2) ∨
        P1.Context.2 = P.Context.2 ++ [P.ScopeInfo])) := by
  have hs0 := ScopeInfo_invoke _ (hL.identScope DiagID.expected_generics_parameter_name) P
  have hc0 : (P.invoke (E.parseIdentifier DiagID.expected_generics_parameter_name)).2.Context.2 =
      P.Context.2 := by
    rw [Context_invoke, hL.identLog]
  rcases paramBody_cases E P I with ⟨_, h2⟩ | ⟨Name, NameLoc, Inh, Inv1, P2, _, hi, h2⟩
  · rw [h2] at h; cases h
    exact Or.inl ⟨rfl, hs0, hc0⟩
  · rw [h2] at h; cases h
    obtain ⟨hs, hl⟩ := inherited_watched E hL _ _ _ _ _ _ hi
    right
    refine ⟨_, rfl, ?_, ?_⟩
    · rw [ScopeInfo_addToScope, hs, hs0]
    · rw [Context_addToScope, hs0, hc0] at *
      rcases hl with ⟨h1, h3⟩ | h3
      · exact Or.inl ⟨h1, h3⟩
      · exact Or.inr h3

/-- The parameter loop, watched: the parameters it collects are added to the scope in order,
and the calls that parsed a constraint found the scope holding exactly the parameters before
the one they belong to. -/
theorem paramLoop_watched (E : Env (σ × ScopeLog)) (hL : E.Logging) :
    ∀ (fuel : Nat) (P : Parser (σ × ScopeLog)) (G : List GenericParam) (I : Bool)
      (G1 : List GenericParam) (I1 : Bool) (P1 : Parser (σ × ScopeLog)),
      parseGenericParametersLoop E fuel P G I = .ok (G1, I1, P1) →
      ∃ (New : List GenericParam) (idx : List Nat),
        G1 = G ++ New ∧ P1.ScopeInfo = P.ScopeInfo ++ New ∧
        P1.Context.2 = P.Context.2 ++ idx.map (fun i => P.ScopeInfo ++ New.take i) ∧
        idx.Pairwise (· < ·) ∧ (∀ i ∈ idx, i < New.length) ∧
        (∀ (i : Nat) (p : GenericParam), New.get? i = some p → p.Inherited ≠ [] → i ∈ idx) := by
  intro fuel
  induction fuel with
  | zero => intro P G I G1 I1 P1 h; cases h
  | succ n ih =>
    intro P G I G1 I1 P1 h
    rw [paramLoop_succ] at h
    obtain ⟨r, Inv1, Q, hb⟩ := paramBody_ok E P I
    rw [hb] at h
    rcases paramBody_watched E hL P I r Inv1 Q hb with ⟨hr, hs, hc⟩ | ⟨Param, hr, hs, hc⟩
    · subst hr
      cases h
      exact ⟨[], [], by simp, by simp [hs], by simp [hc], List.Pairwise.nil, by simp, by simp⟩
    · subst hr
      simp only at h
      -- the index of this pass, if its constraint was parsed
      obtain ⟨l0, hl0, hc0, hinh⟩ : ∃ l0 : List Nat, (l0 = [] ∨ l0 = [0]) ∧
          Q.Context.2 = P.Context.2 ++ l0.map (fun _ => P.ScopeInfo) ∧
          (Param.Inherited ≠ [] → l0 = [0]) := by
        rcases hc with ⟨h1, h2⟩ | h2
        · exact ⟨[], Or.inl rfl, by simp [h2], fun hne => absurd h1 hne⟩
        · exact ⟨[0], Or.inr rfl, by simp [h2], fun _ => rfl⟩
      rcases consumeIf_cases Q tok.comma (by decide) with ⟨_, hk⟩ | ⟨_, hk⟩
      · rw [hk] at h
        simp only at h
        obtain ⟨New, idx, hG, hS, hC, hP, hB, hI⟩ := ih _ _ _ _ _ _ h
        refine ⟨Param :: New, l0 ++ idx.map (· + 1), ?_, ?_, ?_, ?_, ?_, ?_⟩
        · rw [hG]; simp
        · rw [hS, ScopeInfo_lex, hs]; simp
        · rw [hC, Context_lex, hc0, ScopeInfo_lex, hs]
          rcases hl0 with rfl | rfl <;> simp [List.map_map, Function.comp_def]
        · rw [List.pairwise_append]
          refine ⟨?_, ?_, ?_⟩
          · rcases hl0 with rfl | rfl <;> simp
          · rw [List.pairwise_map]
            exact hP.imp (fun hab => Nat.succ_lt_succ hab)
          · intro a ha b hb
            rcases hl0 with rfl | rfl
            · simp at ha
            · simp only [List.mem_singleton] at ha
              subst ha
              simp only [List.mem_map] at hb
              obtain ⟨c, _, rfl⟩ := hb
              omega
        · intro i hi
          rw [List.mem_append] at hi
          rcases hi with hi | hi
          · rcases hl0 with rfl | rfl
            · simp at hi
            · simp only [List.mem_singleton] at hi
              subst hi
              simp
          · simp only [List.mem_map] at hi
            obtain ⟨c, hc1, rfl⟩ := hi
            have := hB c hc1
            simp only [List.length_cons]
            omega
        · intro i p hp hne
          cases i with
          | zero =>
            simp only [List.get?_cons_zero, Option.some.injEq] at hp
            subst hp
            rw [hinh hne]
            simp
          | succ j =>
            simp only [List.get?_cons_succ] at hp
            have := hI j p hp hne
            rw [List.mem_append]
            right
            exact List.mem_map.2 ⟨j, this, rfl⟩
      · rw [hk] at h
        cases h
        refine ⟨[Param], l0, rfl, hs, ?_, ?_, ?_, ?_⟩
        · rw [hc0]
          rcases hl0 with rfl | rfl <;> simp
        · rcases hl0 with rfl | rfl <;> simp
        · intro i hi
          rcases hl0 with rfl | rfl
          · simp at hi
          · simp only [List.mem_singleton] at hi
            subst hi
            simp
        · intro i p hp hne
          cases i with
          | zero =>
            simp only [List.get?_cons_zero, Option.some.injEq] at hp
            subst hp
            rw [hinh hne]
            simp
          | succ j => simp at hp

end Parser

namespace Parser

theorem parseProtocolOrComposition_watched (E : Env (σ × ScopeLog)) (hL : E.Logging)
    (P : Parser (σ × ScopeLog)) :
    (parseProtocolOrComposition E P).2.ScopeInfo = P.ScopeInfo ∧
    (parseProtocolOrComposition E P).2.Context.2 = P.Context.2 ++ [P.ScopeInfo] := by
  unfold parseProtocolOrComposition
  split
  · exact ⟨ScopeInfo_invoke _ hL.typeCompScope P, by rw [Context_invoke, hL.typeCompLog]⟩
  · exact ⟨ScopeInfo_invoke _ hL.typeIdentScope P, by rw [Context_invoke, hL.typeIdentLog]⟩

theorem ScopeInfo_diagnoseSingleEqual {τ : Type} (P : Parser τ) :
    (diagnoseSingleEqual P).ScopeInfo = P.ScopeInfo := by
  unfold diagnoseSingleEqual; split <;> rfl

theorem Context_diagnoseSingleEqual {τ : Type} (P : Parser τ) :
    (diagnoseSingleEqual P).Context = P.Context := by
  unfold diagnoseSingleEqual; split <;> rfl

/-- One requirement, watched: the scope is left alone, and every call of a type sub-parser
found the scope as it was at the start. -/
theorem requirementOutcome_watched (E : Env (σ × ScopeLog)) (hL : E.Logging)
    (P : Parser (σ × ScopeLog)) :
    (requirementOutcome E P).2.ScopeInfo = P.ScopeInfo ∧
    ∃ ws : ScopeLog, (requirementOutcome E P).2.Context.2 = P.Context.2 ++ ws ∧
      ∀ s ∈ ws, s = P.ScopeInfo := by
  have hs1 := ScopeInfo_invoke _ hL.typeIdentScope P
  have hc1 : (P.invoke E.parseTypeIdentifier).2.Context.2 = P.Context.2 ++ [P.ScopeInfo] := by
    rw [Context_invoke, hL.typeIdentLog]
  unfold requirementOutcome
  rcases hi : P.invoke E.parseTypeIdentifier with ⟨r1, Q⟩
  rw [hi] at hs1 hc1
  simp only at hs1 hc1
  cases r1 with
  | none => exact ⟨hs1, [P.ScopeInfo], hc1, by simp⟩
  | some Left =>
    simp only
    split
    · obtain ⟨hs2, hc2⟩ := parseProtocolOrComposition_watched E hL Q.lex
      rw [ScopeInfo_lex, hs1] at hs2
      rw [Context_lex, ScopeInfo_lex, hc1, hs1] at hc2
      rcases hx : parseProtocolOrComposition E Q.lex with ⟨r2, P2⟩
      rw [hx] at hs2 hc2
      cases r2 <;> exact ⟨hs2, [P.ScopeInfo, P.ScopeInfo], by simpa using hc2, by simp⟩
    · split
      · have hs2 := ScopeInfo_invoke _ hL.typeIdentScope (diagnoseSingleEqual Q).lex
        have hc2 : ((diagnoseSingleEqual Q).lex.invoke E.parseTypeIdentifier).2.Context.2 =
            (diagnoseSingleEqual Q).lex.Context.2 ++ [(diagnoseSingleEqual Q).lex.ScopeInfo] := by
          rw [Context_invoke, hL.typeIdentLog]
        rw [ScopeInfo_lex, ScopeInfo_diagnoseSingleEqual, hs1] at hs2
        rw [Context_lex, ScopeInfo_lex, ScopeInfo_diagnoseSingleEqual,
          Context_diagnoseSingleEqual, hc1, hs1] at hc2
        rcases hx : (diagnoseSingleEqual Q).lex.invoke E.parseTypeIdentifier with ⟨r2, P2⟩
        rw [hx] at hs2 hc2
        cases r2 <;> exact ⟨hs2, [P.ScopeInfo, P.ScopeInfo], by simpa using hc2, by simp⟩
      · exact ⟨by simp [hs1], [P.ScopeInfo], by simp [hc1], by simp⟩

/-- The requirement loop, watched: the scope is left alone, and every call of a type
sub-parser found the scope as it was at the start of the loop. -/
theorem whereLoop_watched (E : Env (σ × ScopeLog)) (hL : E.Logging) :
    ∀ (fuel : Nat) (P : Parser (σ × ScopeLog)) (R : List Requirement) (I : Bool)
      (R1 : List Requirement) (P1 : Parser (σ × ScopeLog)),
      parseGenericWhereClauseLoop E fuel P R = .ok (I, R1, P1) →
      P1.ScopeInfo = P.ScopeInfo ∧
      ∃ ws : ScopeLog, P1.Context.2 = P.Context.2 ++ ws ∧ ∀ s ∈ ws, s = P.ScopeInfo := by
  intro fuel
  induction fuel with
  | zero => intro P R I R1 P1 h; cases h
  | succ n ih =>
    intro P R I R1 P1 h
    rw [whereLoop_step] at h
    obtain ⟨hs, ws, hc, hw⟩ := requirementOutcome_watched E hL P
    rcases ho : requirementOutcome E P with ⟨r, Q⟩
    rw [ho] at h hs hc
    simp only at hs hc
    cases r with
    | inl f =>
      simp only at h
      cases h
      exact ⟨hs, ws, hc, hw⟩
    | inr Rq =>
      simp only at h
      split at h
      · obtain ⟨hs2, ws2, hc2, hw2⟩ := ih _ _ _ _ _ h
        rw [ScopeInfo_lex, hs] at hs2 hw2
        rw [Context_lex, hc] at hc2
        refine ⟨hs2, ws ++ ws2, by rw [hc2, List.append_assoc], ?_⟩
        intro s hsm
        rw [List.mem_append] at hsm
        rcases hsm with h1 | h1
        · exact hw s h1
        · exact hw2 s h1
      · cases h
        exact ⟨hs, ws, hc, hw⟩

/-- The optional where-clause, watched. -/
theorem whereStep_watched (E : Env (σ × ScopeLog)) (hL : E.Logging) (fuel : Nat)
    (P : Parser (σ × ScopeLog)) (I : Bool) (W : SourceLoc) (R : List Requirement) (I1 : Bool)
    (P1 : Parser (σ × ScopeLog))
    (h : parseGenericParametersWhere E fuel P I = .ok (W, R, I1, P1)) :
    P1.ScopeInfo = P.ScopeInfo ∧
    ∃ ws : ScopeLog, P1.Context.2 = P.Context.2 ++ ws ∧ ∀ s ∈ ws, s = P.ScopeInfo := by
  unfold parseGenericParametersWhere at h
  split at h
  · rename_i hw
    have hne : P.Tok.Kind ≠ tok.eof := by rw [(is_iff _ _).1 hw]; decide
    unfold parseGenericWhereClause consumeTokenOfKind at h
    simp only [hw, if_true, consumeToken_eq P hne] at h
    rcases hl : parseGenericWhereClauseLoop E fuel P.lex [] with e | r
    · rw [hl] at h; cases h
    · obtain ⟨I2, R2, P2⟩ := r
      rw [hl] at h
      cases h
      have := whereLoop_watched E hL fuel P.lex [] _ _ _ hl
      simpa using this
  · cases h
    exact ⟨rfl, [], by simp, by simp⟩

end Parser

namespace Parser

/-! ### The watched run is the run -/

@[simp] theorem forget_Tok (P : Parser (σ × ScopeLog)) : P.forget.Tok = P.Tok := rfl

theorem forget_lex (P : Parser (σ × ScopeLog)) : P.lex.forget = P.forget.lex := by
  unfold lex forget
  cases P.L.pending <;> rfl

theorem forget_diagnose (P : Parser (σ × ScopeLog)) (Loc : SourceLoc) (ID : DiagID)
    (F : List FixIt) : (P.diagnose Loc ID F).forget = P.forget.diagnose Loc ID F := rfl

theorem forget_addToScope (P : Parser (σ × ScopeLog)) (D : TypeAliasDecl) :
    (P.addToScope D).forget = P.forget.addToScope D := rfl

theorem forget_invoke_ident (E : Env σ) (D : DiagID) (P : Parser (σ × ScopeLog)) :
    P.forget.invoke (E.parseIdentifier D) =
      ((P.invoke (E.watched.parseIdentifier D)).1,
       (P.invoke (E.watched.parseIdentifier D)).2.forget) := rfl

theorem forget_invoke_typeIdent (E : Env σ) (P : Parser (σ × ScopeLog)) :
    P.forget.invoke E.parseTypeIdentifier =
      ((P.invoke E.watched.parseTypeIdentifier).1,
       (P.invoke E.watched.parseTypeIdentifier).2.forget) := rfl

theorem forget_invoke_typeComp (E : Env σ) (P : Parser (σ × ScopeLog)) :
    P.forget.invoke E.parseTypeComposition =
      ((P.invoke E.watched.parseTypeComposition).1,
       (P.invoke E.watched.parseTypeComposition).2.forget) := rfl

theorem forget_parseProtocolOrComposition (E : Env σ) (P : Parser (σ × ScopeLog)) :
    parseProtocolOrComposition E P.forget =
      ((parseProtocolOrComposition E.watched P).1,
       (parseProtocolOrComposition E.watched P).2.forget) := by
  unfold parseProtocolOrComposition
  simp only [forget_Tok]
  split
  · exact forget_invoke_typeComp E P
  · exact forget_invoke_typeIdent E P

theorem forget_diagnoseSingleEqual (P : Parser (σ × ScopeLog)) :
    (diagnoseSingleEqual P).forget = diagnoseSingleEqual P.forget := by
  unfold diagnoseSingleEqual
  simp only [forget_Tok]
  split <;> rfl

/-- One requirement is parsed by the watched sub-parsers as by the sub-parsers. -/
theorem forget_requirementOutcome (E : Env σ) (P : Parser (σ × ScopeLog)) :
    requirementOutcome E P.forget =
      ((requirementOutcome E.watched P).1, (requirementOutcome E.watched P).2.forget) := by
  unfold requirementOutcome
  rw [forget_invoke_typeIdent]
  rcases P.invoke E.watched.parseTypeIdentifier with ⟨r1, Q⟩
  cases r1 with
  | none => rfl
  | some Left =>
    simp only [forget_Tok]
    split
    · rw [← forget_lex, forget_parseProtocolOrComposition]
      rcases parseProtocolOrComposition E.watched Q.lex with ⟨r2, P2⟩
      cases r2 <;> rfl
    · split
      · rw [← forget_diagnoseSingleEqual, ← forget_lex, forget_invoke_typeIdent]
        rcases (diagnoseSingleEqual Q).lex.invoke E.watched.parseTypeIdentifier with ⟨r2, P2⟩
        cases r2 <;> rfl
      · rfl

theorem whereLoop_forget (E : Env σ) :
    ∀ (fuel : Nat) (P : Parser (σ × ScopeLog)) (R : List Requirement) (I : Bool)
      (R1 : List Requirement) (P1 : Parser (σ × ScopeLog)),
      parseGenericWhereClauseLoop E.watched fuel P R = .ok (I, R1, P1) →
      parseGenericWhereClauseLoop E fuel P.forget R = .ok (I, R1, P1.forget) := by
  intro fuel
  induction fuel with
  | zero => intro P R I R1 P1 h; cases h
  | succ n ih =>
    intro P R I R1 P1 h
    rw [whereLoop_step] at h ⊢
    rw [forget_requirementOutcome]
    rcases ho : requirementOutcome E.watched P with ⟨r, Q⟩
    rw [ho] at h
    cases r with
    | inl f =>
      simp only at h ⊢
      cases h
      rfl
    | inr Rq =>
      simp only [forget_Tok] at h ⊢
      split at h
      · rename_i hk
        rw [if_pos hk, ← forget_lex]
        exact ih _ _ _ _ _ h
      · rename_i hk
        rw [if_neg hk]
        cases h
        rfl

theorem whereStep_forget (E : Env σ) (fuel : Nat) (P : Parser (σ × ScopeLog)) (I : Bool)
    (W : SourceLoc) (R : List Requirement) (I1 : Bool) (P1 : Parser (σ × ScopeLog))
    (h : parseGenericParametersWhere E.watched fuel P I = .ok (W, R, I1, P1)) :
    parseGenericParametersWhere E fuel P.forget I = .ok (W, R, I1, P1.forget) := by
  unfold parseGenericParametersWhere at h ⊢
  simp only [forget_Tok]
  split at h
  · rename_i hw
    have hne : P.Tok.Kind ≠ tok.eof := by rw [(is_iff _ _).1 hw]; decide
    have hne2 : P.forget.Tok.Kind ≠ tok.eof := hne
    unfold parseGenericWhereClause consumeTokenOfKind at h ⊢
    simp only [hw, if_true, consumeToken_eq P hne] at h
    simp only [forget_Tok, hw, if_true, consumeToken_eq P.forget hne2]
    rcases hl : parseGenericWhereClauseLoop E.watched fuel P.lex [] with e | r
    · rw [hl] at h; cases h
    · obtain ⟨I2, R2, P2⟩ := r
      rw [hl] at h
      cases h
      rw [← forget_lex, whereLoop_forget E fuel P.lex [] _ _ _ hl]
  · rename_i hw
    cases h
    rw [if_neg hw]

theorem inherited_forget (E : Env σ) (P : Parser (σ × ScopeLog)) (Name : String) (I : Bool)
    (Inh : List TypeRepr) (I1 : Bool) (P1 : Parser (σ × ScopeLog))
    (h : parseGenericParamInherited E.watched P Name I = .ok (Inh, I1, P1)) :
    parseGenericParamInherited E P.forget Name I = .ok (Inh, I1, P1.forget) := by
  unfold parseGenericParamInherited at h ⊢
  simp only [forget_Tok]
  split at h
  · rename_i hc
    have hne : P.Tok.Kind ≠ tok.eof := by rw [(is_iff _ _).1 hc]; decide
    have hne2 : P.forget.Tok.Kind ≠ tok.eof := hne
    simp only [consumeToken_eq P hne] at h
    simp only [hc, if_true, consumeToken_eq P.forget hne2, ← forget_lex, forget_Tok]
    split at h
    · rename_i hi
      cases h
      rw [if_pos hi]
      rfl
    · rename_i hi
      rw [if_neg hi]
      split at h
      · rename_i hp
        cases h
        rw [if_pos hp]
        rfl
      · rename_i hp
        cases h
        rw [if_neg hp]
        rfl
  · rename_i hc
    cases h
    rw [if_neg hc]

theorem paramBody_forget (E : Env σ) (P : Parser (σ × ScopeLog)) (I : Bool)
    (r : Option GenericParam) (I1 : Bool) (P1 : Parser (σ × ScopeLog))
    (h : parseGenericParametersBody E.watched P I = .ok (r, I1, P1)) :
    parseGenericParametersBody E P.forget I = .ok (r, I1, P1.forget) := by
  unfold parseGenericParametersBody at h ⊢
  rw [forget_invoke_ident]
  rcases hid : P.invoke (E.watched.parseIdentifier DiagID.expected_generics_parameter_name)
    with ⟨r1, Q⟩
  rw [hid] at h
  cases r1 with
  | none =>
    simp only at h ⊢
    cases h
    rfl
  | some NL =>
    obtain ⟨Name, NameLoc⟩ := NL
    simp only at h ⊢
    obtain ⟨Inh, Inv1, P2, hi⟩ := inherited_ok E.watched Q Name I
    rw [hi] at h
    rw [inherited_forget E Q Name I Inh Inv1 P2 hi]
    simp only at h ⊢
    cases h
    rfl

theorem paramLoop_forget (E : Env σ) :
    ∀ (fuel : Nat) (P : Parser (σ × ScopeLog)) (G : List GenericParam) (I : Bool)
      (G1 : List GenericParam) (I1 : Bool) (P1 : Parser (σ × ScopeLog)),
      parseGenericParametersLoop E.watched fuel P G I = .ok (G1, I1, P1) →
      parseGenericParametersLoop E fuel P.forget G I = .ok (G1, I1, P1.forget) := by
  intro fuel
  induction fuel with
  | zero => intro P G I G1 I1 P1 h; cases h
  | succ n ih =>
    intro P G I G1 I1 P1 h
    rw [paramLoop_succ] at h ⊢
    obtain ⟨r, Inv1, Q, hb⟩ := paramBody_ok E.watched P I
    rw [hb] at h
    rw [paramBody_forget E P I r Inv1 Q hb]
    cases r with
    | none =>
      cases h
      rfl
    | some Param =>
      simp only at h ⊢
      rcases consumeIf_cases Q tok.comma (by decide) with ⟨hk, hc⟩ | ⟨hk, hc⟩
      · rcases consumeIf_cases Q.forget tok.comma (by decide) with ⟨_, hc2⟩ | ⟨hk2, _⟩
        · rw [hc] at h
          rw [hc2, ← forget_lex]
          exact ih _ _ _ _ _ _ h
        · exact absurd hk hk2
      · rcases consumeIf_cases Q.forget tok.comma (by decide) with ⟨hk2, _⟩ | ⟨_, hc2⟩
        · exact absurd hk2 hk
        · rw [hc] at h
          rw [hc2]
          cases h
          rfl

theorem forget_skipLoop : ∀ (n : Nat) (P : Parser (σ × ScopeLog)),
    (skipUntilAnyOperatorLoop n P).forget = skipUntilAnyOperatorLoop n P.forget := by
  intro n
  induction n with
  | zero => intro P; rfl
  | succ n ih =>
    intro P
    rw [skipLoop_succ, skipLoop_succ]
    simp only [forget_Tok]
    split
    · rfl
    · rw [ih, forget_lex]

theorem forget_afterRAngle (E : Env σ) (P : Parser (σ × ScopeLog)) (L : SourceLoc) (I : Bool) :
    (afterRAngle E.watched P L I).forget = afterRAngle E P.forget L I := by
  have hd : (P.diagnoseMissingRAngle L I).forget = P.forget.diagnoseMissingRAngle L I := by
    unfold diagnoseMissingRAngle; split <;> rfl
  have hs : (P.diagnoseMissingRAngle L I).skipUntilAnyOperator.forget =
      (P.forget.diagnoseMissingRAngle L I).skipUntilAnyOperator := by
    rw [← hd]; exact forget_skipLoop _ _
  have hg : ∀ Q : Parser (σ × ScopeLog),
      (if Q.Tok.getLength = 1 then Q.lex else Q.splitFirstChar E.watched).forget =
        (if Q.forget.Tok.getLength = 1 then Q.forget.lex else Q.forget.splitFirstChar E) := by
    intro Q
    simp only [forget_Tok]
    split
    · exact forget_lex Q
    · rfl
  unfold afterRAngle
  simp only [forget_Tok]
  split
  · exact hg P
  · rw [← hs]
    simp only [forget_Tok]
    split
    · exact hg _
    · rfl

/-- The watched run of `parseGenericParameters(SourceLoc)` is the run itself, with the log
kept apart. -/
theorem parametersAt_forget (E : Env σ) (fuel : Nat) (LAngleLoc : SourceLoc)
    (P : Parser (σ × ScopeLog)) (Res : Option GenericParamList) (P1 : Parser (σ × ScopeLog))
    (h : parseGenericParametersAt E.watched fuel LAngleLoc P = .ok (Res, P1)) :
    parseGenericParametersAt E fuel LAngleLoc P.forget = .ok (Res, P1.forget) := by
  unfold parseGenericParametersAt at h ⊢
  rcases hl : parseGenericParametersLoop E.watched fuel P [] false with e | r
  · rw [hl] at h; cases h
  · obtain ⟨G, I, Q⟩ := r
    rw [hl] at h
    rw [paramLoop_forget E fuel P [] false G I Q hl]
    simp only at h ⊢
    rcases hw : parseGenericParametersWhere E.watched fuel Q I with e | r
    · rw [hw] at h; cases h
    · obtain ⟨W, R, I1, Q2⟩ := r
      rw [hw] at h
      rw [whereStep_forget E fuel Q I W R I1 Q2 hw]
      simp only [rangle_eq, forget_Tok] at h ⊢
      have hs : (Q2.diagnoseMissingRAngle LAngleLoc I1).skipUntilAnyOperator.forget =
          (Q2.forget.diagnoseMissingRAngle LAngleLoc I1).skipUntilAnyOperator := by
        have hd : (Q2.diagnoseMissingRAngle LAngleLoc I1).forget =
            Q2.forget.diagnoseMissingRAngle LAngleLoc I1 := by
          unfold diagnoseMissingRAngle; split <;> rfl
        rw [← hd]; exact forget_skipLoop _ _
      rw [← hs, ← forget_afterRAngle]
      simp only [forget_Tok]
      split at h
      · rename_i hG
        cases h
        rw [if_pos hG]
      · rename_i hG
        cases h
        rw [if_neg hG]

end Parser

namespace Reference

open Parser

/-- The reference sub-parsers register nothing. -/
theorem scopePreserving_env : (env : Env σ).ScopePreserving := by
  constructor
  · intro D P
    show (parseIdentifier D P).2.ScopeInfo = _
    unfold parseIdentifier
    split
    · exact ScopeInfo_lex P
    · rfl
  · intro P
    show (parseTypeIdentifier P).2.ScopeInfo = _
    unfold parseTypeIdentifier
    split
    · exact ScopeInfo_lex P
    · rfl
  · intro P
    show (parseTypeComposition P).2.ScopeInfo = _
    unfold parseTypeComposition
    split
    · split
      · rfl
      · split
        · split
          · rfl
          · exact ScopeInfo_lex _
        · rfl
    · rfl

end Reference

namespace Parser

/-! ### Parsing a well-formed clause -/

theorem lex_cursor (P : Parser σ) (T U : Token) (Ts : List Token)
    (h : P.Tok :: P.L.pending = T :: U :: Ts) : P.lex.Tok :: P.lex.L.pending = U :: Ts := by
  obtain ⟨Tok, ⟨pending, bufferEnd⟩, D, S, C, X⟩ := P
  simp only [List.cons.injEq] at h
  obtain ⟨_, h2⟩ := h
  subst h2
  rfl

theorem lex_cursorAt (P : Parser σ) (T : Token) (Ts : List Token)
    (h : P.Tok :: P.L.pending = T :: Ts) : P.lex.CursorAt Ts := by
  obtain ⟨Tok, ⟨pending, bufferEnd⟩, D, S, C, X⟩ := P
  simp only [List.cons.injEq] at h
  obtain ⟨_, h2⟩ := h
  subst h2
  cases pending with
  | nil => exact ⟨rfl, rfl⟩
  | cons U Us => exact ⟨rfl, rfl⟩

theorem cursor_head (P : Parser σ) (T : Token) (Ts : List Token)
    (h : P.Tok :: P.L.pending = T :: Ts) : P.Tok = T := by
  simp only [List.cons.injEq] at h
  exact h.1

/-- A call of a sub-parser on a type it accepts. -/
theorem invoke_accepts (f : Parser σ → Option TypeRepr × Parser σ) (T : TypeSyntax)
    (After : List Token) (hacc : Accepts f T After) (P : Parser σ)
    (hP : P.Tok :: P.L.pending = T.Toks ++ After) :
    (P.invoke f).1 = some T.Repr ∧
    (P.invoke f).2.Tok :: (P.invoke f).2.L.pending = After ∧
    (P.invoke f).2.Diags = P.Diags ∧ (P.invoke f).2.ScopeInfo = P.ScopeInfo ∧
    (P.invoke f).2.CurDeclContext = P.CurDeclContext := by
  obtain ⟨h1, h2, h3, h4, h5⟩ := hacc { P with Diags := [] } hP
  refine ⟨h1, h2, ?_, h4, h5⟩
  show P.Diags ++ (f { P with Diags := [] }).2.Diags = P.Diags
  rw [h3]
  simp

/-- A call of the name sub-parser on an identifier. -/
theorem invoke_identifier (E : Env σ) (hid : E.ParsesIdentifiers) (D : DiagID) (P : Parser σ)
    (h : P.Tok.Kind = tok.identifier) :
    P.invoke (E.parseIdentifier D) = (some (P.Tok.getText, P.Tok.getLoc), P.lex) := by
  have := hid D { P with Diags := [] } h
  unfold invoke
  simp only [this]
  obtain ⟨Tok, ⟨pending, bufferEnd⟩, Dg, S, C, X⟩ := P
  cases pending <;> simp [lex]

theorem typeParser_of_identifier (E : Env σ) (T : TypeSyntax)
    (h : T.Toks.head?.map Token.Kind = some tok.identifier) :
    E.typeParser T = E.parseTypeIdentifier := by
  unfold Env.typeParser TypeSyntax.isComposition
  rw [h]
  simp

theorem typeParser_of_protocol (E : Env σ) (T : TypeSyntax)
    (h : T.Toks.head?.map Token.Kind = some tok.kw_protocol) :
    E.typeParser T = E.parseTypeComposition := by
  unfold Env.typeParser TypeSyntax.isComposition
  rw [h]
  simp

theorem head_Kind_of_cursor (P : Parser σ) (Ts After : List Token) (K : tok)
    (hP : P.Tok :: P.L.pending = Ts ++ After) (h : Ts.head?.map Token.Kind = some K) :
    P.Tok.Kind = K := by
  cases Ts with
  | nil => simp at h
  | cons T Ts1 =>
    simp only [List.cons_append, List.cons.injEq] at hP
    simp only [List.head?_cons, Option.map_some', Option.some.injEq] at h
    rw [hP.1, h]

/-- One pass of the parameter loop on a well-formed parameter. -/
theorem paramBody_wellFormed (E : Env σ) (hid : E.ParsesIdentifiers) (p : ParamSyntax)
    (After : List Token) (hwf : p.WellFormed)
    (hacc : Accepts (E.typeParser p.Constraint) p.Constraint After) (P : Parser σ) (I : Bool)
    (hP : P.Tok :: P.L.pending = p.toks ++ After) :
    ∃ P1, parseGenericParametersBody E P I =
        .ok (some (p.param P.CurDeclContext), I, P1) ∧
      P1.Tok :: P1.L.pending = After ∧ P1.Diags = P.Diags ∧
      P1.ScopeInfo = P.ScopeInfo ++ [p.param P.CurDeclContext] ∧
      P1.CurDeclContext = P.CurDeclContext := by
  obtain ⟨hn, hc, hk⟩ := hwf
  have hTok : P.Tok = p.Name := cursor_head P _ _ hP
  have hne : p.Constraint.Toks ≠ [] := by
    intro h; rw [h] at hk; simp at hk
  obtain ⟨C0, Cs, hCs⟩ := List.exists_cons_of_ne_nil hne
  -- the name
  have h1 := invoke_identifier E hid DiagID.expected_generics_parameter_name P
    (by rw [hTok]; exact hn)
  have hP1 : P.lex.Tok :: P.lex.L.pending = p.Colon :: (p.Constraint.Toks ++ After) :=
    lex_cursor P _ _ _ hP
  have hT1 : P.lex.Tok = p.Colon := cursor_head _ _ _ hP1
  -- the colon
  have hP2 : P.lex.lex.Tok :: P.lex.lex.L.pending = p.Constraint.Toks ++ After := by
    have := hP1
    rw [hCs] at this ⊢
    exact lex_cursor P.lex _ _ _ this
  -- the constraint
  obtain ⟨a1, a2, a3, a4, a5⟩ := invoke_accepts _ _ _ hacc P.lex.lex hP2
  have hinh : parseGenericParamInherited E P.lex p.Name.getText I =
      .ok ([p.Constraint.Repr], I, (P.lex.lex.invoke (E.typeParser p.Constraint)).2) := by
    rcases inherited_cases E P.lex p.Name.getText I with
      ⟨h, _⟩ | ⟨_, _, h2⟩ | ⟨_, hp, h2⟩ | ⟨_, hi, hp, _⟩
    · exact absurd (by rw [hT1]; exact hc) h
    · rcases hk with hk | hk
      · rw [h2, typeParser_of_identifier E _ hk] at *
        rw [a1]; rfl
      · have := head_Kind_of_cursor _ _ _ _ hP2 hk
        rename_i hi
        rw [this] at hi
        cases hi
    · rcases hk with hk | hk
      · have := head_Kind_of_cursor _ _ _ _ hP2 hk
        rw [this] at hp
        cases hp
      · rw [h2, typeParser_of_protocol E _ hk] at *
        rw [a1]; rfl
    · rcases hk with hk | hk
      · exact absurd (head_Kind_of_cursor _ _ _ _ hP2 hk) hi
      · exact absurd (head_Kind_of_cursor _ _ _ _ hP2 hk) hp
  refine ⟨((P.lex.lex.invoke (E.typeParser p.Constraint)).2).addToScope
    (p.param P.CurDeclContext), ?_, ?_, ?_, ?_, ?_⟩
  · unfold parseGenericParametersBody
    rw [h1]
    simp only [hTok, hinh]
    have : ((P.lex.lex.invoke (E.typeParser p.Constraint)).2).makeGenericParam p.Name.getText
        p.Name.getLoc [p.Constraint.Repr] = p.param P.CurDeclContext := by
      unfold makeGenericParam ParamSyntax.param
      rw [a5]
      simp [Token.getLoc]
    rw [this]
  · exact a2
  · rw [show ∀ (Q : Parser σ) D, (Q.addToScope D).Diags = Q.Diags from fun _ _ => rfl, a3]
    simp
  · rw [ScopeInfo_addToScope, a4]
    simp
  · rw [show ∀ (Q : Parser σ) D, (Q.addToScope D).CurDeclContext = Q.CurDeclContext from
      fun _ _ => rfl, a5]
    simp

end Parser

namespace Parser

/-- The parameter loop on well-formed parameters. -/
theorem paramLoop_wellFormed (E : Env σ) (hid : E.ParsesIdentifiers) :
    ∀ (More : List (Token × ParamSyntax)) (p : ParamSyntax) (After : List Token)
      (fuel : Nat) (P : Parser σ) (G : List GenericParam) (I : Bool),
      More.length < fuel → p.WellFormed →
      (∀ x ∈ More, x.1.Kind = tok.comma ∧ x.2.WellFormed) →
      Accepts (E.typeParser p.Constraint) p.Constraint (ParamSyntax.moreToks More ++ After) →
      ParamSyntax.moreAccepted E More After →
      (∀ T, After.head? = some T → T.Kind ≠ tok.comma) → After ≠ [] →
      P.Tok :: P.L.pending = p.toks ++ (ParamSyntax.moreToks More ++ After) →
      ∃ P1, parseGenericParametersLoop E fuel P G I =
          .ok (G ++ (p :: More.map Prod.snd).map (ParamSyntax.param P.CurDeclContext), I, P1) ∧
        P1.Tok :: P1.L.pending = After ∧ P1.Diags = P.Diags ∧
        P1.ScopeInfo =
          P.ScopeInfo ++ (p :: More.map Prod.snd).map (ParamSyntax.param P.CurDeclContext) ∧
        P1.CurDeclContext = P.CurDeclContext := by
  intro More
  induction More with
  | nil =>
    intro p After fuel P G I hf hwf _ hacc _ hcomma hne hP
    cases fuel with
    | zero => simp at hf
    | succ n =>
      simp only [ParamSyntax.moreToks, List.nil_append] at hacc hP
      obtain ⟨P1, hb, h1, h2, h3, h4⟩ := paramBody_wellFormed E hid p After hwf hacc P I hP
      obtain ⟨A0, As, hA⟩ := List.exists_cons_of_ne_nil hne
      have hk : P1.Tok.Kind ≠ tok.comma := by
        rw [hA] at h1
        rw [cursor_head P1 _ _ h1]
        exact hcomma A0 (by rw [hA]; rfl)
      rcases consumeIf_cases P1 tok.comma (by decide) with ⟨hk2, _⟩ | ⟨_, hc⟩
      · exact absurd hk2 hk
      · refine ⟨P1, ?_, h1, h2, ?_, h4⟩
        · rw [paramLoop_succ, hb]
          simp only [hc, List.map_nil, List.map_cons]
        · simp [h3]
  | cons x More ih =>
    intro p After fuel P G I hf hwf hmore hacc hmacc hcomma hne hP
    obtain ⟨Comma, q⟩ := x
    cases fuel with
    | zero => simp at hf
    | succ n =>
      simp only [ParamSyntax.moreToks, List.cons_append] at hacc hP
      obtain ⟨hqc, hqwf⟩ := hmore (Comma, q) (List.mem_cons_self _ _)
      obtain ⟨hqacc, hmacc2⟩ := hmacc
      obtain ⟨P1, hb, h1, h2, h3, h4⟩ :=
        paramBody_wellFormed E hid p _ hwf hacc P I hP
      have hT : P1.Tok = Comma := cursor_head P1 _ _ h1
      have hk : P1.Tok.Kind = tok.comma := by rw [hT]; exact hqc
      rcases consumeIf_cases P1 tok.comma (by decide) with ⟨_, hc⟩ | ⟨hk2, _⟩
      · -- the cursor after the comma
        have hqne : q.toks ++ (ParamSyntax.moreToks More ++ After) =
            q.Name :: (q.Colon :: q.Constraint.Toks ++ (ParamSyntax.moreToks More ++ After)) :=
          rfl
        have hP2 : P1.lex.Tok :: P1.lex.L.pending =
            q.toks ++ (ParamSyntax.moreToks More ++ After) := by
          have h1b : P1.Tok :: P1.L.pending =
              Comma :: q.Name ::
                (q.Colon :: q.Constraint.Toks ++ (ParamSyntax.moreToks More ++ After)) := by
            rw [h1]
            simp [ParamSyntax.toks]
          rw [hqne]
          exact lex_cursor P1 _ _ _ h1b
        obtain ⟨P2, hl, g1, g2, g3, g4⟩ := ih q After n P1.lex
          (G ++ [p.param P.CurDeclContext]) I (by simp at hf; omega) hqwf
          (fun y hy => hmore y (List.mem_cons_of_mem _ hy)) hqacc hmacc2 hcomma hne hP2
        have hDC : P1.lex.CurDeclContext = P.CurDeclContext := by
          rw [CurDeclContext_lex, h4]
        rw [hDC] at hl g3
        refine ⟨P2, ?_, g1, ?_, ?_, ?_⟩
        · rw [paramLoop_succ, hb]
          simp only [hc]
          rw [hl]
          simp
        · rw [g2, Diags_lex, h2]
        · rw [g3, ScopeInfo_lex, h3]
          simp
        · rw [g4, hDC]
      · exact absurd hk hk2

end Parser

namespace Parser

theorem parseProtocolOrComposition_eq_typeParser (E : Env σ) (T : TypeSyntax)
    (After : List Token) (hne : T.Toks ≠ []) (P : Parser σ)
    (hP : P.Tok :: P.L.pending = T.Toks ++ After) :
    parseProtocolOrComposition E P = P.invoke (E.typeParser T) := by
  obtain ⟨T0, Ts, hT⟩ := List.exists_cons_of_ne_nil hne
  have hTok : P.Tok = T0 := by
    rw [hT] at hP
    exact cursor_head P _ _ hP
  unfold parseProtocolOrComposition Env.typeParser TypeSyntax.isComposition
  rw [hT, hTok]
  simp only [List.head?_cons, Option.map_some', Option.some.injEq, Token.is]
  split <;> rfl

/-- One requirement, well formed and accepted, gives the requirement it stands for. -/
theorem requirementOutcome_wellFormed (E : Env σ) (r : RequirementSyntax) (After : List Token)
    (hwf : r.WellFormed) (hacc : r.Accepted E After) (P : Parser σ)
    (hP : P.Tok :: P.L.pending = r.toks ++ After) :
    ∃ P1, requirementOutcome E P = (.inr r.requirement, P1) ∧
      P1.Tok :: P1.L.pending = After ∧ P1.Diags = P.Diags ∧
      P1.ScopeInfo = P.ScopeInfo ∧ P1.CurDeclContext = P.CurDeclContext := by
  obtain ⟨hd, hne⟩ := hwf
  obtain ⟨haccL, haccR⟩ := hacc
  have hP0 : P.Tok :: P.L.pending = r.Left.Toks ++ (r.Delim :: (r.Right.Toks ++ After)) := by
    rw [hP]
    simp [RequirementSyntax.toks]
  obtain ⟨a1, a2, a3, a4, a5⟩ := invoke_accepts _ _ _ haccL P hP0
  rcases hi : P.invoke E.parseTypeIdentifier with ⟨r1, Q⟩
  rw [hi] at a1 a2 a3 a4 a5
  simp only at a1 a2 a3 a4 a5
  subst a1
  have hTok : Q.Tok = r.Delim := cursor_head Q _ _ a2
  obtain ⟨R0, Rs, hR⟩ := List.exists_cons_of_ne_nil hne
  have hQ1 : Q.lex.Tok :: Q.lex.L.pending = r.Right.Toks ++ After := by
    have := a2
    rw [hR] at this ⊢
    exact lex_cursor Q _ _ _ this
  rcases hd with hc | ⟨ho, ht⟩
  · -- a conformance requirement
    rw [if_pos hc] at haccR
    obtain ⟨b1, b2, b3, b4, b5⟩ := invoke_accepts _ _ _ haccR Q.lex hQ1
    refine ⟨(Q.lex.invoke (E.typeParser r.Right)).2, ?_, b2, ?_, ?_, ?_⟩
    · unfold requirementOutcome
      rw [hi]
      simp only [hTok, hc, if_true]
      rw [parseProtocolOrComposition_eq_typeParser E r.Right After hne Q.lex hQ1]
      rcases hx : Q.lex.invoke (E.typeParser r.Right) with ⟨r2, P2⟩
      rw [hx] at b1
      simp only at b1
      subst b1
      simp [RequirementSyntax.requirement, hc, Token.getLoc]
    · rw [b3, Diags_lex, a3]
    · rw [b4, ScopeInfo_lex, a4]
    · rw [b5, CurDeclContext_lex, a5]
  · -- a same-type requirement
    have hnc : r.Delim.Kind ≠ tok.colon := by
      intro hc
      simp [Token.isAnyOperator, Token.is, hc] at ho
    have hne2 : r.Delim.Kind ≠ tok.equal := by
      intro hc
      simp [Token.isAnyOperator, Token.is, hc] at ho
    rw [if_neg hnc] at haccR
    obtain ⟨b1, b2, b3, b4, b5⟩ := invoke_accepts _ _ _ haccR Q.lex hQ1
    have hdelim : isSameTypeDelim Q.Tok = true := by
      rw [hTok]
      simp [isSameTypeDelim, ho, ht]
    have hds : diagnoseSingleEqual Q = Q := by
      unfold diagnoseSingleEqual
      rw [hTok, if_neg]
      simp [Token.is, hne2]
    have ho1 := requirementOutcome_sameType E P Q r.Left.Repr hi (by rw [hTok]; exact hnc) hdelim
    rw [hds] at ho1
    refine ⟨(Q.lex.invoke E.parseTypeIdentifier).2, ?_, b2, ?_, ?_, ?_⟩
    · rw [ho1]
      rcases hx : Q.lex.invoke E.parseTypeIdentifier with ⟨r2, P2⟩
      rw [hx] at b1
      simp only at b1
      subst b1
      simp [RequirementSyntax.requirement, hnc, hTok, Token.getLoc]
    · rw [b3, Diags_lex, a3]
    · rw [b4, ScopeInfo_lex, a4]
    · rw [b5, CurDeclContext_lex, a5]

/-- The requirement loop on well-formed requirements. -/
theorem whereLoop_wellFormed (E : Env σ) :
    ∀ (More : List (Token × RequirementSyntax)) (r : RequirementSyntax) (After : List Token)
      (fuel : Nat) (P : Parser σ) (R : List Requirement),
      More.length < fuel → r.WellFormed →
      (∀ x ∈ More, x.1.Kind = tok.comma ∧ x.2.WellFormed) →
      r.Accepted E (RequirementSyntax.moreToks More ++ After) →
      RequirementSyntax.moreAccepted E More After →
      (∀ T, After.head? = some T → T.Kind ≠ tok.comma) → After ≠ [] →
      P.Tok :: P.L.pending = r.toks ++ (RequirementSyntax.moreToks More ++ After) →
      ∃ P1, parseGenericWhereClauseLoop E fuel P R =
          .ok (false, R ++ (r :: More.map Prod.snd).map RequirementSyntax.requirement, P1) ∧
        P1.Tok :: P1.L.pending = After ∧ P1.Diags = P.Diags ∧
        P1.ScopeInfo = P.ScopeInfo ∧ P1.CurDeclContext = P.CurDeclContext := by
  intro More
  induction More with
  | nil =>
    intro r After fuel P R hf hwf _ hacc _ hcomma hne hP
    cases fuel with
    | zero => simp at hf
    | succ n =>
      simp only [RequirementSyntax.moreToks, List.nil_append] at hacc hP
      obtain ⟨P1, ho, h1, h2, h3, h4⟩ := requirementOutcome_wellFormed E r After hwf hacc P hP
      obtain ⟨A0, As, hA⟩ := List.exists_cons_of_ne_nil hne
      have hk : P1.Tok.Kind ≠ tok.comma := by
        rw [hA] at h1
        rw [cursor_head P1 _ _ h1]
        exact hcomma A0 (by rw [hA]; rfl)
      refine ⟨P1, ?_, h1, h2, h3, h4⟩
      rw [whereLoop_step, ho]
      simp only [hk, if_false, List.map_nil, List.map_cons]
  | cons x More ih =>
    intro r After fuel P R hf hwf hmore hacc hmacc hcomma hne hP
    obtain ⟨Comma, q⟩ := x
    cases fuel with
    | zero => simp at hf
    | succ n =>
      simp only [RequirementSyntax.moreToks, List.cons_append, List.append_assoc] at hacc hP
      obtain ⟨hqc, hqwf⟩ := hmore (Comma, q) (List.mem_cons_self _ _)
      obtain ⟨hqacc, hmacc2⟩ := hmacc
      obtain ⟨P1, ho, h1, h2, h3, h4⟩ := requirementOutcome_wellFormed E r _ hwf hacc P hP
      have hT : P1.Tok = Comma := cursor_head P1 _ _ h1
      have hk : P1.Tok.Kind = tok.comma := by rw [hT]; exact hqc
      -- the requirement after the comma is not empty: it holds its delimiter
      have hqne : ∃ Q0 Qs, q.toks ++ (RequirementSyntax.moreToks More ++ After) = Q0 :: Qs := by
        cases hq : q.toks ++ (RequirementSyntax.moreToks More ++ After) with
        | nil =>
          have : q.toks = [] := (List.append_eq_nil.1 hq).1
          simp [RequirementSyntax.toks] at this
        | cons Q0 Qs => exact ⟨Q0, Qs, rfl⟩
      obtain ⟨Q0, Qs, hq⟩ := hqne
      have hP2 : P1.lex.Tok :: P1.lex.L.pending =
          q.toks ++ (RequirementSyntax.moreToks More ++ After) := by
        rw [hq] at h1 ⊢
        exact lex_cursor P1 _ _ _ h1
      obtain ⟨P2, hl, g1, g2, g3, g4⟩ := ih q After n P1.lex
        (R ++ [r.requirement]) (by simp at hf; omega) hqwf
        (fun y hy => hmore y (List.mem_cons_of_mem _ hy)) hqacc hmacc2 hcomma hne hP2
      refine ⟨P2, ?_, g1, ?_, ?_, ?_⟩
      · rw [whereLoop_step, ho]
        simp only [hk, if_true]
        rw [hl]
        simp
      · rw [g2, Diags_lex, h2]
      · rw [g3, ScopeInfo_lex, h3]
      · rw [g4, CurDeclContext_lex, h4]

end Parser

theorem ParamSyntax.length_le_moreToks : ∀ More : List (Token × ParamSyntax),
    More.length ≤ (ParamSyntax.moreToks More).length := by
  intro More
  induction More with
  | nil => simp [ParamSyntax.moreToks]
  | cons x More ih =>
    obtain ⟨c, p⟩ := x
    simp only [ParamSyntax.moreToks, List.length_cons, List.length_append]
    omega

theorem RequirementSyntax.length_le_moreToks_requirements : ∀ More : List (Token × RequirementSyntax),
    More.length ≤ (RequirementSyntax.moreToks More).length := by
  intro More
  induction More with
  | nil => simp [RequirementSyntax.moreToks]
  | cons x More ih =>
    obtain ⟨c, p⟩ := x
    simp only [RequirementSyntax.moreToks, List.length_cons, List.length_append]
    omega

theorem startsWithLess_of_text (T : Token) (ht : T.getText = "<") : startsWithLess T = true ∧ T.getLength = 1 := by
  unfold startsWithLess Token.getLength
  rw [ht]
  exact ⟨rfl, rfl⟩

theorem startsWithGreater_of_text (T : Token) (ht : T.getText = ">") : startsWithGreater T = true ∧ T.getLength = 1 := by
  unfold startsWithGreater Token.getLength
  rw [ht]
  exact ⟨rfl, rfl⟩

theorem isAnyOperator_Kind (T : Token) (ho : T.isAnyOperator = true) :
    T.Kind ≠ tok.comma ∧ T.Kind ≠ tok.kw_where := by
  constructor <;> intro h <;> simp [Token.isAnyOperator, Token.is, h] at ho

namespace Parser

/-- The optional where-clause and the closing bracket of a well-formed clause. -/
theorem whereStep_wellFormed (E : Env σ) (c : ClauseSyntax) (Rest : List Token)
    (hwf : c.WellFormed) (hacc : c.Accepted E Rest) (fuel : Nat)
    (hfuel : c.tailToks.length ≤ fuel) (P : Parser σ) (I : Bool)
    (hP : P.Tok :: P.L.pending = c.tailToks ++ Rest) :
    ∃ P1, parseGenericParametersWhere E fuel P I =
        .ok (c.Where.map (fun w => w.Keyword.Loc), c.requirements, I, P1) ∧
      P1.Tok :: P1.L.pending = c.RAngle :: Rest ∧ P1.Diags = P.Diags ∧
      P1.ScopeInfo = P.ScopeInfo := by
  obtain ⟨_, _, _, hw, hr⟩ := hwf
  obtain ⟨_, _, haccw⟩ := hacc
  unfold parseGenericParametersWhere
  cases hc : c.Where with
  | none =>
    have ht : c.tailToks = [c.RAngle] := by simp [ClauseSyntax.tailToks, hc]
    rw [ht] at hP
    have hTok : P.Tok = c.RAngle := cursor_head P _ _ hP
    have hk : P.Tok.is tok.kw_where = false := by
      rw [hTok]
      exact (is_false_iff _ _).2 (isAnyOperator_Kind _ hr.1).2
    rw [hk]
    simp only [Bool.false_eq_true, if_false, Option.map_none']
    refine ⟨P, ?_, hP, rfl, rfl⟩
    simp [ClauseSyntax.requirements, hc]
  | some w =>
    obtain ⟨hkw, hfwf, hmwf⟩ := hw w hc
    obtain ⟨hfacc, hmacc⟩ := haccw w hc
    have ht : c.tailToks = w.Keyword ::
        (w.First.toks ++ (RequirementSyntax.moreToks w.More ++ [c.RAngle])) := by
      simp [ClauseSyntax.tailToks, hc, WhereSyntax.toks]
    rw [ht] at hP hfuel
    simp only [List.cons_append, List.append_assoc, List.singleton_append,
      List.nil_append] at hP
    have hTok : P.Tok = w.Keyword := cursor_head P _ _ hP
    have hk : P.Tok.Kind = tok.kw_where := by rw [hTok]; exact hkw
    have hne : P.Tok.Kind ≠ tok.eof := by rw [hk]; decide
    have hqne : ∃ Q0 Qs,
        w.First.toks ++ (RequirementSyntax.moreToks w.More ++ c.RAngle :: Rest) = Q0 :: Qs := by
      cases hq : w.First.toks ++ (RequirementSyntax.moreToks w.More ++ c.RAngle :: Rest) with
      | nil =>
        have : w.First.toks = [] := (List.append_eq_nil.1 hq).1
        simp [RequirementSyntax.toks] at this
      | cons Q0 Qs => exact ⟨Q0, Qs, rfl⟩
    obtain ⟨Q0, Qs, hq⟩ := hqne
    have hP1 : P.lex.Tok :: P.lex.L.pending =
        w.First.toks ++ (RequirementSyntax.moreToks w.More ++ c.RAngle :: Rest) := by
      rw [hq] at hP ⊢
      exact lex_cursor P _ _ _ hP
    have hlen : w.More.length < fuel := by
      have := RequirementSyntax.length_le_moreToks_requirements w.More
      simp only [List.length_cons, List.length_append] at hfuel
      omega
    obtain ⟨P1, hl, g1, g2, g3, _⟩ := whereLoop_wellFormed E w.More w.First (c.RAngle :: Rest)
      fuel P.lex [] hlen hfwf hmwf hfacc hmacc
      (by
        intro T hT
        simp only [List.head?_cons, Option.some.injEq] at hT
        rw [← hT]
        exact (isAnyOperator_Kind _ hr.1).1)
      (by simp) hP1
    refine ⟨P1, ?_, g1, by rw [g2, Diags_lex], by rw [g3, ScopeInfo_lex]⟩
    unfold parseGenericWhereClause consumeTokenOfKind
    simp only [(is_iff _ _).2 hk, if_true, consumeToken_eq P hne, hl]
    simp [ClauseSyntax.requirements, hc, hTok, Token.getLoc]

end Parser

namespace Reference

open Parser

theorem parsesIdentifiers_env : (env : Env σ).ParsesIdentifiers := by
  intro D P h
  show parseIdentifier D P = _
  unfold parseIdentifier
  rw [if_pos h]

/-- The reference type-identifier parser accepts an identifier in front of any token. -/
theorem accepts_identifierType (T U : Token) (After : List Token)
    (h : T.Kind = tok.identifier) :
    Accepts (parseTypeIdentifier : Parser σ → Option TypeRepr × Parser σ)
      (identifierType T) (U :: After) := by
  intro P hP
  have hP2 : P.Tok :: P.L.pending = T :: U :: After := hP
  have hTok : P.Tok = T := cursor_head P _ _ hP2
  unfold parseTypeIdentifier
  rw [if_pos (by rw [hTok]; exact h)]
  refine ⟨?_, lex_cursor P _ _ _ hP2, Diags_lex P, ScopeInfo_lex P, CurDeclContext_lex P⟩
  simp [identifierType, hTok]

theorem exampleClause_wellFormed : exampleClause.WellFormed := by
  refine ⟨⟨rfl, rfl⟩, ⟨rfl, rfl, Or.inl rfl⟩, ?_, ?_, ⟨rfl, rfl⟩⟩
  · intro x hx
    simp only [exampleClause, List.mem_singleton] at hx
    subst hx
    exact ⟨rfl, rfl, rfl, Or.inl rfl⟩
  · intro w hw
    simp only [exampleClause, Option.some.injEq] at hw
    subst hw
    refine ⟨rfl, ⟨Or.inr ⟨rfl, rfl⟩, by simp [identifierType]⟩, ?_⟩
    intro x hx
    simp at hx

theorem exampleClause_accepted (Rest : List Token) :
    exampleClause.Accepted (env : Env σ) Rest := by
  refine ⟨?_, ⟨?_, trivial⟩, ?_⟩
  · exact accepts_identifierType _ _ _ rfl
  · exact accepts_identifierType _ _ _ rfl
  · intro w hw
    simp only [exampleClause, Option.some.injEq] at hw
    subst hw
    exact ⟨⟨accepts_identifierType _ _ _ rfl, accepts_identifierType _ _ _ rfl⟩, trivial⟩

end Reference

namespace Parser

/-- A requirement loop that returned has made the run the spec describes: what it appended
are the requirements of the run, and its flag says whether the run ended on a failure. -/
theorem whereLoop_run_of_ok (E : Env σ) :
    ∀ (fuel : Nat) (P : Parser σ) (R : List Requirement) (I : Bool) (R1 : List Requirement)
      (P1 : Parser σ), parseGenericWhereClauseLoop E fuel P R = .ok (I, R1, P1) →
      ∃ New e, RequirementRun E P New e P1 ∧ R1 = R ++ New ∧ I = e.isFailure := by
  intro fuel
  induction fuel with
  | zero => intro P R I R1 P1 h; cases h
  | succ n ih =>
    intro P R I R1 P1 h
    rw [whereLoop_step] at h
    rcases ho : requirementOutcome E P with ⟨r, Q⟩
    rw [ho] at h
    cases r with
    | inl f =>
      simp only at h
      cases h
      exact ⟨[], .failure f, RequirementRun.failed P _ f ho, by simp, rfl⟩
    | inr Rq =>
      simp only at h
      split at h
      · rename_i hk
        obtain ⟨New, e, hrun, hR, hI⟩ := ih _ _ _ _ _ h
        exact ⟨Rq :: New, e, RequirementRun.next P Q P1 Rq New e ho hk hrun, by simp [hR], hI⟩
      · rename_i hk
        cases h
        exact ⟨[Rq], .noComma, RequirementRun.last P _ Rq ho hk, rfl, rfl⟩

/-- The where-clause parser returns only when it was entered on the `where` keyword; the
location it reports is that of the keyword, and the rest is the result of the loop. -/
theorem whereClause_ok (E : Env σ) (fuel : Nat) (P : Parser σ) (R0 : List Requirement)
    (I : Bool) (W : SourceLoc) (R : List Requirement) (P1 : Parser σ)
    (h : parseGenericWhereClause E fuel P R0 = .ok (I, W, R, P1)) :
    P.Tok.Kind = tok.kw_where ∧ W = P.Tok.getLoc ∧
      parseGenericWhereClauseLoop E fuel P.lex R0 = .ok (I, R, P1) := by
  unfold parseGenericWhereClause consumeTokenOfKind at h
  by_cases hk : P.Tok.Kind = tok.kw_where
  · have hne : P.Tok.Kind ≠ tok.eof := by rw [hk]; decide
    simp only [(is_iff _ _).2 hk, if_true, consumeToken_eq P hne] at h
    rcases hl : parseGenericWhereClauseLoop E fuel P.lex R0 with e | ⟨I2, R2, P2⟩
    · rw [hl] at h; cases h
    · rw [hl] at h
      simp only [Except.ok.injEq, Prod.mk.injEq] at h
      obtain ⟨h1, h2, h3, h4⟩ := h
      subst h1 h2 h3 h4
      exact ⟨hk, rfl, rfl⟩
  · have : P.Tok.is tok.kw_where = false := (is_false_iff _ _).2 hk
    simp only [this, Bool.false_eq_true, if_false] at h
    cases h

end Parser

namespace Parser

/-! ### Passes of the parameter loop, and the scope -/

/-- One pass of the parameter loop, given what its body returns. -/
theorem paramLoop_step (E : Env σ) (n : Nat) (P P1 : Parser σ) (G : List GenericParam)
    (I I1 : Bool) (Param : GenericParam)
    (hb : parseGenericParametersBody E P I = .ok (some Param, I1, P1)) :
    parseGenericParametersLoop E (n + 1) P G I =
      if P1.Tok.Kind = tok.comma then parseGenericParametersLoop E n P1.lex (G ++ [Param]) I1
      else .ok (G ++ [Param], I1, P1) := by
  rw [paramLoop_succ, hb]
  simp only
  rcases consumeIf_cases P1 tok.comma (by decide) with ⟨hk, hc⟩ | ⟨hk, hc⟩
  · rw [hc, if_pos hk]
  · rw [hc, if_neg hk]

/-- A pass of the parameter loop whose name parse fails ends the loop: the vector is as it
was, the flag is set, and the parser is the one the name sub-parser left. -/
theorem paramLoop_name_fails (E : Env σ) (n : Nat) (P : Parser σ) (G : List GenericParam)
    (I : Bool)
    (hn : (P.invoke (E.parseIdentifier DiagID.expected_generics_parameter_name)).1 = none) :
    parseGenericParametersLoop E (n + 1) P G I =
      .ok (G, true, (P.invoke (E.parseIdentifier DiagID.expected_generics_parameter_name)).2) := by
  rw [paramLoop_succ]
  rcases paramBody_cases E P I with ⟨_, hb⟩ | ⟨Name, NameLoc, Inh, Inv1, P2, hs, _, _⟩
  · rw [hb]
  · rw [hs] at hn; cases hn

/-- The loop run through the passes: with the fuel of the passes added it is the loop
entered where they lead. -/
theorem paramLoop_passes_eq (E : Env σ) (k : Nat) (P Q : Parser σ) (G G1 : List GenericParam)
    (I I1 : Bool) (hp : ParameterPasses E k P G I Q G1 I1) :
    ∀ m, parseGenericParametersLoop E (m + k) P G I = parseGenericParametersLoop E m Q G1 I1 := by
  induction hp with
  | here P G I => intro m; rfl
  | later k P P1 Q G G1 I I1 I2 Param hb hc _ ih =>
    intro m
    rw [← Nat.add_assoc, paramLoop_step E (m + k) P P1 G I I1 Param hb, if_pos hc]
    exact ih m

/-- A loop that returns has had fuel for the passes it went through, and it returns what the
loop entered where they lead returns on the fuel that is left. -/
theorem paramLoop_passes (E : Env σ) (k : Nat) (P Q : Parser σ) (G G1 : List GenericParam)
    (I I1 : Bool) (hp : ParameterPasses E k P G I Q G1 I1) :
    ∀ fuel r, parseGenericParametersLoop E fuel P G I = .ok r →
      ∃ m, fuel = m + k ∧ parseGenericParametersLoop E m Q G1 I1 = .ok r := by
  induction hp with
  | here P G I => intro fuel r h; exact ⟨fuel, rfl, h⟩
  | later k P P1 Q G G1 I I1 I2 Param hb hc _ ih =>
    intro fuel r h
    cases fuel with
    | zero => cases h
    | succ n =>
      rw [paramLoop_step E n P P1 G I I1 Param hb, if_pos hc] at h
      obtain ⟨m, hm, h2⟩ := ih n r h
      exact ⟨m, by omega, h2⟩

/-- The passes append one parameter each. -/
theorem ParameterPasses.appended_parameters (E : Env σ) (k : Nat) (P Q : Parser σ)
    (G G1 : List GenericParam) (I I1 : Bool) (hp : ParameterPasses E k P G I Q G1 I1) :
    ∃ New, G1 = G ++ New ∧ New.length = k := by
  induction hp with
  | here P G I => exact ⟨[], by simp, rfl⟩
  | later k P P1 Q G G1 I I1 I2 Param hb hc _ ih =>
    obtain ⟨New, h1, h2⟩ := ih
    exact ⟨Param :: New, by simp [h1], by simp [h2]⟩

/-- With sub-parsers that register nothing, the constraint of a parameter leaves the scope
alone. -/
theorem inherited_scope (E : Env σ) (hS : E.ScopePreserving) (P : Parser σ) (Name : String)
    (I : Bool) (Inh : List TypeRepr) (I1 : Bool) (P1 : Parser σ)
    (h : parseGenericParamInherited E P Name I = .ok (Inh, I1, P1)) :
    P1.ScopeInfo = P.ScopeInfo := by
  rcases inherited_cases E P Name I with ⟨_, h2⟩ | ⟨_, _, h2⟩ | ⟨_, _, h2⟩ | ⟨_, _, _, h2⟩
  · rw [h2] at h; cases h; rfl
  · rw [h2] at h; cases h
    rw [ScopeInfo_invoke _ hS.typeIdent, ScopeInfo_lex]
  · rw [h2] at h; cases h
    rw [ScopeInfo_invoke _ hS.typeComp, ScopeInfo_lex]
  · rw [h2] at h; cases h
    simp

/-- With sub-parsers that register nothing, a pass of the parameter loop adds to the scope
the parameter it built, and nothing when the name failed. -/
theorem paramBody_scope (E : Env σ) (hS : E.ScopePreserving) (P : Parser σ) (I : Bool)
    (r : Option GenericParam) (I1 : Bool) (P1 : Parser σ)
    (h : parseGenericParametersBody E P I = .ok (r, I1, P1)) :
    P1.ScopeInfo = P.ScopeInfo ++ r.toList := by
  rcases paramBody_cases E P I with ⟨_, hb⟩ | ⟨Name, NameLoc, Inh, Inv1, P2, _, hi, hb⟩
  · rw [hb] at h; cases h
    simp [ScopeInfo_invoke _ (hS.ident _)]
  · rw [hb] at h; cases h
    have h1 := inherited_scope E hS _ _ _ _ _ _ hi
    simp [addToScope, h1, ScopeInfo_invoke _ (hS.ident _)]

/-- With sub-parsers that register nothing, the passes add to the scope the parameters they
appended. -/
theorem ParameterPasses.scope_grows (E : Env σ) (hS : E.ScopePreserving) (k : Nat) (P Q : Parser σ)
    (G G1 : List GenericParam) (I I1 : Bool) (hp : ParameterPasses E k P G I Q G1 I1) :
    ∃ New, G1 = G ++ New ∧ Q.ScopeInfo = P.ScopeInfo ++ New := by
  induction hp with
  | here P G I => exact ⟨[], by simp, by simp⟩
  | later k P P1 Q G G1 I I1 I2 Param hb hc _ ih =>
    obtain ⟨New, h1, h2⟩ := ih
    have hs := paramBody_scope E hS P I _ _ _ hb
    refine ⟨Param :: New, by simp [h1], ?_⟩
    rw [h2, ScopeInfo_lex, hs]
    simp

/-- With sub-parsers that register nothing, one requirement leaves the scope alone. -/
theorem requirementOutcome_scope (E : Env σ) (hS : E.ScopePreserving) (P : Parser σ) :
    (requirementOutcome E P).2.ScopeInfo = P.ScopeInfo := by
  have h1 : (P.invoke E.parseTypeIdentifier).2.ScopeInfo = P.ScopeInfo :=
    ScopeInfo_invoke _ hS.typeIdent P
  have hpc : ∀ Q : Parser σ, (parseProtocolOrComposition E Q).2.ScopeInfo = Q.ScopeInfo := by
    intro Q
    unfold parseProtocolOrComposition
    split
    · exact ScopeInfo_invoke _ hS.typeComp Q
    · exact ScopeInfo_invoke _ hS.typeIdent Q
  unfold requirementOutcome
  rcases hi : P.invoke E.parseTypeIdentifier with ⟨r1, P1⟩
  rw [hi] at h1
  simp only at h1
  cases r1 with
  | none => exact h1
  | some Left =>
    simp only
    split
    · have := hpc P1.lex
      rcases hq : parseProtocolOrComposition E P1.lex with ⟨r2, P2⟩
      rw [hq] at this
      simp only [ScopeInfo_lex] at this
      cases r2 <;> simp [this, h1]
    · split
      · have := ScopeInfo_invoke _ hS.typeIdent (diagnoseSingleEqual P1).lex
        rcases hq : (diagnoseSingleEqual P1).lex.invoke E.parseTypeIdentifier with ⟨r2, P2⟩
        rw [hq] at this
        simp only [ScopeInfo_lex, ScopeInfo_diagnoseSingleEqual] at this
        cases r2 <;> simp [this, h1]
      · simp [h1]

/-- With sub-parsers that register nothing, the requirement loop leaves the scope alone. -/
theorem whereLoop_scope (E : Env σ) (hS : E.ScopePreserving) :
    ∀ (fuel : Nat) (P : Parser σ) (R : List Requirement) (I : Bool) (R1 : List Requirement)
      (P1 : Parser σ), parseGenericWhereClauseLoop E fuel P R = .ok (I, R1, P1) →
      P1.ScopeInfo = P.ScopeInfo := by
  intro fuel
  induction fuel with
  | zero => intro P R I R1 P1 h; cases h
  | succ n ih =>
    intro P R I R1 P1 h
    rw [whereLoop_step] at h
    have hs := requirementOutcome_scope E hS P
    rcases ho : requirementOutcome E P with ⟨r, Q⟩
    rw [ho] at h hs
    simp only at hs
    cases r with
    | inl f =>
      simp only at h
      cases h
      exact hs
    | inr Rq =>
      simp only at h
      split at h
      · have := ih _ _ _ _ _ h
        rw [this, ScopeInfo_lex, hs]
      · cases h
        exact hs

/-- With sub-parsers that register nothing, the optional where-clause leaves the scope
alone. -/
theorem whereStep_scope (E : Env σ) (hS : E.ScopePreserving) (fuel : Nat) (P : Parser σ)
    (I : Bool) (W : SourceLoc) (R : List Requirement) (I1 : Bool) (P1 : Parser σ)
    (h : parseGenericParametersWhere E fuel P I = .ok (W, R, I1, P1)) :
    P1.ScopeInfo = P.ScopeInfo := by
  unfold parseGenericParametersWhere at h
  split at h
  · rcases hw : parseGenericWhereClause E fuel P [] with e | ⟨I2, W2, R2, P2⟩
    · rw [hw] at h; cases h
    · rw [hw] at h
      cases h
      obtain ⟨_, _, hl⟩ := whereClause_ok E fuel P [] _ _ _ _ hw
      rw [whereLoop_scope E hS fuel P.lex [] _ _ _ hl, ScopeInfo_lex]
  · cases h; rfl

end Parser

namespace Parser

/-! ### Passes of the requirement loop -/

/-- One pass of the requirement loop that appends a requirement. -/
theorem whereLoop_pass (E : Env σ) (n : Nat) (P P1 : Parser σ) (R : List Requirement)
    (Rq : Requirement) (hb : parseGenericWhereClauseBody E P = .ok (some Rq, P1)) :
    parseGenericWhereClauseLoop E (n + 1) P R =
      if P1.Tok.Kind = tok.comma then parseGenericWhereClauseLoop E n P1.lex (R ++ [Rq])
      else .ok (false, R ++ [Rq], P1) := by
  rw [whereLoop_succ, hb]
  simp only
  rcases consumeIf_cases P1 tok.comma (by decide) with ⟨hk, hc⟩ | ⟨hk, hc⟩
  · rw [hc, if_pos hk]
  · rw [hc, if_neg hk]

/-- The requirement loop run through the passes: with the fuel of the passes added it is the
loop entered where they lead. -/
theorem whereLoop_passes_eq (E : Env σ) (k : Nat) (P Q : Parser σ) (R R1 : List Requirement)
    (hp : RequirementPasses E k P R Q R1) :
    ∀ m, parseGenericWhereClauseLoop E (m + k) P R = parseGenericWhereClauseLoop E m Q R1 := by
  induction hp with
  | here P R => intro m; rfl
  | later k P P1 Q R R1 Rq hb hc _ ih =>
    intro m
    rw [← Nat.add_assoc, whereLoop_pass E (m + k) P P1 R Rq hb, if_pos hc]
    exact ih m

/-- The passes of the requirement loop append one requirement each. -/
theorem RequirementPasses.appended_requirements (E : Env σ) (k : Nat) (P Q : Parser σ)
    (R R1 : List Requirement) (hp : RequirementPasses E k P R Q R1) :
    ∃ New, R1 = R ++ New ∧ New.length = k := by
  induction hp with
  | here P R => exact ⟨[], by simp, rfl⟩
  | later k P P1 Q R R1 Rq hb hc _ ih =>
    obtain ⟨New, h1, h2⟩ := ih
    exact ⟨Rq :: New, by simp [h1], by simp [h2]⟩

end Parser

namespace Parser

/-! ### The tokens the recovery skips -/

theorem Tok_diagnoseMissingRAngle (P : Parser σ) (L : SourceLoc) (I : Bool) :
    (P.diagnoseMissingRAngle L I).Tok = P.Tok := by
  unfold diagnoseMissingRAngle; split <;> rfl

theorem L_diagnoseMissingRAngle (P : Parser σ) (L : SourceLoc) (I : Bool) :
    (P.diagnoseMissingRAngle L I).L = P.L := by
  unfold diagnoseMissingRAngle; split <;> rfl

/-- The skip loop passes over tokens that are neither operators nor the end of input, and it
stops on the first token that is one, or on the end-of-input token the lexer forms when the
pending tokens are used up. -/
theorem skipLoop_skipped : ∀ (n : Nat) (P : Parser σ), P.L.pending.length < n →
    ∃ Skipped : List Token,
      (∀ T ∈ Skipped, T.Kind ≠ tok.eof ∧ T.isAnyOperator = false) ∧
      (P.Tok :: P.L.pending =
          Skipped ++ (skipUntilAnyOperatorLoop n P).Tok ::
            (skipUntilAnyOperatorLoop n P).L.pending ∨
        (P.Tok :: P.L.pending = Skipped ∧
          (skipUntilAnyOperatorLoop n P).Tok =
            { Kind := tok.eof, Text := "", Loc := P.L.bufferEnd } ∧
          (skipUntilAnyOperatorLoop n P).L.pending = [])) := by
  intro n
  induction n with
  | zero => intro P h; omega
  | succ n ih =>
    intro P h
    rw [skipLoop_succ]
    by_cases hs : (P.Tok.is tok.eof || P.Tok.isAnyOperator) = true
    · rw [if_pos hs]
      exact ⟨[], by simp, Or.inl rfl⟩
    · rw [if_neg hs]
      have hs2 : P.Tok.Kind ≠ tok.eof ∧ P.Tok.isAnyOperator = false := by
        simp only [Bool.or_eq_true, not_or, Bool.not_eq_true] at hs
        exact ⟨(is_false_iff _ _).1 hs.1, hs.2⟩
      cases hp : P.L.pending with
      | nil =>
        have hlex1 : P.lex.Tok = ⟨tok.eof, "", P.L.bufferEnd⟩ := by
          unfold lex; rw [hp]
        have hlex2 : P.lex.L.pending = [] := by
          unfold lex; rw [hp]; exact hp
        have hstop : skipUntilAnyOperatorLoop n P.lex = P.lex := by
          cases n with
          | zero => rfl
          | succ m =>
            rw [skipLoop_succ]
            simp [Token.is, hlex1]
        refine ⟨[P.Tok], ?_, Or.inr ⟨rfl, ?_, ?_⟩⟩
        · intro T hT
          simp only [List.mem_singleton] at hT
          rw [hT]; exact hs2
        · rw [hstop, hlex1]
        · rw [hstop, hlex2]
      | cons T Ts =>
        have hstream : P.lex.Tok :: P.lex.L.pending = T :: Ts := by
          unfold lex; rw [hp]
        have hbuf : P.lex.L.bufferEnd = P.L.bufferEnd := by
          unfold lex; rw [hp]
        have hlen : P.lex.L.pending.length < n := by
          have := congrArg List.length hstream
          rw [hp] at h
          simp only [List.length_cons] at h this
          omega
        obtain ⟨Skipped, h1, h2⟩ := ih P.lex hlen
        refine ⟨P.Tok :: Skipped, ?_, ?_⟩
        · intro U hU
          rcases List.mem_cons.1 hU with hU | hU
          · rw [hU]; exact hs2
          · exact h1 U hU
        · rw [hstream, hbuf] at h2
          rcases h2 with h2 | ⟨h2, h3, h4⟩
          · left
            rw [List.cons_append, ← h2]
          · right
            exact ⟨by rw [h2], h3, h4⟩

/-- The recovery skip passes over tokens that are neither operators nor the end of input,
and stops on the first token that is one. -/
theorem skipUntilAnyOperator_skipped (P : Parser σ) :
    ∃ Skipped : List Token,
      (∀ T ∈ Skipped, T.Kind ≠ tok.eof ∧ T.isAnyOperator = false) ∧
      (P.Tok :: P.L.pending =
          Skipped ++ P.skipUntilAnyOperator.Tok :: P.skipUntilAnyOperator.L.pending ∨
        (P.Tok :: P.L.pending = Skipped ∧
          P.skipUntilAnyOperator.Tok = { Kind := tok.eof, Text := "", Loc := P.L.bufferEnd } ∧
          P.skipUntilAnyOperator.L.pending = [])) :=
  skipLoop_skipped (P.L.pending.length + 1) P (Nat.lt_succ_self _)

end Parser

namespace Parser

/-! ### The pass that built a parameter -/

/-- A call that returns a list has run the parameter loop to the parameters of the list. -/
theorem parametersAt_ok_params (E : Env σ) (fuel : Nat) (LAngleLoc : SourceLoc)
    (P P3 : Parser σ) (L : GenericParamList)
    (h : parseGenericParametersAt E fuel LAngleLoc P = .ok (some L, P3)) :
    ∃ I P1, parseGenericParametersLoop E fuel P [] false = .ok (L.Params, I, P1) := by
  unfold parseGenericParametersAt at h
  rcases hl : parseGenericParametersLoop E fuel P [] false with e | ⟨G, I, P1⟩
  · rw [hl] at h; cases h
  · rw [hl] at h
    simp only at h
    rcases hw : parseGenericParametersWhere E fuel P1 I with e | ⟨W, R, I1, P2⟩
    · rw [hw] at h; cases h
    · rw [hw] at h
      simp only [rangle_eq] at h
      split at h
      · cases h
      · simp only [Except.ok.injEq, Prod.mk.injEq, Option.some.injEq] at h
        rw [← h.1]
        exact ⟨I, P1, rfl⟩

/-- Every parameter the loop appends was built by the pass the loop came to after as many
passes as there are parameters appended before it. -/
theorem paramLoop_built (E : Env σ) :
    ∀ (fuel : Nat) (P : Parser σ) (G : List GenericParam) (I : Bool) (G1 : List GenericParam)
      (I1 : Bool) (P1 : Parser σ),
      parseGenericParametersLoop E fuel P G I = .ok (G1, I1, P1) →
      ∀ (i : Nat) (p : GenericParam), G1[G.length + i]? = some p →
        ∃ Q Gq Iq I2 Q2, ParameterPasses E i P G I Q Gq Iq ∧
          parseGenericParametersBody E Q Iq = .ok (some p, I2, Q2) := by
  intro fuel
  induction fuel with
  | zero => intro P G I G1 I1 P1 h; cases h
  | succ n ih =>
    intro P G I G1 I1 P1 h i p hp
    obtain ⟨r, Inv1, P', hb⟩ := paramBody_ok E P I
    cases r with
    | none =>
      rw [paramLoop_succ, hb] at h
      cases h
      have : G.length ≤ G.length + i := Nat.le_add_right _ _
      rw [List.getElem?_eq_none this] at hp
      cases hp
    | some Param =>
      rw [paramLoop_step E n P P' G I Inv1 Param hb] at h
      split at h
      · rename_i hc
        cases i with
        | zero =>
          obtain ⟨New, hN⟩ := paramLoop_prefix E _ _ _ _ _ _ _ h
          have hget : (G ++ [Param] ++ New)[G.length + 0]? = some Param := by
            rw [List.append_assoc, Nat.add_zero, List.getElem?_append_right (Nat.le_refl _)]
            simp
          rw [hN, hget] at hp
          cases hp
          exact ⟨P, G, I, Inv1, P', ParameterPasses.here P G I, hb⟩
        | succ j =>
          have hidx : (G ++ [Param]).length + j = G.length + (j + 1) := by
            simp only [List.length_append, List.length_singleton]; omega
          rw [← hidx] at hp
          obtain ⟨Q, Gq, Iq, I2, Q2, hpass, hbody⟩ := ih _ _ _ _ _ _ h j p hp
          exact ⟨Q, Gq, Iq, I2, Q2,
            ParameterPasses.later j P P' Q G Gq I Inv1 Iq Param hb hc hpass, hbody⟩
      · cases h
        cases i with
        | zero =>
          have hget : (G ++ [Param])[G.length + 0]? = some Param := by
            rw [Nat.add_zero, List.getElem?_append_right (Nat.le_refl _)]
            simp
          rw [hget] at hp
          cases hp
          exact ⟨P, G, I, _, _, ParameterPasses.here P G I, hb⟩
        | succ j =>
          have : (G ++ [Param]).length ≤ G.length + (j + 1) := by
            simp only [List.length_append, List.length_singleton]; omega
          rw [List.getElem?_eq_none this] at hp
          cases hp

/-- The constraint of the parameter a pass builds: none or one, and one exactly when the name
is followed by a colon and by an identifier or the `protocol` keyword on which the selected
type sub-parser succeeds, the constraint being its result. -/
theorem paramBody_inherited (E : Env σ) (Q : Parser σ) (I : Bool) (p : GenericParam)
    (I2 : Bool) (Q2 : Parser σ)
    (h : parseGenericParametersBody E Q I = .ok (some p, I2, Q2)) :
    ∃ Name NameLoc Q1,
      Q.invoke (E.parseIdentifier DiagID.expected_generics_parameter_name) =
        (some (Name, NameLoc), Q1) ∧
      p.Name = Name ∧ p.NameLoc = NameLoc ∧ p.Inherited.length ≤ 1 ∧
      ∀ T, p.Inherited = [T] ↔
        (Q1.Tok.Kind = tok.colon ∧
          ((Q1.lex.Tok.Kind = tok.identifier ∧
              (Q1.lex.invoke E.parseTypeIdentifier).1 = some T) ∨
           (Q1.lex.Tok.Kind = tok.kw_protocol ∧
              (Q1.lex.invoke E.parseTypeComposition).1 = some T))) := by
  unfold parseGenericParametersBody at h
  rcases hi : Q.invoke (E.parseIdentifier DiagID.expected_generics_parameter_name) with ⟨r1, Q1⟩
  rw [hi] at h
  cases r1 with
  | none => cases h
  | some NL =>
    obtain ⟨Name, NameLoc⟩ := NL
    refine ⟨Name, NameLoc, Q1, rfl, ?_⟩
    simp only at h
    rcases inherited_cases E Q1 Name I with
      ⟨hc, h2⟩ | ⟨hc, hk, h2⟩ | ⟨hc, hk, h2⟩ | ⟨hc, hk1, hk2, h2⟩
    · rw [h2] at h
      simp only [Except.ok.injEq, Prod.mk.injEq, Option.some.injEq] at h
      rw [← h.1]
      refine ⟨rfl, rfl, by simp [makeGenericParam], ?_⟩
      intro T
      simp [makeGenericParam, hc]
    · rw [h2] at h
      simp only [Except.ok.injEq, Prod.mk.injEq, Option.some.injEq] at h
      rw [← h.1]
      refine ⟨rfl, rfl, ?_, ?_⟩
      · simp only [makeGenericParam]
        cases (Q1.lex.invoke E.parseTypeIdentifier).1 <;> simp
      · intro T
        simp only [makeGenericParam, hc, hk, true_and]
        cases (Q1.lex.invoke E.parseTypeIdentifier).1 <;> simp
    · rw [h2] at h
      simp only [Except.ok.injEq, Prod.mk.injEq, Option.some.injEq] at h
      rw [← h.1]
      refine ⟨rfl, rfl, ?_, ?_⟩
      · simp only [makeGenericParam]
        cases (Q1.lex.invoke E.parseTypeComposition).1 <;> simp
      · intro T
        simp only [makeGenericParam, hc, hk, true_and]
        cases (Q1.lex.invoke E.parseTypeComposition).1 <;> simp
    · rw [h2] at h
      simp only [Except.ok.injEq, Prod.mk.injEq, Option.some.injEq] at h
      rw [← h.1]
      refine ⟨rfl, rfl, by simp [makeGenericParam], ?_⟩
      intro T
      simp [makeGenericParam, hk1, hk2]

end Parser

namespace Parser

/-! ### The respelling, call by call -/

/-- A sub-parser that cannot tell the respelled stream from the other anywhere does not
notice the respelling at any call. -/
theorem unnoticed_of_insensitive (f : Parser σ → Option TypeRepr × Parser σ) (k : Nat)
    (hf : ∀ Q : Parser σ, f (Q.respell k) = ((f Q).1, (f Q).2.respell k)) (P : Parser σ) :
    P.Unnoticed f k :=
  invoke_respell f k hf P

/-- The right-hand side of a conformance requirement, where its call does not notice the
respelling. -/
theorem parseProtocolOrComposition_unnoticed (E : Env σ) (k : Nat) (P : Parser σ)
    (hU : P.Unnoticed
      (if P.Tok.is tok.kw_protocol then E.parseTypeComposition else E.parseTypeIdentifier) k) :
    parseProtocolOrComposition E (P.respell k) =
      ((parseProtocolOrComposition E P).1, (parseProtocolOrComposition E P).2.respell k) := by
  unfold parseProtocolOrComposition
  have hk := Tok_respell_Kind_iff k P tok.kw_protocol (by decide) (by decide)
  by_cases h : P.Tok.Kind = tok.kw_protocol
  · rw [if_pos ((is_iff _ _).2 h)] at hU
    rw [if_pos ((is_iff _ _).2 (hk.2 h)), if_pos ((is_iff _ _).2 h)]
    exact hU
  · have h2 : ¬ (P.respell k).Tok.Kind = tok.kw_protocol := fun hc => h (hk.1 hc)
    rw [if_neg (by simpa [Token.is] using h)] at hU
    rw [if_neg (by simpa [Token.is] using h2), if_neg (by simpa [Token.is] using h)]
    exact hU

/-- Away from the token to respell, one requirement is parsed in the same way on both
streams when its two calls do not notice the respelling. -/
theorem requirementOutcome_unnoticed (E : Env σ) (k : Nat) (P : Parser σ)
    (hL : P.Unnoticed E.parseTypeIdentifier k) (hR : P.RightHandUnnoticed E k)
    (hn : (P.invoke E.parseTypeIdentifier).2.Tok.Kind = tok.equal →
      (P.invoke E.parseTypeIdentifier).2.L.pending.length ≠ k) :
    requirementOutcome E (P.respell k) =
      ((requirementOutcome E P).1, (requirementOutcome E P).2.respell k) := by
  unfold requirementOutcome
  unfold Parser.Unnoticed at hL
  unfold Parser.RightHandUnnoticed at hR
  rw [hL]
  rcases hi : P.invoke E.parseTypeIdentifier with ⟨r1, Q⟩
  rw [hi] at hn hR
  simp only at hn hR
  cases r1 with
  | none => rfl
  | some Left =>
    have hT : (Q.respell k).Tok = Q.Tok := by
      rw [Tok_respell]
      split
      · rename_i hl
        apply respellEqual_of_ne
        intro he
        exact hn he hl
      · rfl
    simp only [hT]
    split
    · rename_i hc
      rw [if_pos hc] at hR
      rw [lex_respell, parseProtocolOrComposition_unnoticed E k Q.lex hR]
      rcases parseProtocolOrComposition E Q.lex with ⟨r2, P2⟩
      cases r2 <;> rfl
    · rename_i hc
      rw [if_neg hc] at hR
      split
      · have hd : diagnoseSingleEqual (Q.respell k) = (diagnoseSingleEqual Q).respell k := by
          unfold diagnoseSingleEqual
          rw [hT]
          split <;> rfl
        unfold Parser.Unnoticed at hR
        rw [hd, lex_respell, hR]
        rcases (diagnoseSingleEqual Q).lex.invoke E.parseTypeIdentifier with ⟨r2, P2⟩
        cases r2 <;> rfl
      · rfl

/-- A complete requirement followed by a comma, with the `=` to respell further on, has not
tested that `=` as its delimiter. -/
theorem SingleEqualDelimiter.not_here (E : Env σ) (hE : E.ForwardOnly) (k loc : Nat)
    (P Q : Parser σ) (Rq : Requirement) (ho : requirementOutcome E P = (.inr Rq, Q))
    (hk : Q.Tok.Kind = tok.comma) (hsed : SingleEqualDelimiter E k loc Q.lex) :
    (P.invoke E.parseTypeIdentifier).2.Tok.Kind = tok.equal →
      (P.invoke E.parseTypeIdentifier).2.L.pending.length ≠ k := by
  have hlt := remaining_lex_lt Q (by rw [hk]; decide)
  have hge := SingleEqualDelimiter.remaining E hE k loc Q.lex hsed
  intro he hl
  rcases hi : P.invoke E.parseTypeIdentifier with ⟨r1, Q1⟩
  rw [hi] at he hl
  simp only at he hl
  cases r1 with
  | none =>
    unfold requirementOutcome at ho
    rw [hi] at ho
    cases ho
  | some Left =>
    have hd : isSameTypeDelim Q1.Tok = true := by
      simp [isSameTypeDelim, Token.is, he]
    have ho1 := requirementOutcome_sameType E P Q1 Left hi (by rw [he]; decide) hd
    have h1 : Q1.remaining = k + 1 := by
      unfold Parser.remaining
      rw [hl]
      simp [he]
    have h2 := remaining_lex_lt (diagnoseSingleEqual Q1)
      (by rw [Tok_diagnoseSingleEqual, he]; decide)
    rw [remaining_diagnoseSingleEqual] at h2
    have h3 := remaining_invoke_le _ hE.typeIdent (diagnoseSingleEqual Q1).lex
    rw [ho] at ho1
    rcases hx : Parser.invoke E.parseTypeIdentifier (diagnoseSingleEqual Q1).lex
      with ⟨r3, X⟩
    rw [hx] at ho1 h3
    cases r3 with
    | none => cases ho1
    | some Right =>
      simp only at ho1 h3
      cases ho1
      omega

/-- The requirement loop on a stream with a lone `=` as a delimiter, and on the stream with
`==` in its place, when no call made before the `=` is consumed notices the respelling: same
flag, same requirements, same parser at the end, except that the first run has emitted one
more diagnostic. -/
theorem whereLoop_lenient (E : Env σ) (hE : E.ForwardOnly) (k loc : Nat)
    (P : Parser σ) (h : SingleEqualDelimiter E k loc P) :
    RespellUnnoticed E k P →
    ∀ (fuel : Nat) (R : List Requirement), P.remaining < fuel →
      ∃ I R1 P2 Pre Post,
        parseGenericWhereClauseLoop E fuel P R =
          .ok (I, R1, { P2 with Diags := Pre ++ singleEqualDiagnostic loc :: Post }) ∧
        parseGenericWhereClauseLoop E fuel (P.respell k) R = .ok (I, R1, P2) ∧
        P2.Diags = Pre ++ Post := by
  induction h with
  | here P Q Left hinv hTok hlen =>
    intro hU fuel R hf
    have hL : P.Unnoticed E.parseTypeIdentifier k := by
      cases hU with
      | here _ h1 _ _ => exact h1
      | later _ h1 _ _ => exact h1
    cases fuel with
    | zero => omega
    | succ n =>
      have hQrem : Q.remaining = k + 1 := by
        unfold Parser.remaining
        rw [hTok, hlen]
        simp
      have hle1 : Q.remaining ≤ P.remaining := by
        have := remaining_invoke_le _ hE.typeIdent P
        rw [hinv] at this
        exact this
      have hK : Q.Tok.Kind = tok.equal := by rw [hTok]
      -- the first run
      obtain ⟨T0, hT0⟩ : ∃ T0 : Parser σ, T0 = { Q.lex with Diags := [] } := ⟨_, rfl⟩
      have ho1 := requirementOutcome_sameType E P Q Left hinv (by rw [hK]; decide)
        (by rw [hTok]; rfl)
      rw [diagnoseSingleEqual_here Q loc hTok, ← hT0, invoke_prependDiags] at ho1
      -- the second run
      have hinv2 : (P.respell k).invoke E.parseTypeIdentifier = (some Left, Q.respell k) := by
        unfold Parser.Unnoticed at hL
        rw [hL, hinv]
      have hT2 := respell_here k loc Q hTok hlen
      have ho2 := requirementOutcome_sameType E (P.respell k) (Q.respell k) Left hinv2
        (by rw [hT2]; simp) (by rw [hT2]; rfl)
      have hd2 : diagnoseSingleEqual (Q.respell k) = Q.respell k := by
        unfold diagnoseSingleEqual
        rw [hT2]
        rfl
      rw [hd2, lex_respell_here k Q hlen, lex_eq_prependDiags Q, ← hT0,
        invoke_prependDiags] at ho2
      have hloc1 : Q.Tok.getLoc = some loc := by rw [hTok]; rfl
      have hloc2 : (Q.respell k).Tok.getLoc = some loc := by rw [hT2]; rfl
      rw [hloc1] at ho1
      rw [hloc2] at ho2
      have hrem0 : T0.remaining < k + 1 := by
        have := remaining_lex_lt Q (by rw [hK]; decide)
        have e : T0.remaining = Q.lex.remaining := by rw [hT0]; rfl
        omega
      have hX := remaining_invoke_le _ hE.typeIdent T0
      rcases hx : Parser.invoke E.parseTypeIdentifier T0 with ⟨r3, X⟩
      rw [hx] at ho1 ho2 hX
      simp only at ho1 ho2 hX
      rw [whereLoop_step, whereLoop_step, ho1, ho2]
      cases r3 with
      | none =>
        refine ⟨true, R, X.prependDiags Q.Diags, Q.Diags, X.Diags, ?_, rfl, rfl⟩
        simp [prependDiags, singleEqualDiagnostic]
      | some Right =>
        simp only [Tok_prependDiags]
        by_cases hk : X.Tok.Kind = tok.comma
        · simp only [hk, if_true, lex_prependDiags]
          have hlt := remaining_lex_lt X (by rw [hk]; decide)
          obtain ⟨I, R1, Y, hY, _⟩ := whereLoop_total E hE n X.lex
            (R ++ [Requirement.SameType Left (some loc) Right]) (by omega)
          refine ⟨I, R1, Y.prependDiags Q.Diags, Q.Diags, Y.Diags, ?_, ?_, rfl⟩
          · rw [whereLoop_prependDiags E _ n _ _ _ _ _ hY]
            simp [prependDiags, singleEqualDiagnostic]
          · exact whereLoop_prependDiags E _ n _ _ _ _ _ hY
        · simp only [hk, if_false]
          refine ⟨false, _, X.prependDiags Q.Diags, Q.Diags, X.Diags, ?_, rfl, rfl⟩
          simp [prependDiags, singleEqualDiagnostic]
  | later P Q Rq ho hk hsed ih =>
    intro hU fuel R hf
    -- this pass does not test the token to respell
    have hn := SingleEqualDelimiter.not_here E hE k loc P Q Rq ho hk hsed
    cases hU with
    | here _ _ he hl => exact absurd hl (hn he)
    | later _ hL hR hrest =>
      rw [ho] at hrest
      cases fuel with
      | zero => omega
      | succ n =>
        have hr := requirementOutcome_remaining E hE P
        rw [ho] at hr
        simp only at hr
        have hlt := remaining_lex_lt Q (by rw [hk]; decide)
        have ho2 := requirementOutcome_unnoticed E k P hL hR hn
        rw [ho] at ho2
        simp only at ho2
        have hk2 : (Q.respell k).Tok.Kind = tok.comma :=
          (Tok_respell_Kind_iff k Q tok.comma (by decide) (by decide)).2 hk
        rw [whereLoop_step, whereLoop_step, ho, ho2]
        simp only [hk, hk2, if_true, lex_respell]
        exact ih hrest n (R ++ [Rq]) (by omega)

/-- Sub-parsers that cannot tell the respelled stream from the other anywhere do not notice
the respelling at the calls of the run. -/
theorem respellUnnoticed_of_insensitive (E : Env σ) (k loc : Nat)
    (hI : E.RespellInsensitive k) (P : Parser σ) (h : SingleEqualDelimiter E k loc P) :
    RespellUnnoticed E k P := by
  induction h with
  | here P Q Left hinv hTok hlen =>
    refine RespellUnnoticed.here P (unnoticed_of_insensitive _ k hI.typeIdent P) ?_ ?_
    · rw [hinv, hTok]
    · rw [hinv]; exact hlen
  | later P Q Rq ho hk _ ih =>
    refine RespellUnnoticed.later P (unnoticed_of_insensitive _ k hI.typeIdent P) ?_ ?_
    · unfold Parser.RightHandUnnoticed
      split
      · split
        · exact unnoticed_of_insensitive _ k hI.typeComp _
        · exact unnoticed_of_insensitive _ k hI.typeIdent _
      · exact unnoticed_of_insensitive _ k hI.typeIdent _
    · rw [ho]; exact ih

end Parser

namespace Reference

open Parser

theorem forwardOnly_recoveringEnv : (recoveringEnv : Env σ).ForwardOnly := by
  refine ⟨(forwardOnly_env : (env : Env σ).ForwardOnly).ident, ?_, ?_⟩
  · intro P
    show (parseTypeIdentifierRecovering P).2.remaining ≤ P.remaining
    unfold parseTypeIdentifierRecovering
    split
    · rename_i h
      exact Nat.le_of_lt (remaining_lex_lt P (by rw [h]; decide))
    · exact remaining_skipLoop_le _ _
  · intro P
    show (parseTypeCompositionCommitted P).2.remaining ≤ P.remaining
    unfold parseTypeCompositionCommitted
    split
    · rename_i h
      have h1 := (forwardOnly_env : (env : Env σ).ForwardOnly).typeComp P
      have h2 : (parseTypeComposition P).2.remaining ≤ P.remaining := h1
      split
      · rename_i T P1 heq
        rw [heq] at h2
        exact h2
      · exact Nat.le_of_lt (remaining_lex_lt P (by rw [h]; decide))
    · exact Nat.le_refl _

end Reference

namespace Reference

open Parser

/-- The recovering type-identifier parser does tell the two streams apart where it fails:
in front of `5 = U >` it skips to `>`, and in front of `5 == U >` to `==`. -/
theorem recoveringEnv_not_respellInsensitive :
    ¬ (recoveringEnv : Env Unit).RespellInsensitive 2 := by
  intro h
  have h1 := congrArg (fun r => r.2.Tok.Loc)
    (h.typeIdent (state ⟨tok.integer_literal, "5", 12⟩
      [⟨tok.equal, "=", 14⟩, ⟨tok.identifier, "U", 16⟩, ⟨tok.oper_binary, ">", 17⟩] 18 [] []))
  exact absurd h1 (by decide)

end Reference

/-! ## The claims -/

open Parser

/-- C2: `parseGenericParameters(SourceLoc)` never returns a list without parameters.  With a
forward-only cursor and enough fuel it returns; it returns absence exactly when the very first
parameter-name parse fails, and a list it returns has at least one parameter. -/
theorem parseGenericParameters_absent_iff_first_name_fails (E : Env σ) (hE : E.ForwardOnly)
    (fuel : Nat) (LAngleLoc : SourceLoc) (P : Parser σ) (hf : P.remaining < fuel) :
    ∃ Res P1, Parser.parseGenericParametersAt E fuel LAngleLoc P = .ok (Res, P1) ∧
      (Res = none ↔
        (P.invoke (E.parseIdentifier DiagID.expected_generics_parameter_name)).1 = none) ∧
      (∀ G, Res = some G → G.Params ≠ []) := by
  obtain ⟨G, I, P1, W, R, I1, P2, hl, _, _, h⟩ := parametersAt_spec E hE fuel LAngleLoc P hf
  have hiff := paramLoop_nil_iff E fuel P false G I P1 hl
  refine ⟨_, _, h, ?_, ?_⟩
  · rw [← hiff]
    cases G <;> simp
  · intro L hL
    cases G with
    | nil => simp at hL
    | cons g gs =>
      simp only [List.isEmpty_cons, Bool.false_eq_true, if_false, Option.some.injEq] at hL
      rw [← hL]
      simp

/-- C2, on `<>` and `<,>` (the opening bracket already consumed): the first name parse fails
and absence is returned. -/
theorem parseGenericParameters_absent_iff_first_name_fails_witness :
    (Reference.start [⟨tok.oper_binary, ">", 1⟩] 2).remaining < 3 ∧
    (∃ Res P1, Parser.parseGenericParametersAt Reference.env 3 (some 0)
        (Reference.start [⟨tok.oper_binary, ">", 1⟩] 2) = .ok (Res, P1) ∧
      (Res = none ↔
        ((Reference.start [⟨tok.oper_binary, ">", 1⟩] 2).invoke
          (Reference.env.parseIdentifier DiagID.expected_generics_parameter_name)).1 = none) ∧
      (∀ G, Res = some G → G.Params ≠ [])) ∧
    (Parser.parseGenericParametersAt Reference.env 3 (some 0)
        (Reference.start [⟨tok.oper_binary, ">", 1⟩] 2)).toOption.map Prod.fst = some none ∧
    (Parser.parseGenericParametersAt Reference.env 3 (some 0)
        (Reference.start [⟨tok.comma, ",", 1⟩, ⟨tok.oper_binary, ">", 2⟩] 3)).toOption.map
      Prod.fst = some none :=
  ⟨by decide,
   parseGenericParameters_absent_iff_first_name_fails Reference.env Reference.forwardOnly_env 3
     (some 0) (Reference.start [⟨tok.oper_binary, ">", 1⟩] 2) (by decide),
   by decide, by decide⟩

/-- C6: `maybeParseGenericParams` on a token that does not begin with `<` returns absence and
leaves the parser as it was (cursor, diagnostics and scope included); on a token that begins
with `<` it is `parseGenericParameters`, result and final parser alike. -/
theorem maybeParseGenericParams_dispatch (E : Env σ) (fuel : Nat) (P : Parser σ) :
    (startsWithLess P.Tok = false → Parser.maybeParseGenericParams E fuel P = .ok (none, P)) ∧
    (startsWithLess P.Tok = true →
      Parser.maybeParseGenericParams E fuel P = Parser.parseGenericParameters E fuel P) := by
  constructor
  · intro h
    simp [Parser.maybeParseGenericParams, h]
  · intro h
    simp [Parser.maybeParseGenericParams, h]

/-- C6, on the stream `x` (no bracket) and on `< T >`. -/
theorem maybeParseGenericParams_dispatch_witness :
    Parser.maybeParseGenericParams Reference.env 4
        (Reference.start [⟨tok.identifier, "x", 0⟩] 1) =
      .ok (none, Reference.start [⟨tok.identifier, "x", 0⟩] 1) ∧
    Parser.maybeParseGenericParams Reference.env 4
        (Reference.start [⟨tok.oper_binary, "<", 0⟩, ⟨tok.identifier, "T", 1⟩,
          ⟨tok.oper_binary, ">", 2⟩] 3) =
      Parser.parseGenericParameters Reference.env 4
        (Reference.start [⟨tok.oper_binary, "<", 0⟩, ⟨tok.identifier, "T", 1⟩,
          ⟨tok.oper_binary, ">", 2⟩] 3) :=
  ⟨(maybeParseGenericParams_dispatch Reference.env 4
      (Reference.start [⟨tok.identifier, "x", 0⟩] 1)).1 (by decide),
   (maybeParseGenericParams_dispatch Reference.env 4
      (Reference.start [⟨tok.oper_binary, "<", 0⟩, ⟨tok.identifier, "T", 1⟩,
        ⟨tok.oper_binary, ">", 2⟩] 3)).2 (by decide)⟩

/-- C9: termination.  With sub-parsers that work on a forward-only cursor and fuel above the
number of tokens left, `parseGenericParameters(SourceLoc)` and `parseGenericWhereClause`
return (no time-out and no read past the end of input) without moving the cursor backwards;
every pass of the parameter loop and of the requirement loop that goes round again has
strictly advanced the cursor, so has every step of the recovery skip, and the skip stops on an
operator or on the end-of-input token. -/
theorem parseGeneric_terminates (E : Env σ) (hE : E.ForwardOnly) (fuel : Nat)
    (LAngleLoc : SourceLoc) (P : Parser σ) (R0 : List Requirement) (hf : P.remaining < fuel) :
    (∃ Res P1, Parser.parseGenericParametersAt E fuel LAngleLoc P = .ok (Res, P1) ∧
      P1.remaining ≤ P.remaining) ∧
    (P.Tok.Kind = tok.kw_where →
      ∃ I R1 P1, Parser.parseGenericWhereClause E fuel P R0 = .ok (I, P.Tok.getLoc, R1, P1) ∧
        P1.remaining ≤ P.remaining) ∧
    (∀ n G I, (∃ r, Parser.parseGenericParametersLoop E (n + 1) P G I = .ok r) ∨
      ∃ P2 G2 I2, P2.remaining < P.remaining ∧
        Parser.parseGenericParametersLoop E (n + 1) P G I =
          Parser.parseGenericParametersLoop E n P2 G2 I2) ∧
    (∀ n R, (∃ r, Parser.parseGenericWhereClauseLoop E (n + 1) P R = .ok r) ∨
      ∃ P2 R2, P2.remaining < P.remaining ∧
        Parser.parseGenericWhereClauseLoop E (n + 1) P R =
          Parser.parseGenericWhereClauseLoop E n P2 R2) ∧
    (∀ n, Parser.skipUntilAnyOperatorLoop (n + 1) P = P ∨
      (P.lex.remaining < P.remaining ∧
        Parser.skipUntilAnyOperatorLoop (n + 1) P = Parser.skipUntilAnyOperatorLoop n P.lex)) ∧
    (P.skipUntilAnyOperator.Tok.is tok.eof || P.skipUntilAnyOperator.Tok.isAnyOperator) = true := by
  refine ⟨?_, ?_, ?_, ?_, ?_, skipUntilAnyOperator_stops P⟩
  · obtain ⟨G, I, P1, W, R, I1, P2, _, _, hle, h⟩ := parametersAt_spec E hE fuel LAngleLoc P hf
    refine ⟨_, _, h, ?_⟩
    have := remaining_afterRAngle E P2 LAngleLoc I1
    omega
  · intro hw
    exact whereClause_total E hE fuel P R0 hw (Nat.le_of_lt hf)
  · intro n G I
    obtain ⟨r, Inv1, P1, hb⟩ := paramBody_ok E P I
    have hr := paramBody_remaining E hE P I r Inv1 P1 hb
    rw [paramLoop_succ, hb]
    cases r with
    | none => exact Or.inl ⟨_, rfl⟩
    | some Param =>
      simp only
      rcases consumeIf_cases P1 tok.comma (by decide) with ⟨hk, hc⟩ | ⟨_, hc⟩
      · right
        rw [hc]
        have := remaining_lex_lt P1 (by rw [hk]; decide)
        exact ⟨P1.lex, _, _, by omega, rfl⟩
      · rw [hc]; exact Or.inl ⟨_, rfl⟩
  · intro n R
    obtain ⟨r, P1, hb⟩ := whereBody_ok E P
    have hr := whereBody_remaining E hE P r P1 hb
    rw [whereLoop_succ, hb]
    cases r with
    | none => exact Or.inl ⟨_, rfl⟩
    | some Rq =>
      simp only
      rcases consumeIf_cases P1 tok.comma (by decide) with ⟨hk, hc⟩ | ⟨_, hc⟩
      · right
        rw [hc]
        have := remaining_lex_lt P1 (by rw [hk]; decide)
        exact ⟨P1.lex, _, by omega, rfl⟩
      · rw [hc]; exact Or.inl ⟨_, rfl⟩
  · intro n
    rw [skipLoop_succ]
    split
    · exact Or.inl rfl
    · rename_i hc
      right
      refine ⟨remaining_lex_lt P ?_, rfl⟩
      intro he
      apply hc
      simp [Token.is, he]

/-- C9, on `where T == U , V : Q >` with the reference sub-parsers. -/
theorem parseGeneric_terminates_witness :
    (Reference.start [⟨tok.kw_where, "where", 0⟩, ⟨tok.identifier, "T", 6⟩,
        ⟨tok.oper_binary, "==", 8⟩, ⟨tok.identifier, "U", 11⟩, ⟨tok.comma, ",", 12⟩,
        ⟨tok.identifier, "V", 14⟩, ⟨tok.colon, ":", 15⟩, ⟨tok.identifier, "Q", 17⟩,
        ⟨tok.oper_binary, ">", 18⟩] 19).remaining < 10 ∧
    (Parser.parseGenericWhereClause Reference.env 10
        (Reference.start [⟨tok.kw_where, "where", 0⟩, ⟨tok.identifier, "T", 6⟩,
          ⟨tok.oper_binary, "==", 8⟩, ⟨tok.identifier, "U", 11⟩, ⟨tok.comma, ",", 12⟩,
          ⟨tok.identifier, "V", 14⟩, ⟨tok.colon, ":", 15⟩, ⟨tok.identifier, "Q", 17⟩,
          ⟨tok.oper_binary, ">", 18⟩] 19) []).toOption.map (fun r => r.2.2.1.length) = some 2 ∧
    ∃ Res P1, Parser.parseGenericParametersAt Reference.env 10 (some 0)
        (Reference.start [⟨tok.kw_where, "where", 0⟩, ⟨tok.identifier, "T", 6⟩,
          ⟨tok.oper_binary, "==", 8⟩, ⟨tok.identifier, "U", 11⟩, ⟨tok.comma, ",", 12⟩,
          ⟨tok.identifier, "V", 14⟩, ⟨tok.colon, ":", 15⟩, ⟨tok.identifier, "Q", 17⟩,
          ⟨tok.oper_binary, ">", 18⟩] 19) = .ok (Res, P1) ∧
      P1.remaining ≤ (Reference.start [⟨tok.kw_where, "where", 0⟩, ⟨tok.identifier, "T", 6⟩,
          ⟨tok.oper_binary, "==", 8⟩, ⟨tok.identifier, "U", 11⟩, ⟨tok.comma, ",", 12⟩,
          ⟨tok.identifier, "V", 14⟩, ⟨tok.colon, ":", 15⟩, ⟨tok.identifier, "Q", 17⟩,
          ⟨tok.oper_binary, ">", 18⟩] 19).remaining :=
  ⟨by decide, by decide,
   (parseGeneric_terminates Reference.env Reference.forwardOnly_env 10 (some 0)
      (Reference.start [⟨tok.kw_where, "where", 0⟩, ⟨tok.identifier, "T", 6⟩,
        ⟨tok.oper_binary, "==", 8⟩, ⟨tok.identifier, "U", 11⟩, ⟨tok.comma, ",", 12⟩,
        ⟨tok.identifier, "V", 14⟩, ⟨tok.colon, ":", 15⟩, ⟨tok.identifier, "Q", 17⟩,
        ⟨tok.oper_binary, ">", 18⟩] 19) [] (by decide)).1⟩

/-- C10: `maybeParseGenericParams` never violates an assertion, whatever the sub-parsers, the
fuel and the token stream: `parseGenericParameters` is entered only on a token that begins
with `<`, `parseGenericWhereClause` only on the `where` keyword, and no token is consumed at
the end of input.  With a forward-only cursor and enough fuel the call returns (a list or
absence). -/
theorem maybeParseGenericParams_never_faults (E : Env σ) (fuel : Nat) (P : Parser σ) :
    (∀ msg, Parser.maybeParseGenericParams E fuel P ≠ .error (Fault.assertion msg)) ∧
    (E.ForwardOnly → P.remaining < fuel →
      ∃ Res P1, Parser.maybeParseGenericParams E fuel P = .ok (Res, P1)) := by
  unfold maybeParseGenericParams parseGenericParameters
  by_cases h : startsWithLess P.Tok = true
  · simp only [h, Bool.not_true, Bool.false_eq_true, if_false, if_true,
      consumeStartingLess_eq E P h]
    constructor
    · intro msg hc
      rcases parametersAt_noAssert E fuel P.Tok.getLoc
        (if P.Tok.getLength = 1 then P.lex else P.splitFirstChar E) with ⟨r, hr⟩ | hr
      · rw [hr] at hc; cases hc
      · rw [hr] at hc; cases hc
    · intro hE hf
      have hle := remaining_afterLess E P h
      exact parametersAt_total E hE fuel _ _ (by omega)
  · have h2 : startsWithLess P.Tok = false := by simpa using h
    simp only [h2, Bool.not_false, if_true]
    exact ⟨fun msg hc => (by cases hc), fun _ _ => ⟨_, _, rfl⟩⟩

/-- C10, on the malformed `< T : 5 , where = >` with the reference sub-parsers. -/
theorem maybeParseGenericParams_never_faults_witness :
    (∀ msg, Parser.maybeParseGenericParams Reference.env 9
        (Reference.start [⟨tok.oper_binary, "<", 0⟩, ⟨tok.identifier, "T", 1⟩,
          ⟨tok.colon, ":", 2⟩, ⟨tok.integer_literal, "5", 3⟩, ⟨tok.comma, ",", 4⟩,
          ⟨tok.kw_where, "where", 5⟩, ⟨tok.equal, "=", 11⟩, ⟨tok.oper_binary, ">", 12⟩] 13) ≠
      .error (Fault.assertion msg)) ∧
    ∃ Res P1, Parser.maybeParseGenericParams Reference.env 9
        (Reference.start [⟨tok.oper_binary, "<", 0⟩, ⟨tok.identifier, "T", 1⟩,
          ⟨tok.colon, ":", 2⟩, ⟨tok.integer_literal, "5", 3⟩, ⟨tok.comma, ",", 4⟩,
          ⟨tok.kw_where, "where", 5⟩, ⟨tok.equal, "=", 11⟩, ⟨tok.oper_binary, ">", 12⟩] 13) =
      .ok (Res, P1) :=
  ⟨(maybeParseGenericParams_never_faults Reference.env 9 _).1,
   (maybeParseGenericParams_never_faults Reference.env 9 _).2 Reference.forwardOnly_env
     (by decide)⟩

/-- C4 (with the cursor helpers `startsWithGreater` and `consumeStartingGreater` modelled from
the spec): when the token at the close position, after the parameters and the optional
where-clause, begins with `>`, the parser treats it as the closing bracket.  It emits no
diagnostic at this step, the close location is the location of that token, i.e. of its leading
`>`, and only that character is consumed: a token that is just `>` is passed, and otherwise
the current token becomes the rest of the lexeme, one character further on, in front of the
same pending tokens. -/
theorem parseGenericParameters_closing_prefix (E : Env σ) (hE : E.ForwardOnly) (fuel : Nat)
    (LAngleLoc : SourceLoc) (P : Parser σ) (hf : P.remaining < fuel) :
    ∃ G I P1 W R I1 P2,
      Parser.parseGenericParametersLoop E fuel P [] false = .ok (G, I, P1) ∧
      Parser.parseGenericParametersWhere E fuel P1 I = .ok (W, R, I1, P2) ∧
      (startsWithGreater P2.Tok = true →
        ∃ P3, Parser.parseGenericParametersAt E fuel LAngleLoc P =
            .ok (if G.isEmpty then none
                 else some { LAngleLoc := LAngleLoc, Params := G, WhereLoc := W,
                             Requirements := R, RAngleLoc := P2.Tok.getLoc }, P3) ∧
          P3.Diags = P2.Diags ∧ P3.ScopeInfo = P2.ScopeInfo ∧
          (P2.Tok.getLength = 1 → P3 = P2.lex) ∧
          (P2.Tok.getLength ≠ 1 →
            P2.Tok.getText.data = '>' :: P3.Tok.Text.data ∧
            P3.Tok.Loc = P2.Tok.Loc + 1 ∧
            P3.Tok.Kind = E.getTokenKind P3.Tok.Text ∧
            P3.L = P2.L)) := by
  obtain ⟨G, I, P1, W, R, I1, P2, hl, hw, _, h⟩ := parametersAt_spec E hE fuel LAngleLoc P hf
  refine ⟨G, I, P1, W, R, I1, P2, hl, hw, ?_⟩
  intro hg
  refine ⟨afterRAngle E P2 LAngleLoc I1, ?_, ?_, ?_, ?_, ?_⟩
  · rw [h]; simp only [hg, if_true]
  · rw [Diags_afterRAngle]; simp [hg]
  · exact ScopeInfo_afterRAngle E P2 LAngleLoc I1
  · intro h1
    simp only [afterRAngle, hg, if_true, h1]
  · intro h1
    have : afterRAngle E P2 LAngleLoc I1 = P2.splitFirstChar E := by
      simp only [afterRAngle, hg, if_true, h1, if_false]
    rw [this]
    exact ⟨startsWithGreater_data _ hg, rfl, rfl, rfl⟩

/-- C4, on `T >= x` after the opening bracket: the `>` of `>=` closes the clause and `=` is
left as the current token. -/
theorem parseGenericParameters_closing_prefix_witness :
    (Reference.start [⟨tok.identifier, "T", 1⟩, ⟨tok.oper_binary, ">=", 2⟩,
        ⟨tok.identifier, "x", 4⟩] 5).remaining < 4 ∧
    (∃ G I P1 W R I1 P2,
      Parser.parseGenericParametersLoop Reference.env 4
        (Reference.start [⟨tok.identifier, "T", 1⟩, ⟨tok.oper_binary, ">=", 2⟩,
          ⟨tok.identifier, "x", 4⟩] 5) [] false = .ok (G, I, P1) ∧
      Parser.parseGenericParametersWhere Reference.env 4 P1 I = .ok (W, R, I1, P2) ∧
      (startsWithGreater P2.Tok = true →
        ∃ P3, Parser.parseGenericParametersAt Reference.env 4 (some 0)
            (Reference.start [⟨tok.identifier, "T", 1⟩, ⟨tok.oper_binary, ">=", 2⟩,
              ⟨tok.identifier, "x", 4⟩] 5) =
            .ok (if G.isEmpty then none
                 else some { LAngleLoc := some 0, Params := G, WhereLoc := W,
                             Requirements := R, RAngleLoc := P2.Tok.getLoc }, P3) ∧
          P3.Diags = P2.Diags ∧ P3.ScopeInfo = P2.ScopeInfo ∧
          (P2.Tok.getLength = 1 → P3 = P2.lex) ∧
          (P2.Tok.getLength ≠ 1 →
            P2.Tok.getText.data = '>' :: P3.Tok.Text.data ∧
            P3.Tok.Loc = P2.Tok.Loc + 1 ∧
            P3.Tok.Kind = (Reference.env : Env Unit).getTokenKind P3.Tok.Text ∧
            P3.L = P2.L))) ∧
    (Parser.parseGenericParametersAt Reference.env 4 (some 0)
        (Reference.start [⟨tok.identifier, "T", 1⟩, ⟨tok.oper_binary, ">=", 2⟩,
          ⟨tok.identifier, "x", 4⟩] 5)).toOption.map
      (fun r => (r.1.map GenericParamList.RAngleLoc, r.2.Tok, r.2.L.pending, r.2.Diags)) =
      some (some (some 2), ⟨tok.equal, "=", 3⟩, [⟨tok.identifier, "x", 4⟩], []) :=
  ⟨by decide,
   parseGenericParameters_closing_prefix Reference.env Reference.forwardOnly_env 4 (some 0)
     (Reference.start [⟨tok.identifier, "T", 1⟩, ⟨tok.oper_binary, ">=", 2⟩,
       ⟨tok.identifier, "x", 4⟩] 5) (by decide),
   by decide⟩

/-- C5 as stated fails: on `T : 5` after the opening bracket the closing bracket is missing
(the token at the close position is `5`, neither `where` nor a token beginning with `>`), a
list is returned, and the only diagnostic of the call is the one for the type restriction:
neither closing-bracket diagnostic is emitted, because an error was recorded before. -/
theorem parseGenericParameters_recovery_counterexample :
    (Parser.parseGenericParametersLoop Reference.env 4
        (Reference.start [⟨tok.identifier, "T", 1⟩, ⟨tok.colon, ":", 2⟩,
          ⟨tok.integer_literal, "5", 3⟩] 4) [] false).toOption.map
      (fun r => (r.2.2.Tok.is tok.kw_where, startsWithGreater r.2.2.Tok)) =
      some (false, false) ∧
    (Parser.parseGenericParametersAt Reference.env 4 (some 0)
        (Reference.start [⟨tok.identifier, "T", 1⟩, ⟨tok.colon, ":", 2⟩,
          ⟨tok.integer_literal, "5", 3⟩] 4)).toOption.map
      (fun r => (r.1.map GenericParamList.RAngleLoc, r.2.Diags)) =
      some (some (some 4),
        [{ Loc := some 3, ID := DiagID.expected_generics_type_restriction "T",
           FixIts := [] }]) := by
  constructor <;> decide

/-- C5, amended: when the token at the close position does not begin with `>`, the parser
still returns; a list it returns has a populated close location; if no error was recorded
before, it does return a list and the step emits exactly the two diagnostics, "expected
closing angle bracket" at the current token and then the note at the opening bracket; if an
error was recorded before, the step emits no diagnostic. -/
theorem parseGenericParameters_recovery (E : Env σ) (hE : E.ForwardOnly) (fuel : Nat)
    (LAngleLoc : SourceLoc) (P : Parser σ) (hf : P.remaining < fuel) :
    ∃ G I P1 W R I1 P2,
      Parser.parseGenericParametersLoop E fuel P [] false = .ok (G, I, P1) ∧
      Parser.parseGenericParametersWhere E fuel P1 I = .ok (W, R, I1, P2) ∧
      (startsWithGreater P2.Tok = false →
        ∃ Res P3, Parser.parseGenericParametersAt E fuel LAngleLoc P = .ok (Res, P3) ∧
          (∀ L, Res = some L → L.RAngleLoc.isValid = true) ∧
          (I1 = false → Res ≠ none ∧
            P3.Diags = P2.Diags ++
              [{ Loc := P2.Tok.getLoc, ID := DiagID.expected_rangle_generics_param,
                 FixIts := [] },
               { Loc := LAngleLoc, ID := DiagID.opening_angle, FixIts := [] }]) ∧
          (I1 = true → P3.Diags = P2.Diags)) := by
  obtain ⟨G, I, P1, W, R, I1, P2, hl, hw, _, h⟩ := parametersAt_spec E hE fuel LAngleLoc P hf
  refine ⟨G, I, P1, W, R, I1, P2, hl, hw, ?_⟩
  intro hg
  refine ⟨_, _, h, ?_, ?_, ?_⟩
  · intro L hL
    split at hL
    · cases hL
    · cases hL
      simp [hg, SourceLoc.isValid, Token.getLoc]
  · intro hI
    have hI0 : I = false := whereStep_invalid E fuel P1 I W R I1 P2 hw hI
    have hG : G ≠ [] := paramLoop_valid E fuel P false G I P1 hl hI0
    constructor
    · cases G with
      | nil => exact absurd rfl hG
      | cons g gs => simp
    · rw [Diags_afterRAngle]; simp [hg, hI]
  · intro hI
    rw [Diags_afterRAngle]; simp [hg, hI]

/-- C5 amended, on `T x +` after the opening bracket (no error before the missing bracket) -/
theorem parseGenericParameters_recovery_witness :
    (Reference.start [⟨tok.identifier, "T", 1⟩, ⟨tok.identifier, "x", 3⟩,
        ⟨tok.oper_binary, "+", 5⟩] 6).remaining < 4 ∧
    (∃ G I P1 W R I1 P2,
      Parser.parseGenericParametersLoop Reference.env 4
        (Reference.start [⟨tok.identifier, "T", 1⟩, ⟨tok.identifier, "x", 3⟩,
          ⟨tok.oper_binary, "+", 5⟩] 6) [] false = .ok (G, I, P1) ∧
      Parser.parseGenericParametersWhere Reference.env 4 P1 I = .ok (W, R, I1, P2) ∧
      (startsWithGreater P2.Tok = false →
        ∃ Res P3, Parser.parseGenericParametersAt Reference.env 4 (some 0)
            (Reference.start [⟨tok.identifier, "T", 1⟩, ⟨tok.identifier, "x", 3⟩,
              ⟨tok.oper_binary, "+", 5⟩] 6) = .ok (Res, P3) ∧
          (∀ L, Res = some L → L.RAngleLoc.isValid = true) ∧
          (I1 = false → Res ≠ none ∧
            P3.Diags = P2.Diags ++
              [{ Loc := P2.Tok.getLoc, ID := DiagID.expected_rangle_generics_param,
                 FixIts := [] },
               { Loc := some 0, ID := DiagID.opening_angle, FixIts := [] }]) ∧
          (I1 = true → P3.Diags = P2.Diags))) ∧
    (Parser.parseGenericParametersAt Reference.env 4 (some 0)
        (Reference.start [⟨tok.identifier, "T", 1⟩, ⟨tok.identifier, "x", 3⟩,
          ⟨tok.oper_binary, "+", 5⟩] 6)).toOption.map
      (fun r => (r.1.map GenericParamList.RAngleLoc, r.2.Diags)) =
      some (some (some 5),
        [{ Loc := some 3, ID := DiagID.expected_rangle_generics_param, FixIts := [] },
         { Loc := some 0, ID := DiagID.opening_angle, FixIts := [] }]) :=
  ⟨by decide,
   parseGenericParameters_recovery Reference.env Reference.forwardOnly_env 4 (some 0)
     (Reference.start [⟨tok.identifier, "T", 1⟩, ⟨tok.identifier, "x", 3⟩,
       ⟨tok.oper_binary, "+", 5⟩] 6) (by decide),
   by decide⟩

/-- C7: `parseGenericWhereClause` keeps partial results.  Started on `where`, with a
forward-only cursor and enough fuel, it returns; what it leaves in the out-parameter is the
initial content, whatever it was, followed in parse order by the requirements that parsed
completely in the run of the loop, and the flag it returns is true exactly when that run ended
on a failure (left-hand type, right-hand type or delimiter) and not on a missing comma. -/
theorem parseGenericWhereClause_partial_results (E : Env σ) (hE : E.ForwardOnly) (fuel : Nat)
    (P : Parser σ) (hw : P.Tok.Kind = tok.kw_where) (hf : P.remaining ≤ fuel) :
    ∃ New e P1, RequirementRun E P.lex New e P1 ∧
      ∀ R0, Parser.parseGenericWhereClause E fuel P R0 =
        .ok (e.isFailure, P.Tok.getLoc, R0 ++ New, P1) := by
  have hne : P.Tok.Kind ≠ tok.eof := by rw [hw]; decide
  have hlt := remaining_lex_lt P hne
  obtain ⟨New, e, P1, hrun, hloop⟩ := whereLoop_run E hE fuel P.lex (by omega)
  refine ⟨New, e, P1, hrun, ?_⟩
  intro R0
  unfold parseGenericWhereClause consumeTokenOfKind
  simp only [(is_iff _ _).2 hw, if_true, consumeToken_eq P hne, hloop]

/-- C7, on `where T == U , V 5` with one requirement already in the vector: the same-type
requirement is appended behind it, and the missing delimiter after `V` sets the flag. -/
theorem parseGenericWhereClause_partial_results_witness :
    (Reference.start [⟨tok.kw_where, "where", 0⟩, ⟨tok.identifier, "T", 6⟩,
        ⟨tok.oper_binary, "==", 8⟩, ⟨tok.identifier, "U", 11⟩, ⟨tok.comma, ",", 12⟩,
        ⟨tok.identifier, "V", 14⟩, ⟨tok.integer_literal, "5", 16⟩] 17).Tok.Kind =
      tok.kw_where ∧
    (∃ New e P1,
      RequirementRun Reference.env
        (Reference.start [⟨tok.kw_where, "where", 0⟩, ⟨tok.identifier, "T", 6⟩,
          ⟨tok.oper_binary, "==", 8⟩, ⟨tok.identifier, "U", 11⟩, ⟨tok.comma, ",", 12⟩,
          ⟨tok.identifier, "V", 14⟩, ⟨tok.integer_literal, "5", 16⟩] 17).lex New e P1 ∧
      ∀ R0, Parser.parseGenericWhereClause Reference.env 8
        (Reference.start [⟨tok.kw_where, "where", 0⟩, ⟨tok.identifier, "T", 6⟩,
          ⟨tok.oper_binary, "==", 8⟩, ⟨tok.identifier, "U", 11⟩, ⟨tok.comma, ",", 12⟩,
          ⟨tok.identifier, "V", 14⟩, ⟨tok.integer_literal, "5", 16⟩] 17) R0 =
        .ok (e.isFailure,
          (Reference.start [⟨tok.kw_where, "where", 0⟩, ⟨tok.identifier, "T", 6⟩,
            ⟨tok.oper_binary, "==", 8⟩, ⟨tok.identifier, "U", 11⟩, ⟨tok.comma, ",", 12⟩,
            ⟨tok.identifier, "V", 14⟩, ⟨tok.integer_literal, "5", 16⟩] 17).Tok.getLoc,
          R0 ++ New, P1)) ∧
    (Parser.parseGenericWhereClause Reference.env 8
        (Reference.start [⟨tok.kw_where, "where", 0⟩, ⟨tok.identifier, "T", 6⟩,
          ⟨tok.oper_binary, "==", 8⟩, ⟨tok.identifier, "U", 11⟩, ⟨tok.comma, ",", 12⟩,
          ⟨tok.identifier, "V", 14⟩, ⟨tok.integer_literal, "5", 16⟩] 17)
        [Requirement.Conformance ⟨90, ["A"], false⟩ (some 91) ⟨92, ["B"], false⟩]).toOption.map
      (fun r => (r.1, r.2.2.1, r.2.2.2.Diags)) =
      some (true,
        [Requirement.Conformance ⟨90, ["A"], false⟩ (some 91) ⟨92, ["B"], false⟩,
         Requirement.SameType ⟨6, ["T"], false⟩ (some 8) ⟨11, ["U"], false⟩],
        [{ Loc := some 16, ID := DiagID.expected_requirement_delim, FixIts := [] }]) :=
  ⟨by decide,
   parseGenericWhereClause_partial_results Reference.env Reference.forwardOnly_env 8
     (Reference.start [⟨tok.kw_where, "where", 0⟩, ⟨tok.identifier, "T", 6⟩,
       ⟨tok.oper_binary, "==", 8⟩, ⟨tok.identifier, "U", 11⟩, ⟨tok.comma, ",", 12⟩,
       ⟨tok.identifier, "V", 14⟩, ⟨tok.integer_literal, "5", 16⟩] 17) (by decide) (by decide),
   by decide⟩

/-- C8: incremental scope registration.  Take sub-parsers that register nothing themselves,
and next to the run of `parseGenericParameters(SourceLoc)` on `P` the same run watched, in
which each call of a type sub-parser notes the scope it finds.  Both return the same result
and, the log apart, the same parser.  On return the scope is the scope from before followed
by the parameters `G` of the returned list, in order (by nothing when absence is returned).
The scopes noted by the constraint calls are, in call order, the old scope followed by the
first `i` parameters, for increasing `i`, one such `i` for every parameter that carries a
constraint: the constraint of parameter `i + 1` was parsed with exactly `i` parameters of this
call in scope.  The scopes noted during the where-clause are all the old scope followed by
all of `G`. -/
theorem parseGenericParameters_scope_incremental (E : Env σ) (hS : E.ScopePreserving)
    (hE : E.ForwardOnly) (fuel : Nat) (LAngleLoc : SourceLoc) (P : Parser σ)
    (hf : P.remaining < fuel) :
    ∃ (Res : Option GenericParamList) (P1 : Parser (σ × ScopeLog)) (G : List GenericParam)
      (idx : List Nat) (ws : ScopeLog),
      Parser.parseGenericParametersAt E fuel LAngleLoc P = .ok (Res, P1.forget) ∧
      Parser.parseGenericParametersAt E.watched fuel LAngleLoc (P.withLog []) = .ok (Res, P1) ∧
      (Res = none → G = []) ∧ (∀ L, Res = some L → G = L.Params) ∧
      P1.ScopeInfo = P.ScopeInfo ++ G ∧
      P1.Context.2 = idx.map (fun i => P.ScopeInfo ++ G.take i) ++ ws ∧
      idx.Pairwise (· < ·) ∧ (∀ i ∈ idx, i < G.length) ∧
      (∀ (i : Nat) (p : GenericParam), G.get? i = some p → p.Inherited ≠ [] → i ∈ idx) ∧
      (∀ s ∈ ws, s = P.ScopeInfo ++ G) := by
  have hL := watched_logging E hS
  obtain ⟨G, I, P1, W, R, I1, P2, hl, hw, _, h⟩ :=
    parametersAt_spec E.watched (watched_forwardOnly E hE) fuel LAngleLoc (P.withLog []) hf
  obtain ⟨New, idx, hG, hSc, hC, hP, hB, hI⟩ := paramLoop_watched E.watched hL _ _ _ _ _ _ _ hl
  obtain ⟨hSc2, ws, hC2, hW⟩ := whereStep_watched E.watched hL _ _ _ _ _ _ _ hw
  simp only [List.nil_append] at hG
  subst hG
  have hP0 : (P.withLog []).ScopeInfo = P.ScopeInfo := rfl
  have hC0 : (P.withLog []).Context.2 = [] := rfl
  rw [hP0] at hSc hC
  rw [hC0] at hC
  refine ⟨_, _, G, idx, ws, parametersAt_forget E fuel LAngleLoc (P.withLog []) _ _ h, h,
    ?_, ?_, ?_, ?_, hP, hB, hI, ?_⟩
  · intro hn
    cases G with
    | nil => rfl
    | cons g gs => simp at hn
  · intro L hL
    cases G with
    | nil => simp at hL
    | cons g gs =>
      simp only [List.isEmpty_cons, Bool.false_eq_true, if_false, Option.some.injEq] at hL
      rw [← hL]
  · rw [ScopeInfo_afterRAngle, hSc2, hSc]
  · rw [Context_afterRAngle, hC2, hC]
    simp
  · intro s hs
    rw [hW s hs, hSc]

/-- C8, on `T : A , U : T where T == U >` after the opening bracket, with the reference
sub-parsers: the constraint of `T` is parsed with nothing of this call in scope, that of `U`
with `T` in scope, and both sides of the requirement with `T` and `U` in scope. -/
theorem parseGenericParameters_scope_incremental_witness :
    (Reference.start [⟨tok.identifier, "T", 1⟩, ⟨tok.colon, ":", 2⟩,
        ⟨tok.identifier, "A", 4⟩, ⟨tok.comma, ",", 5⟩, ⟨tok.identifier, "U", 7⟩,
        ⟨tok.colon, ":", 8⟩, ⟨tok.identifier, "T", 10⟩, ⟨tok.kw_where, "where", 12⟩,
        ⟨tok.identifier, "T", 18⟩, ⟨tok.oper_binary, "==", 20⟩, ⟨tok.identifier, "U", 23⟩,
        ⟨tok.oper_binary, ">", 24⟩] 25).remaining < 13 ∧
    (∃ (Res : Option GenericParamList) (P1 : Parser (Unit × ScopeLog)) (G : List GenericParam)
      (idx : List Nat) (ws : ScopeLog),
      Parser.parseGenericParametersAt Reference.env 13 (some 0)
        (Reference.start [⟨tok.identifier, "T", 1⟩, ⟨tok.colon, ":", 2⟩,
          ⟨tok.identifier, "A", 4⟩, ⟨tok.comma, ",", 5⟩, ⟨tok.identifier, "U", 7⟩,
          ⟨tok.colon, ":", 8⟩, ⟨tok.identifier, "T", 10⟩, ⟨tok.kw_where, "where", 12⟩,
          ⟨tok.identifier, "T", 18⟩, ⟨tok.oper_binary, "==", 20⟩, ⟨tok.identifier, "U", 23⟩,
          ⟨tok.oper_binary, ">", 24⟩] 25) = .ok (Res, P1.forget) ∧
      Parser.parseGenericParametersAt (Reference.env : Env Unit).watched 13 (some 0)
        ((Reference.start [⟨tok.identifier, "T", 1⟩, ⟨tok.colon, ":", 2⟩,
          ⟨tok.identifier, "A", 4⟩, ⟨tok.comma, ",", 5⟩, ⟨tok.identifier, "U", 7⟩,
          ⟨tok.colon, ":", 8⟩, ⟨tok.identifier, "T", 10⟩, ⟨tok.kw_where, "where", 12⟩,
          ⟨tok.identifier, "T", 18⟩, ⟨tok.oper_binary, "==", 20⟩, ⟨tok.identifier, "U", 23⟩,
          ⟨tok.oper_binary, ">", 24⟩] 25).withLog []) = .ok (Res, P1) ∧
      (Res = none → G = []) ∧ (∀ L, Res = some L → G = L.Params) ∧
      P1.ScopeInfo = (Reference.start [⟨tok.identifier, "T", 1⟩, ⟨tok.colon, ":", 2⟩,
          ⟨tok.identifier, "A", 4⟩, ⟨tok.comma, ",", 5⟩, ⟨tok.identifier, "U", 7⟩,
          ⟨tok.colon, ":", 8⟩, ⟨tok.identifier, "T", 10⟩, ⟨tok.kw_where, "where", 12⟩,
          ⟨tok.identifier, "T", 18⟩, ⟨tok.oper_binary, "==", 20⟩, ⟨tok.identifier, "U", 23⟩,
          ⟨tok.oper_binary, ">", 24⟩] 25).ScopeInfo ++ G ∧
      P1.Context.2 = idx.map (fun i =>
        (Reference.start [⟨tok.identifier, "T", 1⟩, ⟨tok.colon, ":", 2⟩,
          ⟨tok.identifier, "A", 4⟩, ⟨tok.comma, ",", 5⟩, ⟨tok.identifier, "U", 7⟩,
          ⟨tok.colon, ":", 8⟩, ⟨tok.identifier, "T", 10⟩, ⟨tok.kw_where, "where", 12⟩,
          ⟨tok.identifier, "T", 18⟩, ⟨tok.oper_binary, "==", 20⟩, ⟨tok.identifier, "U", 23⟩,
          ⟨tok.oper_binary, ">", 24⟩] 25).ScopeInfo ++ G.take i) ++ ws ∧
      idx.Pairwise (· < ·) ∧ (∀ i ∈ idx, i < G.length) ∧
      (∀ (i : Nat) (p : GenericParam), G.get? i = some p → p.Inherited ≠ [] → i ∈ idx) ∧
      (∀ s ∈ ws, s = (Reference.start [⟨tok.identifier, "T", 1⟩, ⟨tok.colon, ":", 2⟩,
          ⟨tok.identifier, "A", 4⟩, ⟨tok.comma, ",", 5⟩, ⟨tok.identifier, "U", 7⟩,
          ⟨tok.colon, ":", 8⟩, ⟨tok.identifier, "T", 10⟩, ⟨tok.kw_where, "where", 12⟩,
          ⟨tok.identifier, "T", 18⟩, ⟨tok.oper_binary, "==", 20⟩, ⟨tok.identifier, "U", 23⟩,
          ⟨tok.oper_binary, ">", 24⟩] 25).ScopeInfo ++ G)) ∧
    (Parser.parseGenericParametersAt (Reference.env : Env Unit).watched 13 (some 0)
        ((Reference.start [⟨tok.identifier, "T", 1⟩, ⟨tok.colon, ":", 2⟩,
          ⟨tok.identifier, "A", 4⟩, ⟨tok.comma, ",", 5⟩, ⟨tok.identifier, "U", 7⟩,
          ⟨tok.colon, ":", 8⟩, ⟨tok.identifier, "T", 10⟩, ⟨tok.kw_where, "where", 12⟩,
          ⟨tok.identifier, "T", 18⟩, ⟨tok.oper_binary, "==", 20⟩, ⟨tok.identifier, "U", 23⟩,
          ⟨tok.oper_binary, ">", 24⟩] 25).withLog [])).toOption.map
      (fun r => (r.2.ScopeInfo.map TypeAliasDecl.Name,
        r.2.Context.2.map (fun s => s.map TypeAliasDecl.Name))) =
      some (["T", "U"], [[], ["T"], ["T", "U"], ["T", "U"]]) :=
  ⟨by decide,
   parseGenericParameters_scope_incremental Reference.env Reference.scopePreserving_env
     Reference.forwardOnly_env 13 (some 0)
     (Reference.start [⟨tok.identifier, "T", 1⟩, ⟨tok.colon, ":", 2⟩,
       ⟨tok.identifier, "A", 4⟩, ⟨tok.comma, ",", 5⟩, ⟨tok.identifier, "U", 7⟩,
       ⟨tok.colon, ":", 8⟩, ⟨tok.identifier, "T", 10⟩, ⟨tok.kw_where, "where", 12⟩,
       ⟨tok.identifier, "T", 18⟩, ⟨tok.oper_binary, "==", 20⟩, ⟨tok.identifier, "U", 23⟩,
       ⟨tok.oper_binary, ">", 24⟩] 25) (by decide),
   by decide⟩

/-- C11: the diagnostics of the closing-bracket step.  With a forward-only cursor and enough
fuel the call returns; let `P2` be the parser after the parameters and the optional
where-clause and `I1` the validity flag there.  If the current token does not begin with `>`
and no error was recorded, the step emits exactly two diagnostics, in this order: "expected
closing angle bracket" at the current token and the "opening angle" note at the recorded
opening-bracket location.  If an error was recorded it emits none, and if the current token
begins with `>` it emits none. -/
theorem parseGenericParameters_closing_diagnostics (E : Env σ) (hE : E.ForwardOnly)
    (fuel : Nat) (LAngleLoc : SourceLoc) (P : Parser σ) (hf : P.remaining < fuel) :
    ∃ G I P1 W R I1 P2 RAngleLoc Res P3,
      Parser.parseGenericParametersLoop E fuel P [] false = .ok (G, I, P1) ∧
      Parser.parseGenericParametersWhere E fuel P1 I = .ok (W, R, I1, P2) ∧
      Parser.parseGenericParametersRAngle E P2 LAngleLoc I1 = .ok (RAngleLoc, P3) ∧
      Parser.parseGenericParametersAt E fuel LAngleLoc P = .ok (Res, P3) ∧
      (startsWithGreater P2.Tok = false → I1 = false →
        P3.Diags = P2.Diags ++
          [{ Loc := P2.Tok.getLoc, ID := DiagID.expected_rangle_generics_param, FixIts := [] },
           { Loc := LAngleLoc, ID := DiagID.opening_angle, FixIts := [] }]) ∧
      (startsWithGreater P2.Tok = false → I1 = true → P3.Diags = P2.Diags) ∧
      (startsWithGreater P2.Tok = true → P3.Diags = P2.Diags) := by
  obtain ⟨G, I, P1, W, R, I1, P2, hl, hw, _, h⟩ := parametersAt_spec E hE fuel LAngleLoc P hf
  refine ⟨G, I, P1, W, R, I1, P2, _, _, _, hl, hw, rangle_eq E P2 LAngleLoc I1, h, ?_, ?_, ?_⟩
  · intro hg hI
    rw [Diags_afterRAngle]; simp [hg, hI]
  · intro hg hI
    rw [Diags_afterRAngle]; simp [hg, hI]
  · intro hg
    rw [Diags_afterRAngle]; simp [hg]

/-- C11, with the reference sub-parsers, the opening bracket at 0 already consumed: on
`T , U y` the two diagnostics are all the call emits; on `T : 5 y` the error recorded for the
constraint keeps them back; on `T >` nothing is emitted. -/
theorem parseGenericParameters_closing_diagnostics_witness :
    (Reference.start [⟨tok.identifier, "T", 1⟩, ⟨tok.comma, ",", 2⟩, ⟨tok.identifier, "U", 4⟩,
        ⟨tok.identifier, "y", 6⟩] 7).remaining < 5 ∧
    (∃ G I P1 W R I1 P2 RAngleLoc Res P3,
      Parser.parseGenericParametersLoop Reference.env 5
        (Reference.start [⟨tok.identifier, "T", 1⟩, ⟨tok.comma, ",", 2⟩,
          ⟨tok.identifier, "U", 4⟩, ⟨tok.identifier, "y", 6⟩] 7) [] false = .ok (G, I, P1) ∧
      Parser.parseGenericParametersWhere Reference.env 5 P1 I = .ok (W, R, I1, P2) ∧
      Parser.parseGenericParametersRAngle Reference.env P2 (some 0) I1 = .ok (RAngleLoc, P3) ∧
      Parser.parseGenericParametersAt Reference.env 5 (some 0)
        (Reference.start [⟨tok.identifier, "T", 1⟩, ⟨tok.comma, ",", 2⟩,
          ⟨tok.identifier, "U", 4⟩, ⟨tok.identifier, "y", 6⟩] 7) = .ok (Res, P3) ∧
      (startsWithGreater P2.Tok = false → I1 = false →
        P3.Diags = P2.Diags ++
          [{ Loc := P2.Tok.getLoc, ID := DiagID.expected_rangle_generics_param, FixIts := [] },
           { Loc := some 0, ID := DiagID.opening_angle, FixIts := [] }]) ∧
      (startsWithGreater P2.Tok = false → I1 = true → P3.Diags = P2.Diags) ∧
      (startsWithGreater P2.Tok = true → P3.Diags = P2.Diags)) ∧
    (Parser.parseGenericParametersAt Reference.env 5 (some 0)
        (Reference.start [⟨tok.identifier, "T", 1⟩, ⟨tok.comma, ",", 2⟩,
          ⟨tok.identifier, "U", 4⟩, ⟨tok.identifier, "y", 6⟩] 7)).toOption.map
      (fun r => r.2.Diags) =
      some [{ Loc := some 6, ID := DiagID.expected_rangle_generics_param, FixIts := [] },
            { Loc := some 0, ID := DiagID.opening_angle, FixIts := [] }] ∧
    (Parser.parseGenericParametersAt Reference.env 5 (some 0)
        (Reference.start [⟨tok.identifier, "T", 1⟩, ⟨tok.colon, ":", 2⟩,
          ⟨tok.integer_literal, "5", 4⟩, ⟨tok.identifier, "y", 6⟩] 7)).toOption.map
      (fun r => r.2.Diags) =
      some [{ Loc := some 4, ID := DiagID.expected_generics_type_restriction "T",
              FixIts := [] }] ∧
    (Parser.parseGenericParametersAt Reference.env 5 (some 0)
        (Reference.start [⟨tok.identifier, "T", 1⟩, ⟨tok.oper_binary, ">", 2⟩] 3)).toOption.map
      (fun r => r.2.Diags) = some [] :=
  ⟨by decide,
   parseGenericParameters_closing_diagnostics Reference.env Reference.forwardOnly_env 5 (some 0)
     (Reference.start [⟨tok.identifier, "T", 1⟩, ⟨tok.comma, ",", 2⟩, ⟨tok.identifier, "U", 4⟩,
       ⟨tok.identifier, "y", 6⟩] 7) (by decide),
   by decide, by decide, by decide⟩

/-- C12: a where-clause failure does not discard parameters.  When the parameter loop has
collected at least one parameter and `parseGenericWhereClause` then returns the invalid flag,
`parseGenericParameters(SourceLoc)` returns a list: its parameters are those of the loop, in
order, its where location is the location of the `where` keyword, and its requirements are
what the where-clause left in the vector, which are the requirements that parsed completely
before the failure.  The close location is populated, and the closing step adds no
diagnostic. -/
theorem parseGenericParameters_where_failure_keeps_parameters (E : Env σ) (fuel : Nat)
    (LAngleLoc : SourceLoc) (P P1 P2 : Parser σ) (G : List GenericParam) (I : Bool)
    (W : SourceLoc) (R : List Requirement)
    (hl : Parser.parseGenericParametersLoop E fuel P [] false = .ok (G, I, P1))
    (hG : G ≠ [])
    (hw : Parser.parseGenericWhereClause E fuel P1 [] = .ok (true, W, R, P2)) :
    P1.Tok.Kind = tok.kw_where ∧ W = P1.Tok.getLoc ∧
    (∃ f, RequirementRun E P1.lex R (.failure f) P2) ∧
    ∃ RAngleLoc P3, Parser.parseGenericParametersAt E fuel LAngleLoc P =
        .ok (some { LAngleLoc := LAngleLoc, Params := G, WhereLoc := W, Requirements := R,
                    RAngleLoc := RAngleLoc }, P3) ∧
      RAngleLoc.isValid = true ∧ P3.Diags = P2.Diags := by
  obtain ⟨hk, hW, hloop⟩ := whereClause_ok E fuel P1 [] true W R P2 hw
  refine ⟨hk, hW, ?_, ?_⟩
  · obtain ⟨New, e, hrun, hR, hI⟩ := whereLoop_run_of_ok E fuel P1.lex [] true R P2 hloop
    cases e with
    | noComma => cases hI
    | failure f =>
      simp only [List.nil_append] at hR
      subst hR
      exact ⟨f, hrun⟩
  · refine ⟨(if startsWithGreater P2.Tok then P2.Tok.getLoc
      else (P2.diagnoseMissingRAngle LAngleLoc true).skipUntilAnyOperator.Tok.getLoc),
      afterRAngle E P2 LAngleLoc true, ?_, ?_, ?_⟩
    · unfold parseGenericParametersAt
      rw [hl]
      simp only [parseGenericParametersWhere, (is_iff _ _).2 hk, if_true, hw, Bool.true_or,
        rangle_eq]
      cases G with
      | nil => exact absurd rfl hG
      | cons g gs => rfl
    · split <;> rfl
    · rw [Diags_afterRAngle]; simp

/-- C12, on `T where A == B , C 5 >` after the opening bracket at 0, with the reference
sub-parsers: the delimiter missing after `C` makes the where-clause invalid, and the list
returned holds the parameter `T`, the location of `where` and the requirement `A == B`. -/
theorem parseGenericParameters_where_failure_keeps_parameters_witness :
    (Parser.parseGenericParametersLoop Reference.env 10
        (Reference.start [⟨tok.identifier, "T", 1⟩, ⟨tok.kw_where, "where", 3⟩,
          ⟨tok.identifier, "A", 9⟩, ⟨tok.oper_binary, "==", 11⟩, ⟨tok.identifier, "B", 14⟩,
          ⟨tok.comma, ",", 15⟩, ⟨tok.identifier, "C", 17⟩, ⟨tok.integer_literal, "5", 19⟩,
          ⟨tok.oper_binary, ">", 21⟩] 22) [] false =
      .ok ([⟨some 1, "T", some 1, none, 0, [], true⟩], false,
        (Reference.state ⟨tok.kw_where, "where", 3⟩
          [⟨tok.identifier, "A", 9⟩, ⟨tok.oper_binary, "==", 11⟩, ⟨tok.identifier, "B", 14⟩,
           ⟨tok.comma, ",", 15⟩, ⟨tok.identifier, "C", 17⟩, ⟨tok.integer_literal, "5", 19⟩,
           ⟨tok.oper_binary, ">", 21⟩] 22 []
          [⟨some 1, "T", some 1, none, 0, [], true⟩]))) ∧
    (Parser.parseGenericWhereClause Reference.env 10
        (Reference.state ⟨tok.kw_where, "where", 3⟩
          [⟨tok.identifier, "A", 9⟩, ⟨tok.oper_binary, "==", 11⟩, ⟨tok.identifier, "B", 14⟩,
           ⟨tok.comma, ",", 15⟩, ⟨tok.identifier, "C", 17⟩, ⟨tok.integer_literal, "5", 19⟩,
           ⟨tok.oper_binary, ">", 21⟩] 22 []
          [⟨some 1, "T", some 1, none, 0, [], true⟩]) [] =
      .ok (true, some 3,
        [Requirement.SameType ⟨9, ["A"], false⟩ (some 11) ⟨14, ["B"], false⟩],
        (Reference.state ⟨tok.integer_literal, "5", 19⟩ [⟨tok.oper_binary, ">", 21⟩] 22
          [{ Loc := some 19, ID := DiagID.expected_requirement_delim, FixIts := [] }]
          [⟨some 1, "T", some 1, none, 0, [], true⟩]))) ∧
    ∃ RAngleLoc P3, Parser.parseGenericParametersAt Reference.env 10 (some 0)
        (Reference.start [⟨tok.identifier, "T", 1⟩, ⟨tok.kw_where, "where", 3⟩,
          ⟨tok.identifier, "A", 9⟩, ⟨tok.oper_binary, "==", 11⟩, ⟨tok.identifier, "B", 14⟩,
          ⟨tok.comma, ",", 15⟩, ⟨tok.identifier, "C", 17⟩, ⟨tok.integer_literal, "5", 19⟩,
          ⟨tok.oper_binary, ">", 21⟩] 22) =
        .ok (some { LAngleLoc := some 0,
                    Params := [⟨some 1, "T", some 1, none, 0, [], true⟩],
                    WhereLoc := some 3,
                    Requirements :=
                      [Requirement.SameType ⟨9, ["A"], false⟩ (some 11) ⟨14, ["B"], false⟩],
                    RAngleLoc := RAngleLoc }, P3) ∧
      RAngleLoc.isValid = true ∧
      P3.Diags =
        [{ Loc := some 19, ID := DiagID.expected_requirement_delim, FixIts := [] }] :=
  ⟨by rfl, by rfl,
   (parseGenericParameters_where_failure_keeps_parameters Reference.env 10 (some 0)
      (Reference.start [⟨tok.identifier, "T", 1⟩, ⟨tok.kw_where, "where", 3⟩,
          ⟨tok.identifier, "A", 9⟩, ⟨tok.oper_binary, "==", 11⟩, ⟨tok.identifier, "B", 14⟩,
          ⟨tok.comma, ",", 15⟩, ⟨tok.identifier, "C", 17⟩, ⟨tok.integer_literal, "5", 19⟩,
          ⟨tok.oper_binary, ">", 21⟩] 22)
      (Reference.state ⟨tok.kw_where, "where", 3⟩
          [⟨tok.identifier, "A", 9⟩, ⟨tok.oper_binary, "==", 11⟩, ⟨tok.identifier, "B", 14⟩,
           ⟨tok.comma, ",", 15⟩, ⟨tok.identifier, "C", 17⟩, ⟨tok.integer_literal, "5", 19⟩,
           ⟨tok.oper_binary, ">", 21⟩] 22 []
          [⟨some 1, "T", some 1, none, 0, [], true⟩])
      (Reference.state ⟨tok.integer_literal, "5", 19⟩ [⟨tok.oper_binary, ">", 21⟩] 22
          [{ Loc := some 19, ID := DiagID.expected_requirement_delim, FixIts := [] }]
          [⟨some 1, "T", some 1, none, 0, [], true⟩])
      [⟨some 1, "T", some 1, none, 0, [], true⟩] false (some 3)
      [Requirement.SameType ⟨9, ["A"], false⟩ (some 11) ⟨14, ["B"], false⟩]
      (by rfl) (by simp) (by rfl)).2.2.2⟩

/-- C13: a constraint error does not abort the parameter loop.  When the name of a parameter
is followed by `:` and the token after the colon is neither an identifier nor the `protocol`
keyword, the pass emits exactly one diagnostic, "expected type restriction" for that name at
that token, and leaves that token as the current one; it builds the parameter with no
constraint, appends it and adds it to the scope, and sets the validity flag.  The loop goes
on to the next parameter exactly when the current token is a comma, and ends with the vector
otherwise. -/
theorem parseGenericParameters_constraint_error_continues (E : Env σ) (P P1 : Parser σ)
    (Name : String) (NameLoc : SourceLoc)
    (hn : P.invoke (E.parseIdentifier DiagID.expected_generics_parameter_name) =
      (some (Name, NameLoc), P1))
    (hc : P1.Tok.Kind = tok.colon)
    (hi : P1.lex.Tok.Kind ≠ tok.identifier) (hp : P1.lex.Tok.Kind ≠ tok.kw_protocol) :
    ∃ (Param : GenericParam) (P2 : Parser σ),
      Param = { TypeAliasLoc := NameLoc, Name := Name, NameLoc := NameLoc, UnderlyingTy := none,
                DC := P1.CurDeclContext, Inherited := [], GenericParameter := true } ∧
      P2.Diags = P1.Diags ++
        [{ Loc := P1.lex.Tok.getLoc, ID := DiagID.expected_generics_type_restriction Name,
           FixIts := [] }] ∧
      P2.Tok = P1.lex.Tok ∧ P2.L = P1.lex.L ∧
      P2.ScopeInfo = P1.ScopeInfo ++ [Param] ∧
      (∀ I, Parser.parseGenericParametersBody E P I = .ok (some Param, true, P2)) ∧
      (∀ n G I, Parser.parseGenericParametersLoop E (n + 1) P G I =
        if P2.Tok.Kind = tok.comma then
          Parser.parseGenericParametersLoop E n P2.lex (G ++ [Param]) true
        else .ok (G ++ [Param], true, P2)) := by
  have hb : ∀ I, Parser.parseGenericParametersBody E P I =
      .ok (some ((P1.lex.diagnose P1.lex.Tok.getLoc
              (DiagID.expected_generics_type_restriction Name) []).makeGenericParam
              Name NameLoc []), true,
           (P1.lex.diagnose P1.lex.Tok.getLoc
              (DiagID.expected_generics_type_restriction Name) []).addToScope
             ((P1.lex.diagnose P1.lex.Tok.getLoc
              (DiagID.expected_generics_type_restriction Name) []).makeGenericParam
              Name NameLoc [])) := by
    intro I
    unfold Parser.parseGenericParametersBody
    rw [hn]
    simp only
    rcases inherited_cases E P1 Name I with ⟨h1, _⟩ | ⟨_, h1, _⟩ | ⟨_, h1, _⟩ | ⟨_, _, _, h2⟩
    · exact absurd hc h1
    · exact absurd h1 hi
    · exact absurd h1 hp
    · rw [h2]
  refine ⟨_, _, ?_, ?_, ?_, ?_, ?_, hb, ?_⟩
  · simp [makeGenericParam, diagnose]
  · simp [addToScope, diagnose]
  · rfl
  · rfl
  · simp [addToScope, diagnose]
  · intro n G I
    exact paramLoop_step E n P _ G I true _ (hb I)

/-- C13, on `<T:, U>` with the reference sub-parsers.  The pass for `T` (opening bracket
consumed) meets the comma after the colon; the whole clause yields the parameters `T` and
`U`, both without constraint, and the one diagnostic at the comma. -/
theorem parseGenericParameters_constraint_error_continues_witness :
    (Reference.start [⟨tok.identifier, "T", 1⟩, ⟨tok.colon, ":", 2⟩,
          ⟨tok.comma, ",", 3⟩, ⟨tok.identifier, "U", 5⟩, ⟨tok.oper_binary, ">", 6⟩] 7).invoke
        (Reference.env.parseIdentifier DiagID.expected_generics_parameter_name) =
      (some ("T", some 1), (Reference.state ⟨tok.colon, ":", 2⟩
          [⟨tok.comma, ",", 3⟩, ⟨tok.identifier, "U", 5⟩, ⟨tok.oper_binary, ">", 6⟩] 7 [] [])) ∧
    (∃ (Param : GenericParam) (P2 : Parser Unit),
      Param = { TypeAliasLoc := some 1, Name := "T", NameLoc := some 1, UnderlyingTy := none,
                DC := (Reference.state ⟨tok.colon, ":", 2⟩
          [⟨tok.comma, ",", 3⟩, ⟨tok.identifier, "U", 5⟩, ⟨tok.oper_binary, ">", 6⟩] 7 [] []).CurDeclContext, Inherited := [], GenericParameter := true } ∧
      P2.Diags = (Reference.state ⟨tok.colon, ":", 2⟩
          [⟨tok.comma, ",", 3⟩, ⟨tok.identifier, "U", 5⟩, ⟨tok.oper_binary, ">", 6⟩] 7 [] []).Diags ++
        [{ Loc := (Reference.state ⟨tok.colon, ":", 2⟩
          [⟨tok.comma, ",", 3⟩, ⟨tok.identifier, "U", 5⟩, ⟨tok.oper_binary, ">", 6⟩] 7 [] []).lex.Tok.getLoc,
           ID := DiagID.expected_generics_type_restriction "T", FixIts := [] }] ∧
      P2.Tok = (Reference.state ⟨tok.colon, ":", 2⟩
          [⟨tok.comma, ",", 3⟩, ⟨tok.identifier, "U", 5⟩, ⟨tok.oper_binary, ">", 6⟩] 7 [] []).lex.Tok ∧
      P2.L = (Reference.state ⟨tok.colon, ":", 2⟩
          [⟨tok.comma, ",", 3⟩, ⟨tok.identifier, "U", 5⟩, ⟨tok.oper_binary, ">", 6⟩] 7 [] []).lex.L ∧
      P2.ScopeInfo = (Reference.state ⟨tok.colon, ":", 2⟩
          [⟨tok.comma, ",", 3⟩, ⟨tok.identifier, "U", 5⟩, ⟨tok.oper_binary, ">", 6⟩] 7 [] []).ScopeInfo ++ [Param] ∧
      (∀ I, Parser.parseGenericParametersBody Reference.env
        (Reference.start [⟨tok.identifier, "T", 1⟩, ⟨tok.colon, ":", 2⟩,
          ⟨tok.comma, ",", 3⟩, ⟨tok.identifier, "U", 5⟩, ⟨tok.oper_binary, ">", 6⟩] 7) I = .ok (some Param, true, P2)) ∧
      (∀ n G I, Parser.parseGenericParametersLoop Reference.env (n + 1)
          (Reference.start [⟨tok.identifier, "T", 1⟩, ⟨tok.colon, ":", 2⟩,
          ⟨tok.comma, ",", 3⟩, ⟨tok.identifier, "U", 5⟩, ⟨tok.oper_binary, ">", 6⟩] 7) G I =
        if P2.Tok.Kind = tok.comma then
          Parser.parseGenericParametersLoop Reference.env n P2.lex (G ++ [Param]) true
        else .ok (G ++ [Param], true, P2))) ∧
    (Parser.parseGenericParameters Reference.env 7
        (Reference.start (⟨tok.oper_binary, "<", 0⟩ :: [⟨tok.identifier, "T", 1⟩, ⟨tok.colon, ":", 2⟩,
          ⟨tok.comma, ",", 3⟩, ⟨tok.identifier, "U", 5⟩, ⟨tok.oper_binary, ">", 6⟩]) 7)).toOption.map
      (fun r => (r.1.map (fun L => L.Params.map (fun p => (p.Name, p.Inherited))),
        r.2.Diags, r.2.ScopeInfo.map TypeAliasDecl.Name)) =
      some (some [("T", []), ("U", [])],
        [{ Loc := some 3, ID := DiagID.expected_generics_type_restriction "T", FixIts := [] }],
        ["T", "U"]) :=
  ⟨by rfl,
   parseGenericParameters_constraint_error_continues Reference.env
     (Reference.start [⟨tok.identifier, "T", 1⟩, ⟨tok.colon, ":", 2⟩,
          ⟨tok.comma, ",", 3⟩, ⟨tok.identifier, "U", 5⟩, ⟨tok.oper_binary, ">", 6⟩] 7)
     (Reference.state ⟨tok.colon, ":", 2⟩
          [⟨tok.comma, ",", 3⟩, ⟨tok.identifier, "U", 5⟩, ⟨tok.oper_binary, ">", 6⟩] 7 [] [])
     "T" (some 1) (by rfl) (by decide) (by decide) (by decide),
   by decide⟩

/-- C14: a name error stops the parameter loop.  Let the loop, entered with no parameter,
have made `i` passes that each built a parameter and found a comma, and let the name parse
of the next parameter fail.  Then the loop ends there: it returns exactly the `i` parameters
built before, with the validity flag set, and the parser it returns is the one the failing
name parse left, so that no further name or constraint is parsed.  With a forward-only cursor
and enough fuel `parseGenericParameters(SourceLoc)` returns; the parameters of its result are
those `i` (absence when `i = 0`), and with sub-parsers that register nothing the scope on
return is the old scope followed by those `i` parameters. -/
theorem parseGenericParameters_name_error_stops (E : Env σ) (hE : E.ForwardOnly) (fuel : Nat)
    (LAngleLoc : SourceLoc) (P Q : Parser σ) (i : Nat) (G : List GenericParam) (I : Bool)
    (hf : P.remaining < fuel)
    (hp : ParameterPasses E i P [] false Q G I)
    (hn : (Q.invoke (E.parseIdentifier DiagID.expected_generics_parameter_name)).1 = none) :
    G.length = i ∧
    Parser.parseGenericParametersLoop E fuel P [] false =
      .ok (G, true, (Q.invoke (E.parseIdentifier DiagID.expected_generics_parameter_name)).2) ∧
    ∃ Res P3, Parser.parseGenericParametersAt E fuel LAngleLoc P = .ok (Res, P3) ∧
      Res.map GenericParamList.Params = (if G.isEmpty then none else some G) ∧
      (E.ScopePreserving → P3.ScopeInfo = P.ScopeInfo ++ G) := by
  obtain ⟨G1, I1, P1, W, R, I2, P2, hl, hw, _, h⟩ := parametersAt_spec E hE fuel LAngleLoc P hf
  obtain ⟨m, hm, h2⟩ := paramLoop_passes E i P Q [] G false I hp fuel _ hl
  have h3 : Parser.parseGenericParametersLoop E fuel P [] false =
      .ok (G, true,
        (Q.invoke (E.parseIdentifier DiagID.expected_generics_parameter_name)).2) := by
    cases m with
    | zero => cases h2
    | succ n =>
      rw [paramLoop_name_fails E n Q G I hn] at h2
      rw [hl, ← h2]
  rw [hl] at h3
  simp only [Except.ok.injEq, Prod.mk.injEq] at h3
  obtain ⟨hG, hI, hP⟩ := h3
  subst hG hI hP
  refine ⟨?_, hl, _, _, h, ?_, ?_⟩
  · obtain ⟨New, h1, h2⟩ := ParameterPasses.appended_parameters E i P Q [] G1 false I hp
    simp only [List.nil_append] at h1
    rw [h1, h2]
  · cases G1 <;> rfl
  · intro hS
    obtain ⟨New, h1, h2⟩ := ParameterPasses.scope_grows E hS i P Q [] G1 false I hp
    simp only [List.nil_append] at h1
    rw [ScopeInfo_afterRAngle, whereStep_scope E hS fuel _ _ _ _ _ _ hw,
      ScopeInfo_invoke _ (hS.ident _), h2, h1]

/-- C14, on `<T, 5, U>` with the reference sub-parsers, the opening bracket at 0 consumed:
after the pass for `T` the name parse fails on `5`; the list returned holds `T` alone, and
the identifier `U` further on is skipped by the recovery, not parsed. -/
theorem parseGenericParameters_name_error_stops_witness :
    ParameterPasses Reference.env 1
      (Reference.start [⟨tok.identifier, "T", 1⟩, ⟨tok.comma, ",", 2⟩,
        ⟨tok.integer_literal, "5", 4⟩, ⟨tok.comma, ",", 5⟩, ⟨tok.identifier, "U", 7⟩,
        ⟨tok.oper_binary, ">", 8⟩] 9) [] false
      (Reference.state ⟨tok.integer_literal, "5", 4⟩
        [⟨tok.comma, ",", 5⟩, ⟨tok.identifier, "U", 7⟩, ⟨tok.oper_binary, ">", 8⟩] 9 []
        [⟨some 1, "T", some 1, none, 0, [], true⟩])
      [⟨some 1, "T", some 1, none, 0, [], true⟩] false ∧
    (([⟨some 1, "T", some 1, none, 0, [], true⟩] : List GenericParam).length = 1 ∧
     Parser.parseGenericParametersLoop Reference.env 7
        (Reference.start [⟨tok.identifier, "T", 1⟩, ⟨tok.comma, ",", 2⟩,
          ⟨tok.integer_literal, "5", 4⟩, ⟨tok.comma, ",", 5⟩, ⟨tok.identifier, "U", 7⟩,
          ⟨tok.oper_binary, ">", 8⟩] 9) [] false =
      .ok ([⟨some 1, "T", some 1, none, 0, [], true⟩], true,
        ((Reference.state ⟨tok.integer_literal, "5", 4⟩
          [⟨tok.comma, ",", 5⟩, ⟨tok.identifier, "U", 7⟩, ⟨tok.oper_binary, ">", 8⟩] 9 []
          [⟨some 1, "T", some 1, none, 0, [], true⟩]).invoke
          (Reference.env.parseIdentifier DiagID.expected_generics_parameter_name)).2) ∧
     ∃ Res P3, Parser.parseGenericParametersAt Reference.env 7 (some 0)
        (Reference.start [⟨tok.identifier, "T", 1⟩, ⟨tok.comma, ",", 2⟩,
          ⟨tok.integer_literal, "5", 4⟩, ⟨tok.comma, ",", 5⟩, ⟨tok.identifier, "U", 7⟩,
          ⟨tok.oper_binary, ">", 8⟩] 9) = .ok (Res, P3) ∧
      Res.map GenericParamList.Params =
        (if ([⟨some 1, "T", some 1, none, 0, [], true⟩] : List GenericParam).isEmpty then none
         else some [⟨some 1, "T", some 1, none, 0, [], true⟩]) ∧
      ((Reference.env : Env Unit).ScopePreserving → P3.ScopeInfo =
        (Reference.start [⟨tok.identifier, "T", 1⟩, ⟨tok.comma, ",", 2⟩,
          ⟨tok.integer_literal, "5", 4⟩, ⟨tok.comma, ",", 5⟩, ⟨tok.identifier, "U", 7⟩,
          ⟨tok.oper_binary, ">", 8⟩] 9).ScopeInfo ++
          [⟨some 1, "T", some 1, none, 0, [], true⟩])) ∧
    (Parser.parseGenericParametersAt Reference.env 7 (some 0)
        (Reference.start [⟨tok.identifier, "T", 1⟩, ⟨tok.comma, ",", 2⟩,
          ⟨tok.integer_literal, "5", 4⟩, ⟨tok.comma, ",", 5⟩, ⟨tok.identifier, "U", 7⟩,
          ⟨tok.oper_binary, ">", 8⟩] 9)).toOption.map
      (fun r => (r.1.map (fun L => L.Params.map TypeAliasDecl.Name),
        r.2.ScopeInfo.map TypeAliasDecl.Name, r.2.Diags, r.2.Tok.Kind)) =
      some (some ["T"], ["T"],
        [{ Loc := some 4, ID := DiagID.expected_generics_parameter_name, FixIts := [] }],
        tok.eof) :=
  have hp : ParameterPasses Reference.env 1
      (Reference.start [⟨tok.identifier, "T", 1⟩, ⟨tok.comma, ",", 2⟩,
        ⟨tok.integer_literal, "5", 4⟩, ⟨tok.comma, ",", 5⟩, ⟨tok.identifier, "U", 7⟩,
        ⟨tok.oper_binary, ">", 8⟩] 9) [] false
      (Reference.state ⟨tok.integer_literal, "5", 4⟩
        [⟨tok.comma, ",", 5⟩, ⟨tok.identifier, "U", 7⟩, ⟨tok.oper_binary, ">", 8⟩] 9 []
        [⟨some 1, "T", some 1, none, 0, [], true⟩])
      [⟨some 1, "T", some 1, none, 0, [], true⟩] false :=
    ParameterPasses.later 0 _
      (Reference.state ⟨tok.comma, ",", 2⟩
        [⟨tok.integer_literal, "5", 4⟩, ⟨tok.comma, ",", 5⟩, ⟨tok.identifier, "U", 7⟩,
         ⟨tok.oper_binary, ">", 8⟩] 9 [] [⟨some 1, "T", some 1, none, 0, [], true⟩])
      _ [] _ false false false ⟨some 1, "T", some 1, none, 0, [], true⟩ (by rfl) (by rfl)
      (ParameterPasses.here _ _ _)
  ⟨hp,
   parseGenericParameters_name_error_stops Reference.env Reference.forwardOnly_env 7 (some 0)
     _ _ 1 _ false (by decide) hp (by rfl),
   by decide⟩

/-- C15: a missing requirement delimiter.  When, in a pass of the loop of
`parseGenericWhereClause`, the left-hand type parses and the token after it is neither `:`
nor an operator spelled `==` nor the token `=`, the pass emits exactly one diagnostic,
"expected requirement delimiter" at that token, and leaves that token as the current one.
The loop ends there with the invalid flag and with the vector as the pass found it, so that
no requirement is appended for that left-hand type; and a call that comes to that pass after
`k` complete requirements returns the invalid flag with those `k` requirements appended. -/
theorem parseGenericWhereClause_missing_delimiter (E : Env σ) (P P1 : Parser σ)
    (Left : TypeRepr)
    (hl : P.invoke E.parseTypeIdentifier = (some Left, P1))
    (hc : P1.Tok.Kind ≠ tok.colon)
    (he : ¬ (P1.Tok.isAnyOperator = true ∧ P1.Tok.getText = "=="))
    (hq : P1.Tok.Kind ≠ tok.equal) :
    ∃ P2 : Parser σ,
      P2.Diags = P1.Diags ++
        [{ Loc := P1.Tok.getLoc, ID := DiagID.expected_requirement_delim, FixIts := [] }] ∧
      P2.Tok = P1.Tok ∧ P2.L = P1.L ∧ P2.ScopeInfo = P1.ScopeInfo ∧
      Parser.parseGenericWhereClauseBody E P = .ok (none, P2) ∧
      (∀ n R, Parser.parseGenericWhereClauseLoop E (n + 1) P R = .ok (true, R, P2)) ∧
      (∀ (P0 : Parser σ) (R0 R : List Requirement) (k fuel : Nat),
        P0.Tok.Kind = tok.kw_where → RequirementPasses E k P0.lex R0 P R → k < fuel →
        Parser.parseGenericWhereClause E fuel P0 R0 = .ok (true, P0.Tok.getLoc, R, P2) ∧
        ∃ New, R = R0 ++ New ∧ New.length = k) := by
  have hd : Parser.isSameTypeDelim P1.Tok = false := by
    have h1 : P1.Tok.is tok.equal = false := (is_false_iff _ _).2 hq
    cases ho : P1.Tok.isAnyOperator with
    | false => simp [Parser.isSameTypeDelim, ho, h1]
    | true =>
      have : P1.Tok.getText ≠ "==" := fun ht => he ⟨ho, ht⟩
      simp [Parser.isSameTypeDelim, ho, h1, this]
  have hb : Parser.parseGenericWhereClauseBody E P =
      .ok (none, P1.diagnose P1.Tok.getLoc DiagID.expected_requirement_delim []) := by
    unfold Parser.parseGenericWhereClauseBody
    rw [hl]
    have hc2 : P1.Tok.is tok.colon = false := (is_false_iff _ _).2 hc
    simp only [hc2, hd, Bool.false_eq_true, if_false]
  have hloop : ∀ n R, Parser.parseGenericWhereClauseLoop E (n + 1) P R =
      .ok (true, R, P1.diagnose P1.Tok.getLoc DiagID.expected_requirement_delim []) := by
    intro n R
    rw [whereLoop_succ, hb]
  refine ⟨P1.diagnose P1.Tok.getLoc DiagID.expected_requirement_delim [], rfl, rfl, rfl, rfl,
    hb, hloop, ?_⟩
  intro P0 R0 R k fuel hw hp hk
  refine ⟨?_, RequirementPasses.appended_requirements E k _ _ _ _ hp⟩
  have hne : P0.Tok.Kind ≠ tok.eof := by rw [hw]; decide
  obtain ⟨m, rfl⟩ : ∃ m, fuel = (m + 1) + k := ⟨fuel - k - 1, by omega⟩
  unfold Parser.parseGenericWhereClause Parser.consumeTokenOfKind
  simp only [(is_iff _ _).2 hw, if_true, consumeToken_eq P0 hne,
    whereLoop_passes_eq E k _ _ _ _ hp (m + 1), hloop]

/-- C15, on `where T == U , V 5` with the reference sub-parsers: after `T == U` and the comma
the type `V` is followed by `5`; the call returns the invalid flag and the one requirement,
the one diagnostic is at `5`, and `5` is still the current token. -/
theorem parseGenericWhereClause_missing_delimiter_witness :
    (Reference.state ⟨tok.identifier, "V", 14⟩ [⟨tok.integer_literal, "5", 16⟩] 17 []
        []).invoke Reference.env.parseTypeIdentifier =
      (some ⟨14, ["V"], false⟩,
        Reference.state ⟨tok.integer_literal, "5", 16⟩ [] 17 [] []) ∧
    (∃ P2 : Parser Unit,
      P2.Diags = (Reference.state ⟨tok.integer_literal, "5", 16⟩ [] 17 [] []).Diags ++
        [{ Loc := (Reference.state ⟨tok.integer_literal, "5", 16⟩ [] 17 [] []).Tok.getLoc,
           ID := DiagID.expected_requirement_delim, FixIts := [] }] ∧
      P2.Tok = (Reference.state ⟨tok.integer_literal, "5", 16⟩ [] 17 [] []).Tok ∧
      P2.L = (Reference.state ⟨tok.integer_literal, "5", 16⟩ [] 17 [] []).L ∧
      P2.ScopeInfo = (Reference.state ⟨tok.integer_literal, "5", 16⟩ [] 17 [] []).ScopeInfo ∧
      Parser.parseGenericWhereClauseBody Reference.env
        (Reference.state ⟨tok.identifier, "V", 14⟩ [⟨tok.integer_literal, "5", 16⟩] 17 []
          []) = .ok (none, P2) ∧
      (∀ n R, Parser.parseGenericWhereClauseLoop Reference.env (n + 1)
        (Reference.state ⟨tok.identifier, "V", 14⟩ [⟨tok.integer_literal, "5", 16⟩] 17 []
          []) R = .ok (true, R, P2)) ∧
      (∀ (P0 : Parser Unit) (R0 R : List Requirement) (k fuel : Nat),
        P0.Tok.Kind = tok.kw_where →
        RequirementPasses Reference.env k P0.lex R0
          (Reference.state ⟨tok.identifier, "V", 14⟩ [⟨tok.integer_literal, "5", 16⟩] 17 []
            []) R →
        k < fuel →
        Parser.parseGenericWhereClause Reference.env fuel P0 R0 =
          .ok (true, P0.Tok.getLoc, R, P2) ∧
        ∃ New, R = R0 ++ New ∧ New.length = k)) ∧
    RequirementPasses Reference.env 1
      (Reference.start [⟨tok.kw_where, "where", 0⟩, ⟨tok.identifier, "T", 6⟩,
        ⟨tok.oper_binary, "==", 8⟩, ⟨tok.identifier, "U", 11⟩, ⟨tok.comma, ",", 12⟩,
        ⟨tok.identifier, "V", 14⟩, ⟨tok.integer_literal, "5", 16⟩] 17).lex []
      (Reference.state ⟨tok.identifier, "V", 14⟩ [⟨tok.integer_literal, "5", 16⟩] 17 [] [])
      [Requirement.SameType ⟨6, ["T"], false⟩ (some 8) ⟨11, ["U"], false⟩] ∧
    (Parser.parseGenericWhereClause Reference.env 2
        (Reference.start [⟨tok.kw_where, "where", 0⟩, ⟨tok.identifier, "T", 6⟩,
          ⟨tok.oper_binary, "==", 8⟩, ⟨tok.identifier, "U", 11⟩, ⟨tok.comma, ",", 12⟩,
          ⟨tok.identifier, "V", 14⟩, ⟨tok.integer_literal, "5", 16⟩] 17) []).toOption.map
      (fun r => (r.1, r.2.2.1, r.2.2.2.Diags, r.2.2.2.Tok)) =
      some (true, [Requirement.SameType ⟨6, ["T"], false⟩ (some 8) ⟨11, ["U"], false⟩],
        [{ Loc := some 16, ID := DiagID.expected_requirement_delim, FixIts := [] }],
        ⟨tok.integer_literal, "5", 16⟩) :=
  ⟨by rfl,
   parseGenericWhereClause_missing_delimiter Reference.env
     (Reference.state ⟨tok.identifier, "V", 14⟩ [⟨tok.integer_literal, "5", 16⟩] 17 [] [])
     (Reference.state ⟨tok.integer_literal, "5", 16⟩ [] 17 [] [])
     ⟨14, ["V"], false⟩ (by rfl) (by decide) (by decide) (by decide),
   RequirementPasses.later 0 _
     (Reference.state ⟨tok.comma, ",", 12⟩
       [⟨tok.identifier, "V", 14⟩, ⟨tok.integer_literal, "5", 16⟩] 17 [] [])
     _ [] _ (Requirement.SameType ⟨6, ["T"], false⟩ (some 8) ⟨11, ["U"], false⟩)
     (by rfl) (by rfl) (RequirementPasses.here _ _),
   by decide⟩

/-- C16 (with the cursor helpers `skipUntilAnyOperator`, `startsWithGreater` and
`consumeStartingGreater` modelled from the spec): the close location on the recovery path.
With a forward-only cursor and enough fuel the call returns.  When the token `P2.Tok` at the
close position does not begin with `>`, the cursor skips tokens that are neither operators
nor the end of input and stops on `S.Tok`, the first token of an operator kind, or the end of
input.  If `S.Tok` begins with `>`, its location is the close location and its `>` is
consumed: a token that is just `>` is passed, and otherwise the rest of the lexeme is left as
the current token.  If not, the close location is the location of `S.Tok`, and the parser
returned is the one that stopped there, `S.Tok` still being its current token.  Either way
the close location of a returned list is populated. -/
theorem parseGenericParameters_close_location_after_skip (E : Env σ) (hE : E.ForwardOnly)
    (fuel : Nat) (LAngleLoc : SourceLoc) (P : Parser σ) (hf : P.remaining < fuel) :
    ∃ G I P1 W R I1 P2,
      Parser.parseGenericParametersLoop E fuel P [] false = .ok (G, I, P1) ∧
      Parser.parseGenericParametersWhere E fuel P1 I = .ok (W, R, I1, P2) ∧
      (startsWithGreater P2.Tok = false →
        ∃ (Skipped : List Token) (S : Parser σ) (Res : Option GenericParamList) (P3 : Parser σ),
          S = (P2.diagnoseMissingRAngle LAngleLoc I1).skipUntilAnyOperator ∧
          (∀ T ∈ Skipped, T.Kind ≠ tok.eof ∧ T.isAnyOperator = false) ∧
          (S.Tok.is tok.eof || S.Tok.isAnyOperator) = true ∧
          (P2.Tok :: P2.L.pending = Skipped ++ S.Tok :: S.L.pending ∨
            (P2.Tok :: P2.L.pending = Skipped ∧
              S.Tok = { Kind := tok.eof, Text := "", Loc := P2.L.bufferEnd } ∧
              S.L.pending = [])) ∧
          Parser.parseGenericParametersAt E fuel LAngleLoc P = .ok (Res, P3) ∧
          (∀ L, Res = some L → L.RAngleLoc = S.Tok.getLoc ∧ L.RAngleLoc.isValid = true) ∧
          (startsWithGreater S.Tok = true →
            (S.Tok.getLength = 1 → P3 = S.lex) ∧
            (S.Tok.getLength ≠ 1 →
              S.Tok.getText.data = '>' :: P3.Tok.Text.data ∧
              P3.Tok.Loc = S.Tok.Loc + 1 ∧
              P3.Tok.Kind = E.getTokenKind P3.Tok.Text ∧
              P3.L = S.L)) ∧
          (startsWithGreater S.Tok = false → P3 = S)) := by
  obtain ⟨G, I, P1, W, R, I1, P2, hl, hw, _, h⟩ := parametersAt_spec E hE fuel LAngleLoc P hf
  refine ⟨G, I, P1, W, R, I1, P2, hl, hw, ?_⟩
  intro hg
  obtain ⟨Skipped, hs1, hs2⟩ := skipUntilAnyOperator_skipped
    (P2.diagnoseMissingRAngle LAngleLoc I1)
  rw [Tok_diagnoseMissingRAngle, L_diagnoseMissingRAngle] at hs2
  refine ⟨Skipped, _, _, _, rfl, hs1, skipUntilAnyOperator_stops _, hs2, h, ?_, ?_, ?_⟩
  · intro L hL
    split at hL
    · cases hL
    · cases hL
      simp [hg, SourceLoc.isValid, Token.getLoc]
  · intro hS
    constructor
    · intro h1
      simp only [afterRAngle, hg, Bool.false_eq_true, if_false, hS, if_true, h1]
    · intro h1
      have : afterRAngle E P2 LAngleLoc I1 =
          (P2.diagnoseMissingRAngle LAngleLoc I1).skipUntilAnyOperator.splitFirstChar E := by
        simp only [afterRAngle, hg, Bool.false_eq_true, if_false, hS, if_true, h1]
      rw [this]
      exact ⟨startsWithGreater_data _ hS, rfl, rfl, rfl⟩
  · intro hS
    simp only [afterRAngle, hg, Bool.false_eq_true, if_false, hS]

/-- C16, with the reference sub-parsers, the opening bracket at 0 consumed.  On `T x 1 >= y`
the skip passes `x` and `1`, the `>` of `>=` at 7 is consumed and `=` is left; on `T x + y`
it stops on `+` at 5, which stays the current token; on `T x` it stops on the end of input
at 4. -/
theorem parseGenericParameters_close_location_after_skip_witness :
    (Reference.start [⟨tok.identifier, "T", 1⟩, ⟨tok.identifier, "x", 3⟩,
          ⟨tok.integer_literal, "1", 5⟩, ⟨tok.oper_binary, ">=", 7⟩, ⟨tok.identifier, "y", 10⟩] 11).remaining < 6 ∧
    (∃ G I P1 W R I1 P2,
      Parser.parseGenericParametersLoop Reference.env 6
        (Reference.start [⟨tok.identifier, "T", 1⟩, ⟨tok.identifier, "x", 3⟩,
          ⟨tok.integer_literal, "1", 5⟩, ⟨tok.oper_binary, ">=", 7⟩, ⟨tok.identifier, "y", 10⟩] 11) [] false = .ok (G, I, P1) ∧
      Parser.parseGenericParametersWhere Reference.env 6 P1 I = .ok (W, R, I1, P2) ∧
      (startsWithGreater P2.Tok = false →
        ∃ (Skipped : List Token) (S : Parser Unit) (Res : Option GenericParamList)
          (P3 : Parser Unit),
          S = (P2.diagnoseMissingRAngle (some 0) I1).skipUntilAnyOperator ∧
          (∀ T ∈ Skipped, T.Kind ≠ tok.eof ∧ T.isAnyOperator = false) ∧
          (S.Tok.is tok.eof || S.Tok.isAnyOperator) = true ∧
          (P2.Tok :: P2.L.pending = Skipped ++ S.Tok :: S.L.pending ∨
            (P2.Tok :: P2.L.pending = Skipped ∧
              S.Tok = { Kind := tok.eof, Text := "", Loc := P2.L.bufferEnd } ∧
              S.L.pending = [])) ∧
          Parser.parseGenericParametersAt Reference.env 6 (some 0)
            (Reference.start [⟨tok.identifier, "T", 1⟩, ⟨tok.identifier, "x", 3⟩,
          ⟨tok.integer_literal, "1", 5⟩, ⟨tok.oper_binary, ">=", 7⟩, ⟨tok.identifier, "y", 10⟩] 11) = .ok (Res, P3) ∧
          (∀ L, Res = some L → L.RAngleLoc = S.Tok.getLoc ∧ L.RAngleLoc.isValid = true) ∧
          (startsWithGreater S.Tok = true →
            (S.Tok.getLength = 1 → P3 = S.lex) ∧
            (S.Tok.getLength ≠ 1 →
              S.Tok.getText.data = '>' :: P3.Tok.Text.data ∧
              P3.Tok.Loc = S.Tok.Loc + 1 ∧
              P3.Tok.Kind = (Reference.env : Env Unit).getTokenKind P3.Tok.Text ∧
              P3.L = S.L)) ∧
          (startsWithGreater S.Tok = false → P3 = S))) ∧
    (Parser.parseGenericParametersAt Reference.env 6 (some 0)
        (Reference.start [⟨tok.identifier, "T", 1⟩, ⟨tok.identifier, "x", 3⟩,
          ⟨tok.integer_literal, "1", 5⟩, ⟨tok.oper_binary, ">=", 7⟩, ⟨tok.identifier, "y", 10⟩] 11)).toOption.map
      (fun r => (r.1.map GenericParamList.RAngleLoc, r.2.Tok, r.2.L.pending)) =
      some (some (some 7), ⟨tok.equal, "=", 8⟩, [⟨tok.identifier, "y", 10⟩]) ∧
    (Parser.parseGenericParametersAt Reference.env 6 (some 0)
        (Reference.start [⟨tok.identifier, "T", 1⟩, ⟨tok.identifier, "x", 3⟩,
          ⟨tok.oper_binary, "+", 5⟩, ⟨tok.identifier, "y", 7⟩] 8)).toOption.map
      (fun r => (r.1.map GenericParamList.RAngleLoc, r.2.Tok, r.2.L.pending)) =
      some (some (some 5), ⟨tok.oper_binary, "+", 5⟩, [⟨tok.identifier, "y", 7⟩]) ∧
    (Parser.parseGenericParametersAt Reference.env 6 (some 0)
        (Reference.start [⟨tok.identifier, "T", 1⟩, ⟨tok.identifier, "x", 3⟩] 4)).toOption.map
      (fun r => (r.1.map GenericParamList.RAngleLoc, r.2.Tok, r.2.L.pending)) =
      some (some (some 4), ⟨tok.eof, "", 4⟩, []) :=
  ⟨by decide,
   parseGenericParameters_close_location_after_skip Reference.env Reference.forwardOnly_env 6
     (some 0) (Reference.start [⟨tok.identifier, "T", 1⟩, ⟨tok.identifier, "x", 3⟩,
          ⟨tok.integer_literal, "1", 5⟩, ⟨tok.oper_binary, ">=", 7⟩, ⟨tok.identifier, "y", 10⟩] 11) (by decide),
   by decide, by decide, by decide⟩

/-- C17: every parameter of every list returned has no or one inherited constraint.  Let
`parseGenericParameters(SourceLoc)` return a list and let `p` be its parameter number `i`
(from 0).  Then `p` was built by the pass the loop came to after `i` passes; its name is the
one the name sub-parser returned there; it has at most one constraint; and its constraints
are exactly `[T]` if and only if the name was followed by `:` and then either by an
identifier on which `parseTypeIdentifier` returned `T`, or by the `protocol` keyword on which
`parseTypeComposition` returned `T`. -/
theorem parseGenericParameters_inherited_zero_or_one (E : Env σ) (fuel : Nat)
    (LAngleLoc : SourceLoc) (P P3 : Parser σ) (L : GenericParamList)
    (h : Parser.parseGenericParametersAt E fuel LAngleLoc P = .ok (some L, P3)) :
    ∀ (i : Nat) (p : GenericParam), L.Params[i]? = some p →
      p.Inherited.length ≤ 1 ∧
      ∃ Q Gq Iq Name NameLoc Q1,
        ParameterPasses E i P [] false Q Gq Iq ∧
        Q.invoke (E.parseIdentifier DiagID.expected_generics_parameter_name) =
          (some (Name, NameLoc), Q1) ∧
        p.Name = Name ∧ p.NameLoc = NameLoc ∧
        ∀ T, p.Inherited = [T] ↔
          (Q1.Tok.Kind = tok.colon ∧
            ((Q1.lex.Tok.Kind = tok.identifier ∧
                (Q1.lex.invoke E.parseTypeIdentifier).1 = some T) ∨
             (Q1.lex.Tok.Kind = tok.kw_protocol ∧
                (Q1.lex.invoke E.parseTypeComposition).1 = some T))) := by
  intro i p hp
  obtain ⟨I, P1, hl⟩ := parametersAt_ok_params E fuel LAngleLoc P P3 L h
  have hp2 : L.Params[([] : List GenericParam).length + i]? = some p := by
    simpa using hp
  obtain ⟨Q, Gq, Iq, I2, Q2, hpass, hbody⟩ := paramLoop_built E fuel P [] false _ _ _ hl i p hp2
  obtain ⟨Name, NameLoc, Q1, hn, h1, h2, h3, h4⟩ := paramBody_inherited E Q Iq p I2 Q2 hbody
  exact ⟨h3, Q, Gq, Iq, Name, NameLoc, Q1, hpass, hn, h1, h2, h4⟩

/-- C17, on `T : X , U , V : protocol 5 >` after the opening bracket at 0, with the reference
sub-parsers: `T` has the constraint `X`, `U` has no colon and no constraint, and `V` has
none because the composition parser fails on `protocol 5`. -/
theorem parseGenericParameters_inherited_zero_or_one_witness :
    Parser.parseGenericParametersAt Reference.env 12 (some 0)
        (Reference.start [⟨tok.identifier, "T", 1⟩, ⟨tok.colon, ":", 3⟩,
          ⟨tok.identifier, "X", 5⟩, ⟨tok.comma, ",", 6⟩, ⟨tok.identifier, "U", 8⟩,
          ⟨tok.comma, ",", 9⟩, ⟨tok.identifier, "V", 11⟩, ⟨tok.colon, ":", 13⟩,
          ⟨tok.kw_protocol, "protocol", 15⟩, ⟨tok.integer_literal, "5", 24⟩,
          ⟨tok.oper_binary, ">", 26⟩] 27) =
      .ok (some ⟨some 0,
          [⟨some 1, "T", some 1, none, 0, [⟨5, ["X"], false⟩], true⟩,
           ⟨some 8, "U", some 8, none, 0, [], true⟩,
           ⟨some 11, "V", some 11, none, 0, [], true⟩],
          none, [], some 26⟩,
        (Reference.state ⟨tok.eof, "", 27⟩ [] 27
          [{ Loc := some 15, ID := DiagID.other 1, FixIts := [] },
           { Loc := some 15, ID := DiagID.expected_rangle_generics_param, FixIts := [] },
           { Loc := some 0, ID := DiagID.opening_angle, FixIts := [] }]
          [⟨some 1, "T", some 1, none, 0, [⟨5, ["X"], false⟩], true⟩,
           ⟨some 8, "U", some 8, none, 0, [], true⟩,
           ⟨some 11, "V", some 11, none, 0, [], true⟩])) ∧
    (∀ (i : Nat) (p : GenericParam),
      (⟨some 0,
          [⟨some 1, "T", some 1, none, 0, [⟨5, ["X"], false⟩], true⟩,
           ⟨some 8, "U", some 8, none, 0, [], true⟩,
           ⟨some 11, "V", some 11, none, 0, [], true⟩],
          none, [], some 26⟩ : GenericParamList).Params[i]? = some p →
      p.Inherited.length ≤ 1 ∧
      ∃ Q Gq Iq Name NameLoc Q1,
        ParameterPasses Reference.env i
          (Reference.start [⟨tok.identifier, "T", 1⟩, ⟨tok.colon, ":", 3⟩,
          ⟨tok.identifier, "X", 5⟩, ⟨tok.comma, ",", 6⟩, ⟨tok.identifier, "U", 8⟩,
          ⟨tok.comma, ",", 9⟩, ⟨tok.identifier, "V", 11⟩, ⟨tok.colon, ":", 13⟩,
          ⟨tok.kw_protocol, "protocol", 15⟩, ⟨tok.integer_literal, "5", 24⟩,
          ⟨tok.oper_binary, ">", 26⟩] 27) [] false Q Gq Iq ∧
        Q.invoke (Reference.env.parseIdentifier DiagID.expected_generics_parameter_name) =
          (some (Name, NameLoc), Q1) ∧
        p.Name = Name ∧ p.NameLoc = NameLoc ∧
        ∀ T, p.Inherited = [T] ↔
          (Q1.Tok.Kind = tok.colon ∧
            ((Q1.lex.Tok.Kind = tok.identifier ∧
                (Q1.lex.invoke Reference.env.parseTypeIdentifier).1 = some T) ∨
             (Q1.lex.Tok.Kind = tok.kw_protocol ∧
                (Q1.lex.invoke Reference.env.parseTypeComposition).1 = some T)))) ∧
    (Parser.parseGenericParametersAt Reference.env 12 (some 0)
        (Reference.start [⟨tok.identifier, "T", 1⟩, ⟨tok.colon, ":", 3⟩,
          ⟨tok.identifier, "X", 5⟩, ⟨tok.comma, ",", 6⟩, ⟨tok.identifier, "U", 8⟩,
          ⟨tok.comma, ",", 9⟩, ⟨tok.identifier, "V", 11⟩, ⟨tok.colon, ":", 13⟩,
          ⟨tok.kw_protocol, "protocol", 15⟩, ⟨tok.integer_literal, "5", 24⟩,
          ⟨tok.oper_binary, ">", 26⟩] 27)).toOption.map
      (fun r => r.1.map (fun L => L.Params.map (fun p => (p.Name, p.Inherited)))) =
      some (some [("T", [⟨5, ["X"], false⟩]), ("U", []), ("V", [])]) :=
  ⟨by rfl,
   parseGenericParameters_inherited_zero_or_one Reference.env 12 (some 0)
     (Reference.start [⟨tok.identifier, "T", 1⟩, ⟨tok.colon, ":", 3⟩,
          ⟨tok.identifier, "X", 5⟩, ⟨tok.comma, ",", 6⟩, ⟨tok.identifier, "U", 8⟩,
          ⟨tok.comma, ",", 9⟩, ⟨tok.identifier, "V", 11⟩, ⟨tok.colon, ":", 13⟩,
          ⟨tok.kw_protocol, "protocol", 15⟩, ⟨tok.integer_literal, "5", 24⟩,
          ⟨tok.oper_binary, ">", 26⟩] 27)
     (Reference.state ⟨tok.eof, "", 27⟩ [] 27
          [{ Loc := some 15, ID := DiagID.other 1, FixIts := [] },
           { Loc := some 15, ID := DiagID.expected_rangle_generics_param, FixIts := [] },
           { Loc := some 0, ID := DiagID.opening_angle, FixIts := [] }]
          [⟨some 1, "T", some 1, none, 0, [⟨5, ["X"], false⟩], true⟩,
           ⟨some 8, "U", some 8, none, 0, [], true⟩,
           ⟨some 11, "V", some 11, none, 0, [], true⟩])
     ⟨some 0,
          [⟨some 1, "T", some 1, none, 0, [⟨5, ["X"], false⟩], true⟩,
           ⟨some 8, "U", some 8, none, 0, [], true⟩,
           ⟨some 11, "V", some 11, none, 0, [], true⟩],
          none, [], some 26⟩ (by rfl),
   by decide⟩

/-- C18: no parameter, but a where-clause.  When the first name parse fails and leaves the
cursor on the `where` keyword, `parseGenericParameters(SourceLoc)`, with a forward-only
cursor and enough fuel, runs the where-clause parser from there, with an empty vector, and
then the closing-bracket step, with the validity flag set, on the parser the where-clause
left; the parser it returns is the one that step returns, so that what the two consumed is
consumed and what the where-clause emitted is in the sink (the closing step adds nothing,
an error being recorded).  The result is absence, whatever requirements were parsed, and with
sub-parsers that register nothing the scope is the one the call found. -/
theorem parseGenericParameters_where_without_parameters (E : Env σ) (hE : E.ForwardOnly)
    (fuel : Nat) (LAngleLoc : SourceLoc) (P : Parser σ) (hf : P.remaining < fuel)
    (hn : (P.invoke (E.parseIdentifier DiagID.expected_generics_parameter_name)).1 = none)
    (hw : (P.invoke (E.parseIdentifier DiagID.expected_generics_parameter_name)).2.Tok.Kind =
      tok.kw_where) :
    ∃ I W R P2 RAngleLoc P3,
      Parser.parseGenericWhereClause E fuel
        (P.invoke (E.parseIdentifier DiagID.expected_generics_parameter_name)).2 [] =
        .ok (I, W, R, P2) ∧
      Parser.parseGenericParametersRAngle E P2 LAngleLoc true = .ok (RAngleLoc, P3) ∧
      Parser.parseGenericParametersAt E fuel LAngleLoc P = .ok (none, P3) ∧
      P3.Diags = P2.Diags ∧
      (E.ScopePreserving → P3.ScopeInfo = P.ScopeInfo) := by
  have hle := remaining_invoke_le _ (hE.ident DiagID.expected_generics_parameter_name) P
  obtain ⟨I, R, P2, hwc, _⟩ := whereClause_total E hE fuel _ [] hw (by omega)
  obtain ⟨n, rfl⟩ : ∃ n, fuel = n + 1 := ⟨fuel - 1, by omega⟩
  refine ⟨I, _, R, P2, _, _, hwc, rangle_eq E P2 LAngleLoc true, ?_, ?_, ?_⟩
  · unfold Parser.parseGenericParametersAt
    rw [paramLoop_name_fails E n P [] false hn]
    simp only [Parser.parseGenericParametersWhere, (is_iff _ _).2 hw, if_true, hwc,
      Bool.or_true, rangle_eq]
    rfl
  · rw [Diags_afterRAngle]; simp
  · intro hS
    obtain ⟨_, _, hl⟩ := whereClause_ok E (n + 1) _ [] _ _ _ _ hwc
    rw [ScopeInfo_afterRAngle, whereLoop_scope E hS (n + 1) _ [] _ _ _ hl, ScopeInfo_lex,
      ScopeInfo_invoke _ (hS.ident _)]

/-- C18, on `<where T == U>` with the reference sub-parsers, the opening bracket at 0
consumed: the name parse fails on `where`, the where-clause parses `T == U`, the bracket is
consumed, and the result is absence with an empty scope. -/
theorem parseGenericParameters_where_without_parameters_witness :
    (Reference.start [⟨tok.kw_where, "where", 1⟩, ⟨tok.identifier, "T", 7⟩,
        ⟨tok.oper_binary, "==", 9⟩, ⟨tok.identifier, "U", 12⟩,
        ⟨tok.oper_binary, ">", 13⟩] 14).remaining < 6 ∧
    (∃ I W R P2 RAngleLoc P3,
      Parser.parseGenericWhereClause Reference.env 6
        ((Reference.start [⟨tok.kw_where, "where", 1⟩, ⟨tok.identifier, "T", 7⟩,
          ⟨tok.oper_binary, "==", 9⟩, ⟨tok.identifier, "U", 12⟩,
          ⟨tok.oper_binary, ">", 13⟩] 14).invoke
          (Reference.env.parseIdentifier DiagID.expected_generics_parameter_name)).2 [] =
        .ok (I, W, R, P2) ∧
      Parser.parseGenericParametersRAngle Reference.env P2 (some 0) true =
        .ok (RAngleLoc, P3) ∧
      Parser.parseGenericParametersAt Reference.env 6 (some 0)
        (Reference.start [⟨tok.kw_where, "where", 1⟩, ⟨tok.identifier, "T", 7⟩,
          ⟨tok.oper_binary, "==", 9⟩, ⟨tok.identifier, "U", 12⟩,
          ⟨tok.oper_binary, ">", 13⟩] 14) = .ok (none, P3) ∧
      P3.Diags = P2.Diags ∧
      ((Reference.env : Env Unit).ScopePreserving → P3.ScopeInfo =
        (Reference.start [⟨tok.kw_where, "where", 1⟩, ⟨tok.identifier, "T", 7⟩,
          ⟨tok.oper_binary, "==", 9⟩, ⟨tok.identifier, "U", 12⟩,
          ⟨tok.oper_binary, ">", 13⟩] 14).ScopeInfo)) ∧
    (Parser.parseGenericWhereClause Reference.env 6
        ((Reference.start [⟨tok.kw_where, "where", 1⟩, ⟨tok.identifier, "T", 7⟩,
          ⟨tok.oper_binary, "==", 9⟩, ⟨tok.identifier, "U", 12⟩,
          ⟨tok.oper_binary, ">", 13⟩] 14).invoke
          (Reference.env.parseIdentifier DiagID.expected_generics_parameter_name)).2
        []).toOption.map (fun r => (r.1, r.2.2.1)) =
      some (false, [Requirement.SameType ⟨7, ["T"], false⟩ (some 9) ⟨12, ["U"], false⟩]) ∧
    (Parser.parseGenericParametersAt Reference.env 6 (some 0)
        (Reference.start [⟨tok.kw_where, "where", 1⟩, ⟨tok.identifier, "T", 7⟩,
          ⟨tok.oper_binary, "==", 9⟩, ⟨tok.identifier, "U", 12⟩,
          ⟨tok.oper_binary, ">", 13⟩] 14)).toOption.map
      (fun r => (r.1, r.2.Tok, r.2.Diags, r.2.ScopeInfo)) =
      some (none, ⟨tok.eof, "", 14⟩,
        [{ Loc := some 1, ID := DiagID.expected_generics_parameter_name, FixIts := [] }], []) :=
  ⟨by decide,
   parseGenericParameters_where_without_parameters Reference.env Reference.forwardOnly_env 6
     (some 0)
     (Reference.start [⟨tok.kw_where, "where", 1⟩, ⟨tok.identifier, "T", 7⟩,
       ⟨tok.oper_binary, "==", 9⟩, ⟨tok.identifier, "U", 12⟩,
       ⟨tok.oper_binary, ">", 13⟩] 14) (by decide) (by rfl) (by rfl),
   by decide, by decide⟩

/-- C3: leniency.  Take a where-clause in which the loop comes to test, as the delimiter of a
requirement, the assignment token `=` at `loc` that has `k` tokens behind it, and the same
stream with the operator `==` in the place of that token.  Assume of the type sub-parsers
only this: each call that the run makes before that `=` is consumed returns, on the second
stream, the same type and leaves the cursor at the same place.  Then
`parseGenericWhereClause` returns on both with the same flag, the same where-location and the
same requirements; the parsers it leaves differ only in their diagnostics, and those of the
first run are those of the second with exactly one more, the "single equal" diagnostic at
`loc` whose fix-it replaces that token by `==`. -/
theorem parseGenericWhereClause_single_equal_lenient (E : Env σ) (hE : E.ForwardOnly)
    (k loc : Nat) (fuel : Nat) (P : Parser σ)
    (R0 : List Requirement) (hw : P.Tok.Kind = tok.kw_where) (hf : P.remaining ≤ fuel)
    (hd : SingleEqualDelimiter E k loc P.lex) (hU : RespellUnnoticed E k P.lex) :
    ∃ I W R1 P2 Pre Post,
      Parser.parseGenericWhereClause E fuel P R0 =
        .ok (I, W, R1, { P2 with Diags := Pre ++ singleEqualDiagnostic loc :: Post }) ∧
      Parser.parseGenericWhereClause E fuel (P.respell k) R0 = .ok (I, W, R1, P2) ∧
      P2.Diags = Pre ++ Post := by
  have hne : P.Tok.Kind ≠ tok.eof := by rw [hw]; decide
  have hlt := remaining_lex_lt P hne
  have hw2 : (P.respell k).Tok.Kind = tok.kw_where :=
    (Tok_respell_Kind_iff k P tok.kw_where (by decide) (by decide)).2 hw
  have hne2 : (P.respell k).Tok.Kind ≠ tok.eof := by rw [hw2]; decide
  obtain ⟨I, R1, P2, Pre, Post, h1, h2, h3⟩ :=
    whereLoop_lenient E hE k loc P.lex hd hU fuel R0 (by omega)
  refine ⟨I, P.Tok.getLoc, R1, P2, Pre, Post, ?_, ?_, h3⟩
  · unfold parseGenericWhereClause consumeTokenOfKind
    simp only [(is_iff _ _).2 hw, if_true, consumeToken_eq P hne, h1]
  · unfold parseGenericWhereClause consumeTokenOfKind
    simp only [(is_iff _ _).2 hw2, if_true, consumeToken_eq _ hne2, lex_respell, h2]
    have : (P.respell k).Tok.getLoc = P.Tok.getLoc := by
      unfold Token.getLoc
      rw [Tok_respell_Loc]
    rw [this]

/-- C3, on `where A : B , T = U >` with the recovering sub-parsers, which would tell `=`
from `==` where they fail: the `=` at location 14 has two tokens behind it, the three calls
made before it is consumed (for `A`, `B` and `T`) do not notice the respelling, and with `==`
there the run is the same but for the one diagnostic. -/
theorem parseGenericWhereClause_single_equal_lenient_witness :
    RespellUnnoticed Reference.recoveringEnv 2
      (Reference.start [⟨tok.kw_where, "where", 0⟩, ⟨tok.identifier, "A", 6⟩,
          ⟨tok.colon, ":", 8⟩, ⟨tok.identifier, "B", 10⟩, ⟨tok.comma, ",", 11⟩,
          ⟨tok.identifier, "T", 12⟩, ⟨tok.equal, "=", 14⟩, ⟨tok.identifier, "U", 16⟩,
          ⟨tok.oper_binary, ">", 17⟩] 18).lex ∧
    (∃ I W R1 P2 Pre Post,
      Parser.parseGenericWhereClause Reference.recoveringEnv 10
        (Reference.start [⟨tok.kw_where, "where", 0⟩, ⟨tok.identifier, "A", 6⟩,
          ⟨tok.colon, ":", 8⟩, ⟨tok.identifier, "B", 10⟩, ⟨tok.comma, ",", 11⟩,
          ⟨tok.identifier, "T", 12⟩, ⟨tok.equal, "=", 14⟩, ⟨tok.identifier, "U", 16⟩,
          ⟨tok.oper_binary, ">", 17⟩] 18) [] =
        .ok (I, W, R1, { P2 with Diags := Pre ++ singleEqualDiagnostic 14 :: Post }) ∧
      Parser.parseGenericWhereClause Reference.recoveringEnv 10
        ((Reference.start [⟨tok.kw_where, "where", 0⟩, ⟨tok.identifier, "A", 6⟩,
          ⟨tok.colon, ":", 8⟩, ⟨tok.identifier, "B", 10⟩, ⟨tok.comma, ",", 11⟩,
          ⟨tok.identifier, "T", 12⟩, ⟨tok.equal, "=", 14⟩, ⟨tok.identifier, "U", 16⟩,
          ⟨tok.oper_binary, ">", 17⟩] 18).respell 2) [] = .ok (I, W, R1, P2) ∧
      P2.Diags = Pre ++ Post) ∧
    ((Reference.start [⟨tok.kw_where, "where", 0⟩, ⟨tok.identifier, "A", 6⟩,
          ⟨tok.colon, ":", 8⟩, ⟨tok.identifier, "B", 10⟩, ⟨tok.comma, ",", 11⟩,
          ⟨tok.identifier, "T", 12⟩, ⟨tok.equal, "=", 14⟩, ⟨tok.identifier, "U", 16⟩,
          ⟨tok.oper_binary, ">", 17⟩] 18).respell 2).L.pending =
      [⟨tok.identifier, "A", 6⟩, ⟨tok.colon, ":", 8⟩, ⟨tok.identifier, "B", 10⟩,
        ⟨tok.comma, ",", 11⟩, ⟨tok.identifier, "T", 12⟩, ⟨tok.oper_binary, "==", 14⟩,
        ⟨tok.identifier, "U", 16⟩, ⟨tok.oper_binary, ">", 17⟩] ∧
    (Parser.parseGenericWhereClause Reference.recoveringEnv 10
        (Reference.start [⟨tok.kw_where, "where", 0⟩, ⟨tok.identifier, "A", 6⟩,
          ⟨tok.colon, ":", 8⟩, ⟨tok.identifier, "B", 10⟩, ⟨tok.comma, ",", 11⟩,
          ⟨tok.identifier, "T", 12⟩, ⟨tok.equal, "=", 14⟩, ⟨tok.identifier, "U", 16⟩,
          ⟨tok.oper_binary, ">", 17⟩] 18) []).toOption.map
      (fun r => (r.1, r.2.2.1, r.2.2.2.Diags)) =
      some (false,
        [Requirement.Conformance ⟨6, ["A"], false⟩ (some 8) ⟨10, ["B"], false⟩,
         Requirement.SameType ⟨12, ["T"], false⟩ (some 14) ⟨16, ["U"], false⟩],
        [singleEqualDiagnostic 14]) ∧
    (Parser.parseGenericWhereClause Reference.recoveringEnv 10
        ((Reference.start [⟨tok.kw_where, "where", 0⟩, ⟨tok.identifier, "A", 6⟩,
          ⟨tok.colon, ":", 8⟩, ⟨tok.identifier, "B", 10⟩, ⟨tok.comma, ",", 11⟩,
          ⟨tok.identifier, "T", 12⟩, ⟨tok.equal, "=", 14⟩, ⟨tok.identifier, "U", 16⟩,
          ⟨tok.oper_binary, ">", 17⟩] 18).respell 2) []).toOption.map
      (fun r => (r.1, r.2.2.1, r.2.2.2.Diags)) =
      some (false,
        [Requirement.Conformance ⟨6, ["A"], false⟩ (some 8) ⟨10, ["B"], false⟩,
         Requirement.SameType ⟨12, ["T"], false⟩ (some 14) ⟨16, ["U"], false⟩],
        []) :=
  have hU : RespellUnnoticed Reference.recoveringEnv 2
      (Reference.start [⟨tok.kw_where, "where", 0⟩, ⟨tok.identifier, "A", 6⟩,
          ⟨tok.colon, ":", 8⟩, ⟨tok.identifier, "B", 10⟩, ⟨tok.comma, ",", 11⟩,
          ⟨tok.identifier, "T", 12⟩, ⟨tok.equal, "=", 14⟩, ⟨tok.identifier, "U", 16⟩,
          ⟨tok.oper_binary, ">", 17⟩] 18).lex :=
    RespellUnnoticed.later _ (by rfl)
      (by unfold Parser.RightHandUnnoticed; rw [if_pos (by rfl), if_neg (by decide)]; rfl)
      (RespellUnnoticed.here _ (by rfl) (by rfl) (by rfl))
  ⟨hU,
   parseGenericWhereClause_single_equal_lenient Reference.recoveringEnv
     Reference.forwardOnly_recoveringEnv 2 14 10
     (Reference.start [⟨tok.kw_where, "where", 0⟩, ⟨tok.identifier, "A", 6⟩,
          ⟨tok.colon, ":", 8⟩, ⟨tok.identifier, "B", 10⟩, ⟨tok.comma, ",", 11⟩,
          ⟨tok.identifier, "T", 12⟩, ⟨tok.equal, "=", 14⟩, ⟨tok.identifier, "U", 16⟩,
          ⟨tok.oper_binary, ">", 17⟩] 18) [] (by decide) (by decide)
     (SingleEqualDelimiter.later _ _ _ rfl rfl (SingleEqualDelimiter.here _ _ _ rfl rfl rfl))
     hU,
   by decide, by decide, by decide⟩

/-- C19: a failing constraint sub-parser does not mark the parse invalid.  Let the name of a
parameter be followed by `:` and then by an identifier on which `parseTypeIdentifier` fails,
or by the `protocol` keyword on which `parseTypeComposition` fails, `Q2` being the parser
that sub-parser leaves.  Then the pass emits nothing itself (its sink is that of `Q2`),
builds the parameter with no constraint and adds it to the scope, and returns the validity
flag it was entered with.  Consequently: let the loop have come to this pass with the flag
clear, let the rest of the run record no error (either no comma follows, or the loop goes
on over the comma and, entered with the flag clear, ends with it clear; and the where-clause
step, entered with the flag clear, leaves it clear), and let the token at the close position
not begin with `>`.  Then the call returns the list and the closing step emits both
closing-bracket diagnostics. -/
theorem parseGenericParameters_failed_constraint_keeps_flag (E : Env σ) (Q Q1 Q2 : Parser σ)
    (Name : String) (NameLoc : SourceLoc)
    (hn : Q.invoke (E.parseIdentifier DiagID.expected_generics_parameter_name) =
      (some (Name, NameLoc), Q1))
    (hc : Q1.Tok.Kind = tok.colon)
    (hs : (Q1.lex.Tok.Kind = tok.identifier ∧
            Q1.lex.invoke E.parseTypeIdentifier = (none, Q2)) ∨
          (Q1.lex.Tok.Kind = tok.kw_protocol ∧
            Q1.lex.invoke E.parseTypeComposition = (none, Q2))) :
    ∃ (Param : GenericParam) (Q3 : Parser σ),
      Param = { TypeAliasLoc := NameLoc, Name := Name, NameLoc := NameLoc, UnderlyingTy := none,
                DC := Q2.CurDeclContext, Inherited := [], GenericParameter := true } ∧
      Q3.Diags = Q2.Diags ∧ Q3.Tok = Q2.Tok ∧ Q3.L = Q2.L ∧
      Q3.ScopeInfo = Q2.ScopeInfo ++ [Param] ∧
      (∀ I, Parser.parseGenericParametersBody E Q I = .ok (some Param, I, Q3)) ∧
      (∀ (P P1 P2 : Parser σ) (Gq G : List GenericParam) (k n : Nat) (LAngleLoc W : SourceLoc)
          (R : List Requirement),
        ParameterPasses E k P [] false Q Gq false →
        ((Q2.Tok.Kind ≠ tok.comma ∧ G = Gq ++ [Param] ∧ P1 = Q3) ∨
          (Q2.Tok.Kind = tok.comma ∧
            Parser.parseGenericParametersLoop E n Q3.lex (Gq ++ [Param]) false =
              .ok (G, false, P1))) →
        Parser.parseGenericParametersWhere E (n + 1 + k) P1 false = .ok (W, R, false, P2) →
        startsWithGreater P2.Tok = false →
        ∃ RAngleLoc P3, Parser.parseGenericParametersAt E (n + 1 + k) LAngleLoc P =
            .ok (some { LAngleLoc := LAngleLoc, Params := G, WhereLoc := W,
                        Requirements := R, RAngleLoc := RAngleLoc }, P3) ∧
          (∃ Rest, G = Gq ++ Param :: Rest) ∧
          P3.Diags = P2.Diags ++
            [{ Loc := P2.Tok.getLoc, ID := DiagID.expected_rangle_generics_param,
               FixIts := [] },
             { Loc := LAngleLoc, ID := DiagID.opening_angle, FixIts := [] }]) := by
  have hb : ∀ I, Parser.parseGenericParametersBody E Q I =
      .ok (some (Q2.makeGenericParam Name NameLoc []), I,
           Q2.addToScope (Q2.makeGenericParam Name NameLoc [])) := by
    intro I
    unfold Parser.parseGenericParametersBody
    rw [hn]
    simp only
    rcases inherited_cases E Q1 Name I with
      ⟨h1, _⟩ | ⟨_, hk, h2⟩ | ⟨_, hk, h2⟩ | ⟨_, hk1, hk2, _⟩
    · exact absurd hc h1
    · rcases hs with ⟨_, hs⟩ | ⟨hs, _⟩
      · rw [h2, hs]; rfl
      · rw [hk] at hs; cases hs
    · rcases hs with ⟨hs, _⟩ | ⟨_, hs⟩
      · rw [hk] at hs; cases hs
      · rw [h2, hs]; rfl
    · rcases hs with ⟨hs, _⟩ | ⟨hs, _⟩
      · exact absurd hs hk1
      · exact absurd hs hk2
  refine ⟨Q2.makeGenericParam Name NameLoc [],
    Q2.addToScope (Q2.makeGenericParam Name NameLoc []), rfl, rfl, rfl, rfl, rfl, hb, ?_⟩
  intro P P1 P2 Gq G k n LAngleLoc W R hp hrest hw hg
  have hloop : Parser.parseGenericParametersLoop E ((n + 1) + k) P [] false =
      .ok (G, false, P1) ∧ ∃ Rest, G = Gq ++ Q2.makeGenericParam Name NameLoc [] :: Rest := by
    rw [paramLoop_passes_eq E k P Q [] Gq false false hp (n + 1),
      paramLoop_step E n Q _ Gq false false _ (hb false)]
    rcases hrest with ⟨hcomma, hG, hP⟩ | ⟨hcomma, hl⟩
    · have hcomma2 :
          ¬ (Q2.addToScope (Q2.makeGenericParam Name NameLoc [])).Tok.Kind = tok.comma := hcomma
      rw [if_neg hcomma2, hG, hP]
      exact ⟨rfl, [], rfl⟩
    · have hcomma2 :
          (Q2.addToScope (Q2.makeGenericParam Name NameLoc [])).Tok.Kind = tok.comma := hcomma
      rw [if_pos hcomma2]
      refine ⟨hl, ?_⟩
      obtain ⟨New, hN⟩ := paramLoop_prefix E _ _ _ _ _ _ _ hl
      exact ⟨New, by rw [hN]; simp⟩
  obtain ⟨hloop, Rest, hG⟩ := hloop
  refine ⟨(P2.diagnoseMissingRAngle LAngleLoc false).skipUntilAnyOperator.Tok.getLoc,
    afterRAngle E P2 LAngleLoc false, ?_, ⟨Rest, hG⟩, ?_⟩
  · unfold Parser.parseGenericParametersAt
    rw [hloop]
    simp only [hw, rangle_eq, hg, Bool.false_eq_true, if_false]
    rw [hG]
    cases Gq <;> rfl
  · rw [Diags_afterRAngle]
    simp only [hg, Bool.or_self, Bool.false_eq_true, if_false]

/-- C19, on `<T : protocol , U y` with the recovering sub-parsers, the opening bracket at 0
consumed: the composition parser has consumed `protocol` when it fails on the comma, with a
diagnostic of its own; the loop goes on over the comma to `U`; the call returns `T` and `U`,
both without constraint, and both closing-bracket diagnostics follow, at `y` and at the
opening bracket. -/
theorem parseGenericParameters_failed_constraint_keeps_flag_witness :
    (Reference.start [⟨tok.identifier, "T", 1⟩, ⟨tok.colon, ":", 3⟩,
          ⟨tok.kw_protocol, "protocol", 5⟩, ⟨tok.comma, ",", 14⟩, ⟨tok.identifier, "U", 16⟩,
          ⟨tok.identifier, "y", 18⟩] 19).invoke
        (Reference.recoveringEnv.parseIdentifier DiagID.expected_generics_parameter_name) =
      (some ("T", some 1), (Reference.state ⟨tok.colon, ":", 3⟩
          [⟨tok.kw_protocol, "protocol", 5⟩, ⟨tok.comma, ",", 14⟩, ⟨tok.identifier, "U", 16⟩,
           ⟨tok.identifier, "y", 18⟩] 19 [] [])) ∧
    (Reference.state ⟨tok.colon, ":", 3⟩
          [⟨tok.kw_protocol, "protocol", 5⟩, ⟨tok.comma, ",", 14⟩, ⟨tok.identifier, "U", 16⟩,
           ⟨tok.identifier, "y", 18⟩] 19 [] []).lex.invoke Reference.recoveringEnv.parseTypeComposition =
      (none, (Reference.state ⟨tok.comma, ",", 14⟩
          [⟨tok.identifier, "U", 16⟩, ⟨tok.identifier, "y", 18⟩] 19
          [{ Loc := some 14, ID := DiagID.other 1, FixIts := [] }] [])) ∧
    (∃ (Param : GenericParam) (Q3 : Parser Unit),
      Param = ⟨some 1, "T", some 1, none, (Reference.state ⟨tok.comma, ",", 14⟩
          [⟨tok.identifier, "U", 16⟩, ⟨tok.identifier, "y", 18⟩] 19
          [{ Loc := some 14, ID := DiagID.other 1, FixIts := [] }] []).CurDeclContext, [], true⟩ ∧
      Q3.Diags = (Reference.state ⟨tok.comma, ",", 14⟩
          [⟨tok.identifier, "U", 16⟩, ⟨tok.identifier, "y", 18⟩] 19
          [{ Loc := some 14, ID := DiagID.other 1, FixIts := [] }] []).Diags ∧
      Q3.Tok = (Reference.state ⟨tok.comma, ",", 14⟩
          [⟨tok.identifier, "U", 16⟩, ⟨tok.identifier, "y", 18⟩] 19
          [{ Loc := some 14, ID := DiagID.other 1, FixIts := [] }] []).Tok ∧
      Q3.L = (Reference.state ⟨tok.comma, ",", 14⟩
          [⟨tok.identifier, "U", 16⟩, ⟨tok.identifier, "y", 18⟩] 19
          [{ Loc := some 14, ID := DiagID.other 1, FixIts := [] }] []).L ∧
      Q3.ScopeInfo = (Reference.state ⟨tok.comma, ",", 14⟩
          [⟨tok.identifier, "U", 16⟩, ⟨tok.identifier, "y", 18⟩] 19
          [{ Loc := some 14, ID := DiagID.other 1, FixIts := [] }] []).ScopeInfo ++ [Param] ∧
      (∀ I, Parser.parseGenericParametersBody Reference.recoveringEnv
        (Reference.start [⟨tok.identifier, "T", 1⟩, ⟨tok.colon, ":", 3⟩,
          ⟨tok.kw_protocol, "protocol", 5⟩, ⟨tok.comma, ",", 14⟩, ⟨tok.identifier, "U", 16⟩,
          ⟨tok.identifier, "y", 18⟩] 19) I = .ok (some Param, I, Q3)) ∧
      (∀ (P P1 P2 : Parser Unit) (Gq G : List GenericParam) (k n : Nat)
          (LAngleLoc W : SourceLoc) (R : List Requirement),
        ParameterPasses Reference.recoveringEnv k P [] false
          (Reference.start [⟨tok.identifier, "T", 1⟩, ⟨tok.colon, ":", 3⟩,
          ⟨tok.kw_protocol, "protocol", 5⟩, ⟨tok.comma, ",", 14⟩, ⟨tok.identifier, "U", 16⟩,
          ⟨tok.identifier, "y", 18⟩] 19) Gq false →
        (((Reference.state ⟨tok.comma, ",", 14⟩
          [⟨tok.identifier, "U", 16⟩, ⟨tok.identifier, "y", 18⟩] 19
          [{ Loc := some 14, ID := DiagID.other 1, FixIts := [] }] []).Tok.Kind ≠ tok.comma ∧ G = Gq ++ [Param] ∧ P1 = Q3) ∨
          ((Reference.state ⟨tok.comma, ",", 14⟩
          [⟨tok.identifier, "U", 16⟩, ⟨tok.identifier, "y", 18⟩] 19
          [{ Loc := some 14, ID := DiagID.other 1, FixIts := [] }] []).Tok.Kind = tok.comma ∧
            Parser.parseGenericParametersLoop Reference.recoveringEnv n Q3.lex
              (Gq ++ [Param]) false = .ok (G, false, P1))) →
        Parser.parseGenericParametersWhere Reference.recoveringEnv (n + 1 + k) P1 false =
          .ok (W, R, false, P2) →
        startsWithGreater P2.Tok = false →
        ∃ RAngleLoc P3,
          Parser.parseGenericParametersAt Reference.recoveringEnv (n + 1 + k) LAngleLoc P =
            .ok (some ⟨LAngleLoc, G, W, R, RAngleLoc⟩, P3) ∧
          (∃ Rest, G = Gq ++ Param :: Rest) ∧
          P3.Diags = P2.Diags ++
            [{ Loc := P2.Tok.getLoc, ID := DiagID.expected_rangle_generics_param,
               FixIts := [] },
             { Loc := LAngleLoc, ID := DiagID.opening_angle, FixIts := [] }])) ∧
    (∃ RAngleLoc P3,
      Parser.parseGenericParametersAt Reference.recoveringEnv 2 (some 0)
          (Reference.start [⟨tok.identifier, "T", 1⟩, ⟨tok.colon, ":", 3⟩,
          ⟨tok.kw_protocol, "protocol", 5⟩, ⟨tok.comma, ",", 14⟩, ⟨tok.identifier, "U", 16⟩,
          ⟨tok.identifier, "y", 18⟩] 19) =
        .ok (some ⟨some 0, [⟨some 1, "T", some 1, none, 0, [], true⟩,
                            ⟨some 16, "U", some 16, none, 0, [], true⟩],
                   none, [], RAngleLoc⟩, P3) ∧
      P3.Diags =
        [{ Loc := some 14, ID := DiagID.other 1, FixIts := [] },
         { Loc := some 18, ID := DiagID.expected_rangle_generics_param, FixIts := [] },
         { Loc := some 0, ID := DiagID.opening_angle, FixIts := [] }]) := by
  have h := parseGenericParameters_failed_constraint_keeps_flag Reference.recoveringEnv
    (Reference.start [⟨tok.identifier, "T", 1⟩, ⟨tok.colon, ":", 3⟩,
          ⟨tok.kw_protocol, "protocol", 5⟩, ⟨tok.comma, ",", 14⟩, ⟨tok.identifier, "U", 16⟩,
          ⟨tok.identifier, "y", 18⟩] 19)
    (Reference.state ⟨tok.colon, ":", 3⟩
          [⟨tok.kw_protocol, "protocol", 5⟩, ⟨tok.comma, ",", 14⟩, ⟨tok.identifier, "U", 16⟩,
           ⟨tok.identifier, "y", 18⟩] 19 [] [])
    (Reference.state ⟨tok.comma, ",", 14⟩
          [⟨tok.identifier, "U", 16⟩, ⟨tok.identifier, "y", 18⟩] 19
          [{ Loc := some 14, ID := DiagID.other 1, FixIts := [] }] [])
    "T" (some 1) (by rfl) (by decide) (Or.inr ⟨by decide, by rfl⟩)
  refine ⟨by rfl, by rfl, h, ?_⟩
  obtain ⟨Param, Q3, hParam, _, _, _, _, hb, hrun⟩ := h
  have hbody : Parser.parseGenericParametersBody Reference.recoveringEnv
      (Reference.start [⟨tok.identifier, "T", 1⟩, ⟨tok.colon, ":", 3⟩,
          ⟨tok.kw_protocol, "protocol", 5⟩, ⟨tok.comma, ",", 14⟩, ⟨tok.identifier, "U", 16⟩,
          ⟨tok.identifier, "y", 18⟩] 19) false =
      .ok (some ⟨some 1, "T", some 1, none, 0, [], true⟩, false,
        (Reference.state ⟨tok.comma, ",", 14⟩
          [⟨tok.identifier, "U", 16⟩, ⟨tok.identifier, "y", 18⟩] 19
          [{ Loc := some 14, ID := DiagID.other 1, FixIts := [] }]
          [⟨some 1, "T", some 1, none, 0, [], true⟩])) := by rfl
  have hQ3 : Q3 = (Reference.state ⟨tok.comma, ",", 14⟩
          [⟨tok.identifier, "U", 16⟩, ⟨tok.identifier, "y", 18⟩] 19
          [{ Loc := some 14, ID := DiagID.other 1, FixIts := [] }]
          [⟨some 1, "T", some 1, none, 0, [], true⟩]) := by
    have h1 := hb false
    rw [hbody] at h1
    simp only [Except.ok.injEq, Prod.mk.injEq, Option.some.injEq, true_and] at h1
    exact h1.2.symm
  subst hQ3
  have hP : Param = ⟨some 1, "T", some 1, none, 0, [], true⟩ := hParam
  subst hP
  obtain ⟨RAngleLoc, P3, hAt, _, hD⟩ := hrun
    (Reference.start [⟨tok.identifier, "T", 1⟩, ⟨tok.colon, ":", 3⟩,
          ⟨tok.kw_protocol, "protocol", 5⟩, ⟨tok.comma, ",", 14⟩, ⟨tok.identifier, "U", 16⟩,
          ⟨tok.identifier, "y", 18⟩] 19)
    (Reference.state ⟨tok.identifier, "y", 18⟩ [] 19
          [{ Loc := some 14, ID := DiagID.other 1, FixIts := [] }]
          [⟨some 1, "T", some 1, none, 0, [], true⟩,
           ⟨some 16, "U", some 16, none, 0, [], true⟩])
    (Reference.state ⟨tok.identifier, "y", 18⟩ [] 19
          [{ Loc := some 14, ID := DiagID.other 1, FixIts := [] }]
          [⟨some 1, "T", some 1, none, 0, [], true⟩,
           ⟨some 16, "U", some 16, none, 0, [], true⟩])
    [] [⟨some 1, "T", some 1, none, 0, [], true⟩, ⟨some 16, "U", some 16, none, 0, [], true⟩]
    0 1 (some 0) none [] (ParameterPasses.here _ _ _) (Or.inr ⟨by decide, by rfl⟩) (by rfl)
    (by decide)
  exact ⟨RAngleLoc, P3, hAt, hD⟩

end swift
